import Mathlib

/-!
# xv6 process table: stride / MLFQ scheduling and lifecycle (`proc.c`)

A shallow embedding of `src/xv6-public/proc.c`.

* The process table `ptable.proc[NPROC]` is a `List Proc`; `NPROC` is the
  length of that list (`param.h` is not part of the sources).
* A `struct proc *` is `Option Nat`: `none` is the null pointer and `some i`
  is `&ptable.proc[i]`.
* The per-CPU variable `proc` (the calling unit) is an explicit argument of
  every operation that reads it.
* C `int` values are `Int`; every arithmetic result that is stored is reduced
  with `wrap32` (two's complement, 32 bits). `/` on `int` is `Int.tdiv`.
* `panic` (and a dereference of a null `struct proc *`) is `none`.
* Locks, the file layer, the address-space layer and the context switch are
  external collaborators. `swtch` into a unit is a parameter of the
  scheduler paths; what `kalloc`, `copyuvm`, `allocuvm` and `copyout` answer
  is a parameter of the operations that call them.
* `wait` and `thread_join` are one pass of their `for(;;)` loop: the call
  returns, or the caller goes to sleep and the loop is run again after the
  wake-up.
-/

namespace Xv6

/-- Modelled from the spec: `enum procstate` of `proc.h`, which is not part of
the sources; the six lifecycle states of spec section 3, in xv6 order. -/
inductive procstate where
  | UNUSED
  | EMBRYO
  | SLEEPING
  | RUNNABLE
  | RUNNING
  | ZOMBIE
deriving DecidableEq, Repr

/-- A `void *` wait channel: null, the address of a table record, or the
address of any other kernel object. -/
inductive Chan where
  | null
  | procp (i : Nat)
  | obj (a : Nat)
deriving DecidableEq, Repr

/-- Modelled from the spec: `struct proc` of `proc.h`, which is not part of
the sources. The fields are the ones `proc.c` reads and writes (spec
section 3); trap frame, context, open files and working directory belong to
external collaborators and are left out. The default value of every field is
the zero-initialised record of the static table. -/
structure Proc where
  sz : Nat := 0
  std : Nat := 0
  pgdir : Option Nat := none
  kstack : Option Nat := none
  state : procstate := procstate.UNUSED
  pid : Int := 0
  tid : Int := 0
  parent : Option Nat := none
  killed : Int := 0
  chan : Chan := Chan.null
  name : String := ""
  priority : Int := 0
  ticks : Int := 0
  tickets : Int := 0
  stride : Int := 0
  pass_value : Int := 0
  tspace : List Int := [0, 0, 0, 0, 0, 0, 0, 0, 0, 0]
  ret_val : Nat := 0
deriving DecidableEq, Repr

/-- The globals of `proc.c`: the table and the file-scope variables. -/
structure Kernel where
  ptable : List Proc := []
  initproc : Option Nat := none
  nextpid : Int := 1
  nexttid : Int := 1
  boost_check : Int := 0
  total_tickets : Int := 0
  mlfq_pass_value : Int := 0
  stride_pass_value : Int := 0
deriving DecidableEq, Repr

/-- Two's-complement reduction of an `int` result to 32 bits. -/
def wrap32 (x : Int) : Int := (x + 2147483648) % 4294967296 - 2147483648

/-- Largest `int`. -/
def INT_MAX : Int := 2147483647

/-- Smallest `int`. -/
def INT_MIN : Int := -2147483648

/-- The zero-initialised record of the static table. -/
def Proc.zero : Proc := {}

/-- The record `ptable.proc[i]` (the zero record outside the table). -/
def Kernel.get (k : Kernel) (i : Nat) : Proc := k.ptable.getD i Proc.zero

/-- Assignment through a `struct proc *`: replace record `i` by `f` of it. -/
def Kernel.modify (k : Kernel) (i : Nat) (f : Proc → Proc) : Kernel :=
  { k with ptable := k.ptable.set i (f (k.get i)) }

/-- Assignment to the global `total_tickets`. -/
def Kernel.setTotal (k : Kernel) (v : Int) : Kernel := { k with total_tickets := v }

/-- The cast of a `struct proc *` to a `void *` channel. -/
def chanOf : Option Nat → Chan
  | none => Chan.null
  | some i => Chan.procp i

/-- The loop `for(p = ptable.proc; p < &ptable.proc[NPROC]; p++) body`, with
`NPROC = n`; the body sees the index of `p` and the loop state. -/
def forEachProc {σ : Type} (n : Nat) (body : Nat → σ → σ) (s : σ) : σ :=
  (List.range n).foldl (fun st i => body i st) s

/-- The loop `for(i = 0, ref = ptable.proc[i]; i < NPROC; ref = ptable.proc[i++]) body`
from index `i` on, with `fuel = NPROC - i`. `ref` is a local `struct proc`
(a copy of a record), `s` the other locals; the body returns the new copy, the
new locals and whether it executed `break`. The step `ref = ptable.proc[i++]`
loads record `i` and then increments `i`. -/
def refLoopFrom {σ : Type} (k : Kernel) (body : Proc → σ → Proc × σ × Bool) :
    Nat → Nat → Proc → σ → Proc × σ
  | 0, _, ref, s => (ref, s)
  | fuel + 1, i, ref, s =>
    match body ref s with
    | (ref1, s1, true) => (ref1, s1)
    | (_, s1, false) => refLoopFrom k body fuel (i + 1) (k.get i) s1

/-- The whole loop over the local copy `ref`, started at `i = 0`,
`ref = ptable.proc[0]`. Returns the final copy and locals; the table is not
written. -/
def refLoop {σ : Type} (k : Kernel) (body : Proc → σ → Proc × σ × Bool) (s : σ) : Proc × σ :=
  refLoopFrom k body k.ptable.length 0 (k.get 0) s

/-- Source `stride_realloc` (proc.c 798-809): every record with
`tickets > 0` gets `stride = total_tickets / tickets`. -/
def stride_realloc (k : Kernel) : Kernel :=
  { k with ptable := k.ptable.map (fun p =>
      if p.tickets > 0 then { p with stride := Int.tdiv k.total_tickets p.tickets } else p) }

/-- Source `set_cpu_share` (proc.c 734-765), called by unit `proc`.
Returns the `int` result and the new globals. -/
def set_cpu_share (proc : Nat) (share : Int) (k : Kernel) : Int × Kernel :=
  if share ≤ 0 then (-1, k)
  else if wrap32 (k.total_tickets + share) ≤ 80 then
    let k1 := k.modify proc (fun p => { p with tickets := share })
    let k2 := k1.setTotal (wrap32 (k1.total_tickets + share))
    let k3 := k2.modify proc (fun p => { p with pass_value := 0 })
    (share, stride_realloc k3)
  else (-1, k)

/-- Source `wakeup1` (proc.c 617-625): every record that is SLEEPING on
`chan` becomes RUNNABLE. -/
def wakeup1 (chan : Chan) (k : Kernel) : Kernel :=
  { k with ptable := k.ptable.map (fun p =>
      if p.state = procstate.SLEEPING ∧ p.chan = chan
      then { p with state := procstate.RUNNABLE } else p) }

/-- Source `wakeup` (proc.c 628-634): `wakeup1` under the table lock. -/
def wakeup (chan : Chan) (k : Kernel) : Kernel := wakeup1 chan k

/-- The reparenting step of the loops of `exit` (proc.c 309-313 and
335-339) at record `i`: a plain-process child of the caller is handed to
`initproc`, and `initproc` is woken when that child is a ZOMBIE. -/
def exit_reparent (proc : Nat) (i : Nat) (k : Kernel) : Kernel :=
  if (k.get i).parent = some proc ∧ (k.get i).tid = -1 then
    let k1 := k.modify i (fun q => { q with parent := k.initproc })
    if (k1.get i).state = procstate.ZOMBIE then wakeup1 (chanOf k1.initproc) k1 else k1
  else k

/-- Body of the loop of `exit` when a plain process calls it
(proc.c 326-340), at record `i`: a thread of the caller is marked killed and,
when SLEEPING, made RUNNABLE (`continue`); then the reparenting step. -/
def exit_proc_body (proc : Nat) (i : Nat) (k : Kernel) : Kernel :=
  if (k.get i).parent = some proc ∧ (k.get i).tid > 0 then
    let k1 := k.modify i (fun q => { q with killed := 1 })
    if (k1.get i).state = procstate.SLEEPING then
      k1.modify i (fun q => { q with state := procstate.RUNNABLE })
    else exit_reparent proc i k1
  else exit_reparent proc i k

/-- The end of `exit` (proc.c 343-358): the caller becomes ZOMBIE and, when it
holds tickets, releases them; strides are recomputed when the new total is
positive. -/
def exit_release (proc : Nat) (k : Kernel) : Kernel :=
  let k1 := k.modify proc (fun q => { q with state := procstate.ZOMBIE })
  if (k1.get proc).tickets > 0 then
    let k2 := k1.setTotal (wrap32 (k1.total_tickets - (k1.get proc).tickets))
    let k3 := k2.modify proc (fun q => { q with tickets := 0, stride := 0, pass_value := 0 })
    if k3.total_tickets > 0 then stride_realloc k3 else k3
  else k1

/-- Source `exit` (proc.c 277-362), called by unit `proc`, up to the final
`sched()`. `none` is the halt `panic("init exiting")` (or a null
`proc->parent` dereferenced by a thread). -/
def exit (proc : Nat) (k : Kernel) : Option Kernel :=
  if (k.get proc).parent = k.initproc then none
  else if (k.get proc).tid > 0 then
    let k1 := wakeup1 (chanOf (k.get proc).parent) k
    let k2 := forEachProc k1.ptable.length (exit_reparent proc) k1
    match (k2.get proc).parent with
    | none => none
    | some par => some (exit_release proc (k2.modify par (fun q => { q with killed := 1 })))
  else
    let k1 := wakeup1 (chanOf (k.get proc).parent) k
    let k2 := forEachProc k1.ptable.length (exit_proc_body proc) k1
    some (exit_release proc k2)

/-- Source `priority_manage` (proc.c 697-724): the `switch` on the level. -/
def priority_manage (p : Proc) : Proc :=
  if p.priority = 0 then
    if p.ticks = 5 then { p with priority := wrap32 (p.priority + 1), ticks := 0 } else p
  else if p.priority = 1 then
    if p.ticks = 10 then { p with priority := wrap32 (p.priority + 1), ticks := 0 } else p
  else if p.priority = 2 then
    if p.ticks = 20 then { p with ticks := 0 } else p
  else p

/-- Source `yield` (proc.c 538-554), called by unit `proc`, up to `sched()`:
on a timer interrupt `proc->ticks++` and `priority_manage(proc)`, then the
caller becomes RUNNABLE. -/
def yield (proc : Nat) (timer_interrupt : Int) (k : Kernel) : Kernel :=
  let k1 :=
    if timer_interrupt ≠ 0 then
      (k.modify proc (fun p => { p with ticks := wrap32 (p.ticks + 1) })).modify proc
        priority_manage
    else k
  k1.modify proc (fun p => { p with state := procstate.RUNNABLE })

/-- Source `sleep` (proc.c 579-603), up to `sched()`. `proc` is the per-CPU
current unit (null when the CPU runs no unit), `lk` the lock the caller
holds. `none` is `panic("sleep")` or `panic("sleep without lk")`. -/
def sleep (proc : Option Nat) (chan : Chan) (lk : Option Nat) (k : Kernel) : Option Kernel :=
  match proc with
  | none => none
  | some me =>
    match lk with
    | none => none
    | some _ =>
      some ((k.modify me (fun q => { q with chan := chan })).modify me
        (fun q => { q with state := procstate.SLEEPING }))

/-- Body of the loop of `add_clock` (proc.c 780-783): both assignments go to
the local copy `ref`; nothing breaks out. -/
def add_clock_body (ref : Proc) (u : Unit) : Proc × Unit × Bool :=
  ({ ref with priority := 0, ticks := 0 }, u, false)

/-- Source `add_clock` (proc.c 768-794). -/
def add_clock (k : Kernel) : Kernel :=
  let k1 : Kernel := { k with boost_check := wrap32 (k.boost_check + 1) }
  if k1.boost_check = 100 then
    let _ref := (refLoop k1 add_clock_body ()).1
    { k1 with boost_check := 0 }
  else k1

/-- First scan of the stride path (proc.c 446-451): the pass value of the
first copy that is RUNNABLE with tickets, then `break`. -/
def stride_scan_first (ref : Proc) (ps_val : Int) : Proc × Int × Bool :=
  if ref.state = procstate.RUNNABLE ∧ ref.tickets ≠ 0 then (ref, ref.pass_value, true)
  else (ref, ps_val, false)

/-- Second scan of the stride path (proc.c 454-458): lower `ps_val` to a
smaller pass value of a RUNNABLE copy with tickets. -/
def stride_scan_min (ref : Proc) (ps_val : Int) : Proc × Int × Bool :=
  if ref.state = procstate.RUNNABLE ∧ ref.tickets ≠ 0 ∧ ref.pass_value < ps_val
  then (ref, ref.pass_value, false)
  else (ref, ps_val, false)

/-- Body of the dispatch loop of the stride path (proc.c 461-477) at record
`i`. The loop state is the globals and the turns given so far: each turn is
the index of the unit and its record as the loop found it. `swtch i` is what
happens between the switch into unit `i` and the switch back. -/
def stride_run_body (swtch : Nat → Kernel → Kernel) (ps_val : Int) (i : Nat)
    (st : Kernel × List (Nat × Proc)) : Kernel × List (Nat × Proc) :=
  if (st.1.get i).state ≠ procstate.RUNNABLE ∨ (st.1.get i).pass_value ≠ ps_val then st
  else
    let k1 := st.1.modify i (fun q => { q with pass_value := wrap32 (q.pass_value + q.stride) })
    let k2 := k1.modify i (fun q => { q with state := procstate.RUNNING })
    (swtch i k2, st.2 ++ [(i, st.1.get i)])

/-- One pass of the stride path of `scheduler` (proc.c 443-479): the final
globals, the reference value `ps_val` and the turns given, in order. -/
def stride_path (swtch : Nat → Kernel → Kernel) (k : Kernel) :
    Kernel × Int × List (Nat × Proc) :=
  let ps0 := (refLoop k stride_scan_first 0).2
  let ps_val := (refLoop k stride_scan_min ps0).2
  let r := forEachProc k.ptable.length (stride_run_body swtch ps_val) (k, [])
  (r.1, ps_val, r.2)

/-- Scan of the feedback-queue path (proc.c 485-489): lower `level` to a
smaller priority of a RUNNABLE copy without tickets. -/
def mlfq_scan_level (ref : Proc) (level : Int) : Proc × Int × Bool :=
  if ref.state = procstate.RUNNABLE ∧ ref.tickets = 0 ∧ ref.priority < level
  then (ref, ref.priority, false)
  else (ref, level, false)

/-- Body of the dispatch loop of the feedback-queue path (proc.c 492-504) at
record `i`; loop state as in `stride_run_body`. -/
def mlfq_run_body (swtch : Nat → Kernel → Kernel) (level : Int) (i : Nat)
    (st : Kernel × List (Nat × Proc)) : Kernel × List (Nat × Proc) :=
  if (st.1.get i).state ≠ procstate.RUNNABLE ∨ (st.1.get i).tickets ≠ 0
      ∨ (st.1.get i).priority ≠ level then st
  else
    let k2 := st.1.modify i (fun q => { q with state := procstate.RUNNING })
    (swtch i k2, st.2 ++ [(i, st.1.get i)])

/-- One pass of the feedback-queue path of `scheduler` (proc.c 482-506): the
final globals, the selected `level` and the turns given, in order. -/
def mlfq_path (swtch : Nat → Kernel → Kernel) (k : Kernel) :
    Kernel × Int × List (Nat × Proc) :=
  let level := (refLoop k mlfq_scan_level 2).2
  let r := forEachProc k.ptable.length (mlfq_run_body swtch level) (k, [])
  (r.1, level, r.2)

/-- The reservation data of the globals: `total_tickets` and, for every table
record in order, its tickets, stride and pass value. -/
def shareView (k : Kernel) : Int × List (Int × Int × Int) :=
  (k.total_tickets, k.ptable.map (fun p => (p.tickets, p.stride, p.pass_value)))

/-! ## Example tables -/

/-- A table of five units: init, the shell forked by init, and three plain
processes forked by the shell. Nobody holds tickets. -/
def demo : Kernel :=
  { ptable :=
      [ { state := procstate.SLEEPING, pid := 1, tid := -1, chan := Chan.procp 0, name := "init" },
        { state := procstate.SLEEPING, pid := 2, tid := -1, parent := some 0,
          chan := Chan.procp 1, name := "sh" },
        { state := procstate.RUNNING, pid := 3, tid := -1, parent := some 1, name := "a" },
        { state := procstate.RUNNING, pid := 4, tid := -1, parent := some 1, name := "b" },
        { state := procstate.RUNNING, pid := 5, tid := -1, parent := some 1, name := "c" } ],
    initproc := some 0,
    nextpid := 6 }

/-- The table `demo` after unit 2 was granted 30 tickets and unit 3 was
granted 50. -/
def demo80 : Kernel := (set_cpu_share 3 50 (set_cpu_share 2 30 demo).2).2

/-- A table whose units sit at feedback levels 2 and 1 with ticks used. -/
def boostDemo : Kernel :=
  { ptable :=
      [ { state := procstate.SLEEPING, pid := 1, tid := -1, chan := Chan.procp 0, name := "init" },
        { state := procstate.RUNNABLE, pid := 2, tid := -1, parent := some 0, name := "sh",
          priority := 2, ticks := 7 },
        { state := procstate.RUNNING, pid := 3, tid := -1, parent := some 1, name := "a",
          priority := 1, ticks := 3 } ],
    initproc := some 0,
    nextpid := 4 }

/-- A table with one reserved unit (record 1, 30 tickets, just granted) and
one RUNNABLE unit without tickets (record 2, the shell). -/
def strideDemo : Kernel :=
  { ptable :=
      [ { state := procstate.SLEEPING, pid := 1, tid := -1, chan := Chan.procp 0, name := "init" },
        { state := procstate.RUNNABLE, pid := 3, tid := -1, parent := some 2, name := "a",
          tickets := 30, stride := 1 },
        { state := procstate.RUNNABLE, pid := 2, tid := -1, parent := some 0, name := "sh" } ],
    initproc := some 0,
    nextpid := 4,
    total_tickets := 30 }

/-! ## Allocation, fork, wait, the arbitrator and threads -/

/-- Assignment to the global `nextpid`. -/
def Kernel.setNextpid (k : Kernel) (v : Int) : Kernel := { k with nextpid := v }

/-- Assignment to the global `nexttid`. -/
def Kernel.setNexttid (k : Kernel) (v : Int) : Kernel := { k with nexttid := v }

/-- Assignment to the global `stride_pass_value`. -/
def Kernel.setStridePass (k : Kernel) (v : Int) : Kernel := { k with stride_pass_value := v }

/-- Assignment to the global `mlfq_pass_value`. -/
def Kernel.setMlfqPass (k : Kernel) (v : Int) : Kernel := { k with mlfq_pass_value := v }

/-- What the external collaborators answer during one call: `kalloc()` (a
kernel stack, or 0), `copyuvm` (a page directory, or 0), `allocuvm` (the new
size, or 0), `copyout` (negative on failure); and the page size `PGSIZE` of
`mmu.h`, which is not part of the sources. -/
structure Answers where
  kalloc : Option Nat
  copyuvm : Option Nat
  allocuvm : Nat
  copyout : Int
  PGSIZE : Nat
deriving DecidableEq, Repr

/-- What a call that returned hands back: the `int` result, the table slot the
call recycled (if it reaped one), the page directories it passed to `freevm`,
the word it stored through `retval`, and the globals. -/
structure Returned where
  value : Int
  reaped : Option Nat
  freevm : List (Option Nat)
  retval : Option Nat
  k : Kernel
deriving DecidableEq, Repr

/-- How one pass of the `for(;;)` loop of `wait` or `thread_join` ends: the
call returns, the caller goes to sleep (the globals at `sched()`), or the
kernel halts. -/
inductive Outcome where
  | ret (r : Returned)
  | blocked (k : Kernel)
  | halt
deriving DecidableEq, Repr

/-- The search of `allocproc` (proc.c 83-86) over the slots `l`, in order:
the first record whose state is UNUSED. -/
def findUnused (k : Kernel) : List Nat → Option Nat
  | [] => none
  | i :: rest => if (k.get i).state = procstate.UNUSED then some i else findUnused k rest

/-- What `allocproc` leaves in a slot it hands out (proc.c 100-138): the
kernel stack and the zeroed scheduling attributes and slot bitmap. -/
def allocproc_init (ks : Nat) (p : Proc) : Proc :=
  { p with kstack := some ks, priority := 0, ticks := 0, tickets := 0, stride := 0,
           pass_value := 0, tspace := [0, 0, 0, 0, 0, 0, 0, 0, 0, 0] }

/-- Source `allocproc` (proc.c 74-141); `kalloc` is the answer of the
kernel-stack allocator. Returns the slot (or null) and the globals. -/
def allocproc (kalloc : Option Nat) (k : Kernel) : Option Nat × Kernel :=
  match findUnused k (List.range k.ptable.length) with
  | none => (none, k)
  | some i =>
    let k1 := k.modify i (fun p => { p with state := procstate.EMBRYO })
    let k2 := k1.modify i (fun p => { p with pid := k1.nextpid })
    let k3 := k2.setNextpid (wrap32 (k2.nextpid + 1))
    let k4 := k3.modify i (fun p => { p with tid := -1 })
    match kalloc with
    | none => (none, k4.modify i (fun p => { p with kstack := none, state := procstate.UNUSED }))
    | some ks => (some i, k4.modify i (allocproc_init ks))

/-- Source `fork` (proc.c 217-272), called by unit `proc`. Returns the `int`
result and the globals; `none` is a null `proc->parent` dereferenced by a
calling thread. -/
def fork (a : Answers) (proc : Nat) (k : Kernel) : Option (Int × Kernel) :=
  match allocproc a.kalloc k with
  | (none, k1) => some (-1, k1)
  | (some np, k1) =>
    let src : Option Nat :=
      if (k1.get proc).tid > 0 then (k1.get proc).parent else some proc
    match src with
    | none => none
    | some s =>
      match a.copyuvm with
      | none =>
        some (-1, k1.modify np (fun p =>
          { p with pgdir := none, kstack := none, state := procstate.UNUSED }))
      | some pd =>
        let k2 := k1.modify np (fun p => { p with pgdir := some pd })
        let k3 := k2.modify np (fun p => { p with std := (k2.get s).std, sz := (k2.get s).sz })
        let k4 := k3.modify np (fun p => { p with parent := some proc })
        let k5 := k4.modify np (fun p => { p with name := (k4.get proc).name })
        some ((k5.get np).pid, k5.modify np (fun p => { p with state := procstate.RUNNABLE }))

/-- The assignments that recycle a record in `wait` (proc.c 378-384 and
393-400): no kernel stack, pid 0, no parent, empty name, not killed, UNUSED. -/
def wait_clear (p : Proc) : Proc :=
  { p with kstack := none, pid := 0, parent := none, name := "", killed := 0,
           state := procstate.UNUSED }

/-- Body of the first loop of `wait` (proc.c 376-386) at record `i`: a ZOMBIE
thread record whose parent is a ZOMBIE is recycled. The test reads
`p->parent->state` also when `p->parent` is null (init, free slots); the word
read there is no table record, and `nullZombie` says whether it equals
ZOMBIE. -/
def wait_sweep_body (nullZombie : Bool) (i : Nat) (k : Kernel) : Kernel :=
  let parentZombie : Bool :=
    match (k.get i).parent with
    | none => nullZombie
    | some q => decide ((k.get q).state = procstate.ZOMBIE)
  if parentZombie = true ∧ (k.get i).state = procstate.ZOMBIE ∧ (k.get i).tid > 0
  then k.modify i wait_clear else k

/-- The second loop of `wait` (proc.c 387-404) over the slots `l`, in order,
with the current value of `havekids`: either the call returns the pid of the
first ZOMBIE child (`Sum.inl`), or the loop ends with `havekids`. -/
def wait_scan (proc : Nat) (k : Kernel) : List Nat → Bool → Returned ⊕ Bool
  | [], havekids => Sum.inr havekids
  | i :: rest, havekids =>
    if (k.get i).parent ≠ some proc then wait_scan proc k rest havekids
    else if (k.get i).state = procstate.ZOMBIE then
      Sum.inl { value := (k.get i).pid, reaped := some i, freevm := [(k.get i).pgdir],
                retval := none, k := k.modify i wait_clear }
    else wait_scan proc k rest true

/-- One pass of the `for(;;)` loop of source `wait` (proc.c 366-415), called
by unit `proc`. -/
def wait_pass (nullZombie : Bool) (proc : Nat) (k : Kernel) : Outcome :=
  let k1 := forEachProc k.ptable.length (wait_sweep_body nullZombie) k
  match wait_scan proc k1 (List.range k1.ptable.length) false with
  | Sum.inl r => Outcome.ret r
  | Sum.inr havekids =>
    if havekids = false ∨ (k1.get proc).killed ≠ 0 then
      Outcome.ret { value := -1, reaped := none, freevm := [], retval := none, k := k1 }
    else
      match sleep (some proc) (chanOf (some proc)) (some 0) k1 with
      | some ks => Outcome.blocked ks
      | none => Outcome.halt

/-- Source `decide_scheduler` (proc.c 813-850). Returns 1 for the stride pool
and 0 for the feedback pool, with the globals; `none` is the divide error of
`100 / (100 - total_tickets)` when the divisor is 0. -/
def decide_scheduler (k : Kernel) : Option (Int × Kernel) :=
  if k.total_tickets ≠ 0 then
    if wrap32 (100 - k.total_tickets) = 0 then none
    else
      let stride_stride := Int.tdiv 100 k.total_tickets
      let mlfq_stride := Int.tdiv 100 (wrap32 (100 - k.total_tickets))
      if k.stride_pass_value ≤ k.stride_pass_value then
        some (1, k.setStridePass (wrap32 (k.stride_pass_value + stride_stride)))
      else
        some (0, k.setMlfqPass (wrap32 (k.mlfq_pass_value + mlfq_stride)))
  else some (0, k)

/-- The loop `while(tparent->tid > 0) tparent = tparent->parent;` of
`thread_create` (proc.c 879-882), with `fuel` iterations left. `none` is a
null `tparent`, or more steps than the table has records (a cycle of thread
records: the loop does not end). -/
def thread_root (k : Kernel) : Nat → Option Nat → Option Nat
  | _, none => none
  | 0, some t => if (k.get t).tid > 0 then none else some t
  | fuel + 1, some t =>
    if (k.get t).tid > 0 then thread_root k fuel (k.get t).parent else some t

/-- The scans `for(i = 0; i < 10; i++) if(tspace[i] == v)` of `thread_create`
and `thread_join`: the first of the 10 slots whose entry is `v`. -/
def tspace_find (ts : List Int) (v : Int) : Option Nat :=
  (List.range 10).find? (fun i => decide (ts.getD i 0 = v))

/-- The ticket inheritance of `thread_create` (proc.c 886-890): when the root
holds tickets, the new record `nt` gets the root's tickets, stride and pass
value. -/
def thread_create_tickets (nt tparent : Nat) (k3 : Kernel) : Kernel :=
  if (k3.get tparent).tickets ≠ 0 then
    k3.modify nt (fun p => { p with tickets := (k3.get tparent).tickets,
                                    stride := (k3.get tparent).stride,
                                    pass_value := (k3.get tparent).pass_value })
  else k3

/-- The copying from the root in `thread_create` (proc.c 883-908) into the
new record `nt`: parent link, ticket inheritance, pid (with `nextpid--`),
page directory, `std` and name. -/
def thread_create_inherit (nt tparent : Nat) (k2 : Kernel) : Kernel :=
  let k3 := k2.modify nt (fun p => { p with parent := some tparent })
  let k4 := thread_create_tickets nt tparent k3
  let k5 := (k4.modify nt (fun p => { p with pid := (k4.get tparent).pid })).setNextpid
    (wrap32 (k4.nextpid - 1))
  let k6 := k5.modify nt (fun p =>
    { p with pgdir := (k5.get tparent).pgdir, std := (k5.get tparent).std })
  k6.modify nt (fun p => { p with name := (k6.get tparent).name })

/-- The marking of stack slot `espace` in `thread_create` (proc.c 915-916):
first in the root's bitmap, then in the new record's. -/
def thread_create_mark (nt tparent espace : Nat) (k7 : Kernel) : Kernel :=
  (k7.modify tparent (fun p => { p with tspace := p.tspace.set espace 1 })).modify nt
    (fun p => { p with tspace := p.tspace.set espace 1 })

/-- The size bookkeeping of `thread_create` (proc.c 932-933): the new record's
`sz` is the top of its stack, the root's `sz` is `std + 10 * (2 * PGSIZE)`
(as `uint`). -/
def thread_create_sizes (a : Answers) (nt tparent : Nat) (k9 : Kernel) : Kernel :=
  (k9.modify nt (fun p => { p with sz := a.allocuvm })).modify tparent
    (fun p => { p with sz := (p.std + 10 * (2 * a.PGSIZE)) % 4294967296 })

/-- Source `thread_create` (proc.c 860-958), called by unit `proc`. Returns
the `int` result, the thread ID stored through `thread` (on success) and the
globals; `none` is a root search that does not end normally. -/
def thread_create (a : Answers) (proc : Nat) (k : Kernel) : Option (Int × Option Int × Kernel) :=
  match allocproc a.kalloc k with
  | (none, k1) => some (-1, none, k1)
  | (some nt, k1) =>
    let k2 := (k1.modify nt (fun p => { p with tid := k1.nexttid })).setNexttid
      (wrap32 (k1.nexttid + 1))
    match thread_root k2 k2.ptable.length (some proc) with
    | none => none
    | some tparent =>
      let k7 := thread_create_inherit nt tparent k2
      match tspace_find (k7.get tparent).tspace 0 with
      | none => some (-1, none, k7)
      | some espace =>
        let k9 := thread_create_mark nt tparent espace k7
        if a.allocuvm = 0 then some (-1, none, k9)
        else
          let k11 := thread_create_sizes a nt tparent k9
          if a.copyout < 0 then some (-1, none, k11)
          else
            some (0, some (k11.get nt).tid,
              k11.modify nt (fun p => { p with state := procstate.RUNNABLE }))

/-- Source `thread_exit` (proc.c 964-986), called by unit `proc`, up to
`sched()`. `none` is the halt `panic("init exiting")`. -/
def thread_exit (proc : Nat) (retval : Nat) (k : Kernel) : Option Kernel :=
  let k1 := k.modify proc (fun p => { p with ret_val := retval })
  if some proc = k1.initproc then none
  else
    let k2 := wakeup1 (chanOf (k1.get proc).parent) k1
    some (k2.modify proc (fun p => { p with state := procstate.ZOMBIE }))

/-- The first assignments of the reaping of `thread_join` (proc.c 1012-1020):
no kernel stack, pid 0, tid 0, return value slot cleared. -/
def join_clear_head (p : Proc) : Proc :=
  { p with kstack := none, pid := 0, tid := 0, ret_val := 0 }

/-- The last assignments of the reaping of `thread_join` (proc.c 1036-1040):
size 0, no parent, empty name, not killed, UNUSED. -/
def join_clear_tail (p : Proc) : Proc :=
  { p with sz := 0, parent := none, name := "", killed := 0, state := procstate.UNUSED }

/-- The reaping of `thread_join` (proc.c 1007-1044) at the ZOMBIE record
`i`. The first set entry of the record's slot bitmap is cleared, in the
record and in its parent. `Outcome.halt` is a null `p->parent` written
through. -/
def join_reap (i : Nat) (k : Kernel) : Outcome :=
  let out := (k.get i).ret_val
  let k1 := k.modify i join_clear_head
  let freed : Option Kernel :=
    match tspace_find (k1.get i).tspace 1 with
    | none => some k1
    | some s =>
      let k2 := k1.modify i (fun p => { p with tspace := p.tspace.set s 0 })
      match (k2.get i).parent with
      | none => none
      | some par => some (k2.modify par (fun p => { p with tspace := p.tspace.set s 0 }))
  match freed with
  | none => Outcome.halt
  | some k3 =>
    Outcome.ret { value := 0, reaped := some i, freevm := [], retval := some out,
                  k := k3.modify i join_clear_tail }

/-- The scan of `thread_join` (proc.c 1003-1045) over the slots `l`, in
order, with the current value of `havethread`: either the call ends in the
reaping of the first ZOMBIE record with the requested ID (`Sum.inl`), or the
loop ends with `havethread`. -/
def join_scan (thread : Int) (k : Kernel) : List Nat → Bool → Outcome ⊕ Bool
  | [], havethread => Sum.inr havethread
  | i :: rest, havethread =>
    if (k.get i).tid ≠ thread then join_scan thread k rest havethread
    else if (k.get i).state = procstate.ZOMBIE then Sum.inl (join_reap i k)
    else join_scan thread k rest true

/-- One pass of the `for(;;)` loop of source `thread_join` (proc.c 993-1056),
called by unit `proc`. -/
def thread_join_pass (proc : Nat) (thread : Int) (k : Kernel) : Outcome :=
  match join_scan thread k (List.range k.ptable.length) false with
  | Sum.inl o => o
  | Sum.inr havethread =>
    if havethread = false ∨ (k.get proc).killed ≠ 0 then
      Outcome.ret { value := -1, reaped := none, freevm := [], retval := none, k := k }
    else
      match sleep (some proc) (chanOf (some proc)) (some 0) k with
      | some ks => Outcome.blocked ks
      | none => Outcome.halt

/-- What the first loop of `wait` leaves alone when the caller `proc` is not a
ZOMBIE: between the globals `k` before and `s` after, the table keeps its
size, the caller and its children are unchanged, and nobody becomes its
child. -/
def SweepFrame (proc : Nat) (k s : Kernel) : Prop :=
  s.ptable.length = k.ptable.length ∧ s.get proc = k.get proc
    ∧ ∀ j, ((k.get j).parent = some proc → s.get j = k.get j)
        ∧ ((k.get j).parent ≠ some proc → (s.get j).parent ≠ some proc)

/-- Record `j` of `k` is fully recycled: UNUSED, pid 0, no parent, not
killed, empty name, no kernel stack. -/
def Recycled (k : Kernel) (j : Nat) : Prop :=
  (k.get j).state = procstate.UNUSED ∧ (k.get j).pid = 0 ∧ (k.get j).parent = none
    ∧ (k.get j).killed = 0 ∧ (k.get j).name = "" ∧ (k.get j).kstack = none

/-- Slot `j` of `k` is eligible for the next allocation: whenever a kernel
stack is available, `allocproc` hands out a slot (marking it EMBRYO) that is
`j` or a free slot before it, and `j` itself when no slot before `j` is
UNUSED. -/
def AllocSelects (k : Kernel) (j : Nat) : Prop :=
  ∀ ks, ∃ a, (allocproc (some ks) k).1 = some a ∧ a ≤ j
    ∧ ((∀ m, m < j → (k.get m).state ≠ procstate.UNUSED) → a = j)
    ∧ ((allocproc (some ks) k).2.get a).state = procstate.EMBRYO
    ∧ ((allocproc (some ks) k).2.get a).kstack = some ks

/-- The 10-slot bitmap in which exactly the stack slots listed in `es` are
set. -/
def slotsMarked (es : List Nat) : List Int :=
  (List.range 10).map (fun i => if i ∈ es then 1 else 0)

/-- Successive `thread_create` calls by unit `r`, one per answer of the
collaborators, each of which must return 0. Returns the table slots
`allocproc` handed to the new threads, in creation order, and the globals. -/
def spawn (r : Nat) : List Answers → Kernel → Option (List Nat × Kernel)
  | [], k => some ([], k)
  | a :: rest, k =>
    match findUnused k (List.range k.ptable.length), thread_create a r k with
    | some nt, some (v, _, k1) =>
      if v = 0 then (spawn r rest k1).map (fun p => (nt :: p.1, p.2)) else none
    | _, _ => none

/-- The threads in the slots `l` terminate and are joined, one after the
other in the order of `l`: the thread in slot `a` calls
`thread_exit(retval a)`, then unit `r` calls `thread_join` with that thread's
ID, which must return 0 having reaped slot `a`. -/
def reap_all (r : Nat) (retval : Nat → Nat) : List Nat → Kernel → Option Kernel
  | [], k => some k
  | a :: rest, k =>
    match thread_exit a (retval a) k with
    | none => none
    | some k1 =>
      match thread_join_pass r (k1.get a).tid k1 with
      | Outcome.ret res =>
        if res.value = 0 ∧ res.reaped = some a then reap_all r retval rest res.k else none
      | _ => none

/-! ## Example tables for the lifecycle and the arbitrator -/

/-- A table of seven slots: init, the shell forked by init and a process `p`
forked by the shell, each running on a CPU, and four free slots. -/
def familyDemo : Kernel :=
  { ptable :=
      [ { state := procstate.RUNNING, pid := 1, tid := -1, name := "init",
          pgdir := some 10, kstack := some 1, sz := 4096, std := 4096 },
        { state := procstate.RUNNING, pid := 2, tid := -1, parent := some 0, name := "sh",
          pgdir := some 20, kstack := some 2, sz := 8192, std := 8192 },
        { state := procstate.RUNNING, pid := 3, tid := -1, parent := some 1, name := "p",
          pgdir := some 30, kstack := some 3, sz := 8192, std := 8192 },
        {}, {}, {}, {} ],
    initproc := some 0,
    nextpid := 4 }

/-- Answers of the collaborators when nothing fails. -/
def okAnswers : Answers :=
  { kalloc := some 100, copyuvm := some 200, allocuvm := 16384, copyout := 0, PGSIZE := 4096 }

/-- Globals in which tickets are reserved and the stride pool is ahead of the
feedback pool: `stride_pass_value = 10`, `mlfq_pass_value = 0`. -/
def arbiterDemo : Kernel :=
  { familyDemo with total_tickets := 30, stride_pass_value := 10, mlfq_pass_value := 0 }

/-- A table of 64 slots: init and the shell asleep, a RUNNABLE process at
level 1 in slot 2, free slots, and in the last slot a RUNNABLE process at
level 0. Nobody holds tickets. -/
def lastSlotDemo : Kernel :=
  { ptable :=
      [ { state := procstate.SLEEPING, pid := 1, tid := -1, chan := Chan.procp 0, name := "init" },
        { state := procstate.SLEEPING, pid := 2, tid := -1, parent := some 0,
          chan := Chan.procp 1, name := "sh" },
        { state := procstate.RUNNABLE, pid := 3, tid := -1, parent := some 1, name := "a",
          priority := 1, ticks := 2 } ]
      ++ List.replicate 60 Proc.zero
      ++ [ { state := procstate.RUNNABLE, pid := 4, tid := -1, parent := some 1, name := "b" } ],
    initproc := some 0,
    nextpid := 5 }

/-- The table `familyDemo` after `p` (record 2) has exited and the shell
(record 1), still running, has been marked killed. -/
def zombieDemo : Kernel :=
  { ptable :=
      [ { state := procstate.SLEEPING, pid := 1, tid := -1, chan := Chan.procp 0, name := "init",
          pgdir := some 10, kstack := some 1, sz := 4096, std := 4096 },
        { state := procstate.RUNNING, pid := 2, tid := -1, parent := some 0, name := "sh",
          pgdir := some 20, kstack := some 2, sz := 8192, std := 8192, killed := 1 },
        { state := procstate.ZOMBIE, pid := 3, tid := -1, parent := some 1, name := "p",
          pgdir := some 30, kstack := some 3, sz := 8192, std := 8192 },
        {}, {}, {}, {} ],
    initproc := some 0,
    nextpid := 4 }

/-- The globals an outcome leaves behind (`d` when the kernel halted). -/
def Outcome.after (o : Outcome) (d : Kernel) : Kernel :=
  match o with
  | Outcome.ret r => r.k
  | Outcome.blocked k => k
  | Outcome.halt => d

/-- The table `familyDemo` after `p` (record 2) has created a thread, which
got slot 3 and thread ID 1, and that thread has called `thread_exit(7)`. -/
def joinDemo : Kernel :=
  ((thread_create okAnswers 2 familyDemo).bind (fun r => thread_exit 3 7 r.2.2)).getD familyDemo

/-- The table `joinDemo` after `p` has been marked killed. -/
def joinKilledDemo : Kernel := joinDemo.modify 2 (fun p => { p with killed := 1 })

/-- The table `joinDemo` after `p` has called `wait`, which reaps the ZOMBIE
thread as a child of `p` and leaves its thread ID 1 in the free slot 3. -/
def staleTidDemo : Kernel := (wait_pass false 2 joinDemo).after joinDemo

/-- The table `familyDemo` after `p` (record 2) was granted 30 tickets and
then created a thread, which got slot 3 and thread ID 1. -/
def inheritDemo : Kernel :=
  ((thread_create okAnswers 2 (set_cpu_share 2 30 familyDemo).2).map (fun r => r.2.2)).getD
    familyDemo

/-- The table `familyDemo` after `p` (record 2) forked a child (slot 3,
pid 4). -/
def forkDemo : Kernel := ((fork okAnswers 2 familyDemo).map (fun r => r.2)).getD familyDemo

/-- The table `familyDemo` after `p` (record 2) has created three threads. -/
def spawnDemo : Kernel :=
  ((spawn 2 [okAnswers, okAnswers, okAnswers] familyDemo).map (fun p => p.2)).getD familyDemo

/-- The table `spawnDemo` after the three threads have terminated and been
joined by `p`, the second one first. -/
def joinedDemo : Kernel := (reap_all 2 (fun a => a) [4, 3, 5] spawnDemo).getD familyDemo

/-- A table of 64 slots: init and the shell asleep, in slot 2 a RUNNABLE
process holding 30 tickets (stride 2) with pass value 8, free slots, and in
the last slot a RUNNABLE process holding 50 tickets (stride 1) with pass
value 3. -/
def strideLastDemo : Kernel :=
  { ptable :=
      [ { state := procstate.SLEEPING, pid := 1, tid := -1, chan := Chan.procp 0, name := "init" },
        { state := procstate.SLEEPING, pid := 2, tid := -1, parent := some 0,
          chan := Chan.procp 1, name := "sh" },
        { state := procstate.RUNNABLE, pid := 3, tid := -1, parent := some 1, name := "a",
          tickets := 30, stride := 2, pass_value := 8 } ]
      ++ List.replicate 60 Proc.zero
      ++ [ { state := procstate.RUNNABLE, pid := 4, tid := -1, parent := some 1, name := "b",
             tickets := 50, stride := 1, pass_value := 3 } ],
    initproc := some 0,
    nextpid := 5,
    total_tickets := 80 }

/-- A table of sixteen slots: init, the shell forked by init and a process
`p` forked by the shell, each running on a CPU, and thirteen free slots. -/
def wideDemo : Kernel :=
  { ptable :=
      [ { state := procstate.RUNNING, pid := 1, tid := -1, name := "init",
          pgdir := some 10, kstack := some 1, sz := 4096, std := 4096 },
        { state := procstate.RUNNING, pid := 2, tid := -1, parent := some 0, name := "sh",
          pgdir := some 20, kstack := some 2, sz := 8192, std := 8192 },
        { state := procstate.RUNNING, pid := 3, tid := -1, parent := some 1, name := "p",
          pgdir := some 30, kstack := some 3, sz := 8192, std := 8192 } ]
      ++ List.replicate 13 Proc.zero,
    initproc := some 0,
    nextpid := 4 }

/-- The table `wideDemo` after `p` (record 2) has created ten threads, which
occupy slots 3 to 12 and all ten stack slots of `p`. -/
def fullDemo : Kernel :=
  ((spawn 2 (List.replicate 10 okAnswers) wideDemo).map (fun r => r.2)).getD wideDemo

/-- The table `fullDemo` after `p` has called `thread_create` once more. -/
def leakDemo : Kernel :=
  ((thread_create okAnswers 2 fullDemo).map (fun r => r.2.2)).getD fullDemo

/-- The table `demo` after unit 2 has called `set_cpu_share(10)` twice. -/
def twiceDemo : Kernel := (set_cpu_share 2 10 (set_cpu_share 2 10 demo).2).2

/-! ## Thread groups and calls by their members -/

/-- The thread-group root in the spec's words, stated without the loop of
`thread_create`: `ThreadRoot k t r` says that in the table `k` the parent
links from the unit `t` lead through live thread records (`tid > 0`) to the
live record `r`, which is not a thread (`tid <= 0`). It is compared with the
source's search `thread_root`. -/
inductive ThreadRoot (k : Kernel) : Nat → Nat → Prop
  | root (r : Nat) (hlive : (k.get r).state ≠ procstate.UNUSED) (htid : (k.get r).tid ≤ 0) :
      ThreadRoot k r r
  | link (t p r : Nat) (hlive : (k.get t).state ≠ procstate.UNUSED) (htid : (k.get t).tid > 0)
      (hpar : (k.get t).parent = some p) (h : ThreadRoot k p r) : ThreadRoot k t r

/-- `ThreadRoot` with the number `n` of parent links followed from `t` to
`r`. -/
inductive ThreadRootIn (k : Kernel) : Nat → Nat → Nat → Prop
  | root (r : Nat) (hlive : (k.get r).state ≠ procstate.UNUSED) (htid : (k.get r).tid ≤ 0) :
      ThreadRootIn k 0 r r
  | link (n t p r : Nat) (hlive : (k.get t).state ≠ procstate.UNUSED)
      (htid : (k.get t).tid > 0) (hpar : (k.get t).parent = some p)
      (h : ThreadRootIn k n p r) : ThreadRootIn k (n + 1) t r

/-- Successive `thread_create` calls, one per entry: the calling unit and the
answers of the collaborators. Each call must return 0. Returns the table
slots `allocproc` handed to the new threads, in creation order, and the
globals. -/
def spawn_by : List (Nat × Answers) → Kernel → Option (List Nat × Kernel)
  | [], k => some ([], k)
  | c :: rest, k =>
    match findUnused k (List.range k.ptable.length), thread_create c.2 c.1 k with
    | some nt, some (v, _, k1) =>
      if v = 0 then (spawn_by rest k1).map (fun p => (nt :: p.1, p.2)) else none
    | _, _ => none

/-- The threads in the slots `l` terminate and are joined, one after the
other in the order of `l`: the thread in slot `a` calls
`thread_exit(retval a)`, then unit `joiner a` calls `thread_join` with that
thread's ID, which must return 0 having reaped slot `a`. -/
def reap_by (joiner retval : Nat → Nat) : List Nat → Kernel → Option Kernel
  | [], k => some k
  | a :: rest, k =>
    match thread_exit a (retval a) k with
    | none => none
    | some k1 =>
      match thread_join_pass (joiner a) (k1.get a).tid k1 with
      | Outcome.ret res =>
        if res.value = 0 ∧ res.reaped = some a then reap_by joiner retval rest res.k else none
      | _ => none

/-- The table `familyDemo` after the shell (record 1), a direct child of
init, was granted 30 tickets. -/
def shellShareDemo : Kernel := (set_cpu_share 1 30 familyDemo).2

/-- The table `inheritDemo` after the thread in slot 3 has set its own share
to 10: the root `p` (record 2) holds 30 tickets, its thread 10. -/
def ownShareDemo : Kernel := (set_cpu_share 3 10 inheritDemo).2

/-- The table `ownShareDemo` after the thread in slot 3 has created a thread,
which got slot 4 and thread ID 2. -/
def nestedDemo : Kernel :=
  ((thread_create okAnswers 3 ownShareDemo).map (fun r => r.2.2)).getD familyDemo

/-- The table `forkDemo` after `p` (record 2) has exited, which hands its
child (record 3) to init, and the child was then granted 30 tickets. -/
def orphanShareDemo : Kernel := (set_cpu_share 3 30 ((exit 2 forkDemo).getD forkDemo)).2

/-! ## Reading and writing table records -/

theorem getD_map_fix {α : Type} (f : α → α) (d : α) (hd : f d = d) (l : List α) (i : Nat) :
    (l.map f).getD i d = f (l.getD i d) := by
  simp only [List.getD_eq_getElem?_getD, List.getElem?_map]
  cases l[i]? <;> simp [hd]

theorem map_set_getD_frame {α β : Type} (g : α → β) (f : α → α) (hf : ∀ a, g (f a) = g a)
    (l : List α) (i : Nat) (d : α) : (l.set i (f (l.getD i d))).map g = l.map g := by
  apply List.ext_getElem?
  intro j
  simp only [List.getElem?_map, List.getElem?_set, List.getD_eq_getElem?_getD]
  by_cases hij : i = j
  · subst hij
    by_cases hlt : i < l.length
    · simp [hlt, hf]
    · simp [hlt]
      have : l.length ≤ i := Nat.le_of_not_lt hlt
      simp [List.getElem?_eq_none this]
  · simp [hij]

theorem get_modify (k : Kernel) (i j : Nat) (f : Proc → Proc) :
    (k.modify i f).get j = if i = j ∧ j < k.ptable.length then f (k.get j) else k.get j := by
  unfold Kernel.modify Kernel.get
  simp only [List.getD_eq_getElem?_getD, List.getElem?_set]
  by_cases hij : i = j
  · subst hij
    by_cases hlt : i < k.ptable.length
    · simp [hlt]
    · have hle : k.ptable.length ≤ i := Nat.le_of_not_lt hlt
      simp [hlt, List.getElem?_eq_none hle]
  · simp [hij]

theorem length_modify (k : Kernel) (i : Nat) (f : Proc → Proc) :
    (k.modify i f).ptable.length = k.ptable.length := by
  simp [Kernel.modify]

theorem total_modify (k : Kernel) (i : Nat) (f : Proc → Proc) :
    (k.modify i f).total_tickets = k.total_tickets := rfl

theorem get_setTotal (k : Kernel) (v : Int) (j : Nat) : (k.setTotal v).get j = k.get j := rfl

theorem total_setTotal (k : Kernel) (v : Int) : (k.setTotal v).total_tickets = v := rfl

theorem ptable_setTotal (k : Kernel) (v : Int) : (k.setTotal v).ptable = k.ptable := rfl

theorem get_stride_realloc (k : Kernel) (j : Nat) :
    (stride_realloc k).get j =
      if (k.get j).tickets > 0
      then { k.get j with stride := Int.tdiv k.total_tickets (k.get j).tickets }
      else k.get j := by
  unfold stride_realloc Kernel.get
  exact getD_map_fix _ _ (by simp [Proc.zero]) _ _

theorem get_wakeup1 (c : Chan) (k : Kernel) (j : Nat) :
    (wakeup1 c k).get j =
      if (k.get j).state = procstate.SLEEPING ∧ (k.get j).chan = c
      then { k.get j with state := procstate.RUNNABLE } else k.get j := by
  unfold wakeup1 Kernel.get
  exact getD_map_fix _ _ (by simp [Proc.zero]) _ _

theorem get_of_length_le (k : Kernel) (j : Nat) (h : k.ptable.length ≤ j) : k.get j = Proc.zero := by
  unfold Kernel.get
  simp [List.getD_eq_getElem?_getD, List.getElem?_eq_none h]

theorem getD_map_default {α β : Type} (g : α → β) (d : α) (l : List α) (i : Nat) :
    (l.map g).getD i (g d) = g (l.getD i d) := by
  simp only [List.getD_eq_getElem?_getD, List.getElem?_map]
  cases l[i]? <;> simp

theorem shareView_get {a b : Kernel} (h : shareView a = shareView b) (j : Nat) :
    (a.get j).tickets = (b.get j).tickets ∧ (a.get j).stride = (b.get j).stride
      ∧ (a.get j).pass_value = (b.get j).pass_value := by
  have h2 : a.ptable.map (fun p => (p.tickets, p.stride, p.pass_value))
      = b.ptable.map (fun p => (p.tickets, p.stride, p.pass_value)) := congrArg Prod.snd h
  have ha := getD_map_default (fun p : Proc => (p.tickets, p.stride, p.pass_value)) Proc.zero
    a.ptable j
  have hb := getD_map_default (fun p : Proc => (p.tickets, p.stride, p.pass_value)) Proc.zero
    b.ptable j
  rw [h2, hb] at ha
  simp only [Prod.mk.injEq] at ha
  unfold Kernel.get
  exact ⟨ha.1.symm, ha.2.1.symm, ha.2.2.symm⟩

theorem shareView_total {a b : Kernel} (h : shareView a = shareView b) :
    a.total_tickets = b.total_tickets := congrArg Prod.fst h

theorem shareView_length {a b : Kernel} (h : shareView a = shareView b) :
    a.ptable.length = b.ptable.length := by
  have h2 := congrArg (fun v => v.2.length) h
  simpa [shareView] using h2

theorem shareView_modify (k : Kernel) (i : Nat) (f : Proc → Proc)
    (hf : ∀ p, ((f p).tickets, (f p).stride, (f p).pass_value) = (p.tickets, p.stride, p.pass_value)) :
    shareView (k.modify i f) = shareView k := by
  unfold shareView Kernel.modify Kernel.get
  simp only
  rw [map_set_getD_frame (fun p : Proc => (p.tickets, p.stride, p.pass_value)) f hf]

theorem shareView_wakeup1 (c : Chan) (k : Kernel) : shareView (wakeup1 c k) = shareView k := by
  unfold shareView wakeup1
  simp only [List.map_map]
  congr 1
  apply List.map_congr_left
  intro p _
  simp only [Function.comp]
  split <;> rfl

theorem shareView_exit_reparent (proc i : Nat) (k : Kernel) :
    shareView (exit_reparent proc i k) = shareView k := by
  unfold exit_reparent
  simp only
  split
  · split
    · refine Eq.trans (shareView_wakeup1 _ _) (shareView_modify _ _ _ ?_)
      intro p; rfl
    · exact shareView_modify _ _ _ (fun _ => rfl)
  · rfl

theorem shareView_exit_proc_body (proc i : Nat) (k : Kernel) :
    shareView (exit_proc_body proc i k) = shareView k := by
  unfold exit_proc_body
  simp only
  split
  · split
    · refine Eq.trans (shareView_modify _ _ _ ?_) (shareView_modify _ _ _ ?_) <;> intro p <;> rfl
    · refine Eq.trans (shareView_exit_reparent _ _ _) (shareView_modify _ _ _ ?_)
      intro p; rfl
  · exact shareView_exit_reparent _ _ _

theorem forEachProc_inv {σ : Type} (P : σ → Prop) (body : Nat → σ → σ)
    (hbody : ∀ i s, P s → P (body i s)) (n : Nat) (s : σ) (hs : P s) :
    P (forEachProc n body s) := by
  unfold forEachProc
  generalize List.range n = l
  induction l generalizing s with
  | nil => simpa using hs
  | cons a t ih => simpa using ih (body a s) (hbody a s hs)


theorem tickets_pos_lt_length (k : Kernel) (j : Nat) (h : 0 < (k.get j).tickets) :
    j < k.ptable.length := by
  by_contra hlt
  rw [get_of_length_le k j (Nat.le_of_not_lt hlt)] at h
  exact absurd h (by decide)

theorem stride_realloc_total (k : Kernel) :
    (stride_realloc k).total_tickets = k.total_tickets := rfl

theorem stride_realloc_spec (k : Kernel) (j : Nat)
    (h : 0 < ((stride_realloc k).get j).tickets) :
    ((stride_realloc k).get j).stride
      = Int.tdiv (stride_realloc k).total_tickets ((stride_realloc k).get j).tickets := by
  rw [get_stride_realloc] at h ⊢
  rw [stride_realloc_total]
  split
  · rfl
  · rename_i hneg
    split at h
    · contradiction
    · exact absurd h hneg

theorem exit_reparent_self (proc i : Nat) (s : Kernel) (htid : 0 < (s.get proc).tid) :
    ((exit_reparent proc i s).get proc).parent = (s.get proc).parent
      ∧ ((exit_reparent proc i s).get proc).tid = (s.get proc).tid := by
  unfold exit_reparent
  simp only
  split
  · rename_i hc
    have hne : i ≠ proc := by
      intro h
      rw [h] at hc
      omega
    split
    · rw [get_wakeup1, get_modify]
      simp only [hne, false_and, if_false]
      split <;> exact ⟨rfl, rfl⟩
    · rw [get_modify]
      simp only [hne, false_and, if_false]
      exact ⟨trivial, trivial⟩
  · exact ⟨rfl, rfl⟩

theorem exit_some (proc : Nat) (k : Kernel) (hpar : (k.get proc).parent ≠ k.initproc)
    (hthr : 0 < (k.get proc).tid → (k.get proc).parent ≠ none) :
    ∃ km, exit proc k = some (exit_release proc km) ∧ shareView km = shareView k := by
  unfold exit
  simp only [hpar, if_false]
  by_cases htid : (k.get proc).tid > 0
  · simp only [htid, if_true]
    have hinv : ((forEachProc (wakeup1 (chanOf (k.get proc).parent) k).ptable.length
          (exit_reparent proc) (wakeup1 (chanOf (k.get proc).parent) k)).get proc).parent
            = (k.get proc).parent
        ∧ ((forEachProc (wakeup1 (chanOf (k.get proc).parent) k).ptable.length
          (exit_reparent proc) (wakeup1 (chanOf (k.get proc).parent) k)).get proc).tid
            = (k.get proc).tid := by
      refine forEachProc_inv (fun s : Kernel => (s.get proc).parent = (k.get proc).parent
        ∧ (s.get proc).tid = (k.get proc).tid) _ ?_ _ _ ?_
      · intro i s hs
        have h := exit_reparent_self proc i s (by rw [hs.2]; exact htid)
        exact ⟨h.1.trans hs.1, h.2.trans hs.2⟩
      · show ((wakeup1 _ k).get proc).parent = _ ∧ ((wakeup1 _ k).get proc).tid = _
        rw [get_wakeup1]
        split <;> exact ⟨rfl, rfl⟩
    have hsv : shareView (forEachProc (wakeup1 (chanOf (k.get proc).parent) k).ptable.length
          (exit_reparent proc) (wakeup1 (chanOf (k.get proc).parent) k)) = shareView k := by
      refine forEachProc_inv (fun s : Kernel => shareView s = shareView k) _ ?_ _ _ ?_
      · intro i s hs
        exact (shareView_exit_reparent proc i s).trans hs
      · exact shareView_wakeup1 _ _
    cases hp : (k.get proc).parent with
    | none => exact absurd hp (hthr htid)
    | some par =>
      rw [hp] at hinv hsv
      simp only [hinv.1]
      refine ⟨_, rfl, ?_⟩
      refine Eq.trans (shareView_modify _ _ _ ?_) hsv
      intro p; rfl
  · simp only [htid, if_false]
    refine ⟨_, rfl, ?_⟩
    refine forEachProc_inv (fun s : Kernel => shareView s = shareView k) _ ?_ _ _ ?_
    · intro i s hs
      exact (shareView_exit_proc_body proc i s).trans hs
    · exact shareView_wakeup1 _ _

theorem exit_release_spec (proc : Nat) (km : Kernel) (hpos : 0 < (km.get proc).tickets) :
    (exit_release proc km).total_tickets = wrap32 (km.total_tickets - (km.get proc).tickets)
      ∧ ((exit_release proc km).get proc).tickets = 0
      ∧ ((exit_release proc km).get proc).stride = 0
      ∧ ((exit_release proc km).get proc).pass_value = 0
      ∧ (∀ j, j ≠ proc → ((exit_release proc km).get j).tickets = (km.get j).tickets
          ∧ ((exit_release proc km).get j).pass_value = (km.get j).pass_value)
      ∧ (0 < (exit_release proc km).total_tickets →
          ∀ j, 0 < ((exit_release proc km).get j).tickets →
            ((exit_release proc km).get j).stride
              = Int.tdiv (exit_release proc km).total_tickets
                  ((exit_release proc km).get j).tickets) := by
  have hlt := tickets_pos_lt_length km proc hpos
  unfold exit_release
  simp only [get_modify, hlt, and_self, if_true, length_modify, hpos, total_modify,
    total_setTotal, get_setTotal, ptable_setTotal]
  split
  · refine ⟨rfl, ?_, ?_, ?_, ?_, ?_⟩
    · simp [get_stride_realloc, get_modify, hlt, get_setTotal, ptable_setTotal, length_modify]
    · simp [get_stride_realloc, get_modify, hlt, get_setTotal, ptable_setTotal, length_modify]
    · simp [get_stride_realloc, get_modify, hlt, get_setTotal, ptable_setTotal, length_modify]
    · intro j hj
      have hj2 : ¬ (proc = j) := fun h => hj h.symm
      simp only [get_stride_realloc, get_modify, hj2, false_and, if_false, get_setTotal]
      split <;> exact ⟨rfl, rfl⟩
    · intro _ j hj
      exact stride_realloc_spec _ j hj
  · rename_i hnot
    refine ⟨rfl, ?_, ?_, ?_, ?_, ?_⟩
    · simp [get_modify, hlt, get_setTotal, ptable_setTotal, length_modify]
    · simp [get_modify, hlt, get_setTotal, ptable_setTotal, length_modify]
    · simp [get_modify, hlt, get_setTotal, ptable_setTotal, length_modify]
    · intro j hj
      have hj2 : ¬ (proc = j) := fun h => hj h.symm
      simp [get_modify, hj2, get_setTotal]
    · intro h
      exact absurd h hnot

theorem wrap32_of_range (x : Int) (hlo : INT_MIN ≤ x) (hhi : x ≤ INT_MAX) : wrap32 x = x := by
  unfold wrap32
  unfold INT_MIN at hlo
  unfold INT_MAX at hhi
  omega

theorem set_cpu_share_success (proc : Nat) (share : Int) (k : Kernel)
    (hpos : 0 < share) (hfit : wrap32 (k.total_tickets + share) ≤ 80) :
    set_cpu_share proc share k
      = (share, stride_realloc (((k.modify proc (fun p => { p with tickets := share })).setTotal
          (wrap32 (k.total_tickets + share))).modify proc (fun p => { p with pass_value := 0 }))) := by
  unfold set_cpu_share
  have h1 : ¬ share ≤ 0 := by omega
  simp only [h1, if_false, hfit, if_true, total_modify]

/-- C1 (code defect): the ceiling test `total_tickets + share <= 80` is done
in 32-bit `int` arithmetic. From the all-zero table `demo`, unit 2 is granted
1 ticket and then unit 3 asks for 2147483647: the sum wraps to -2147483648,
the test passes, the request is granted, and the tickets of the table add up
to 2147483648, above the ceiling 80. -/
theorem ceiling_broken_by_overflow :
    (∀ p ∈ demo.ptable, p.tickets = 0) ∧ demo.total_tickets = 0
      ∧ (set_cpu_share 2 1 demo).1 = 1
      ∧ (INT_MIN ≤ 2147483647 ∧ (2147483647 : Int) ≤ INT_MAX)
      ∧ (set_cpu_share 3 2147483647 (set_cpu_share 2 1 demo).2).1 = 2147483647
      ∧ ((set_cpu_share 3 2147483647 (set_cpu_share 2 1 demo).2).2.ptable.map
          (fun p => p.tickets)).sum = 2147483648
      ∧ ¬ ((set_cpu_share 3 2147483647 (set_cpu_share 2 1 demo).2).2.ptable.map
          (fun p => p.tickets)).sum ≤ 80 := by
  decide

theorem exit_release_eq (proc : Nat) (km : Kernel) :
    exit_release proc km =
      if (km.get proc).tickets > 0 then
        if wrap32 (km.total_tickets - (km.get proc).tickets) > 0 then
          stride_realloc ((((km.modify proc (fun q => { q with state := procstate.ZOMBIE })).setTotal
            (wrap32 (km.total_tickets - (km.get proc).tickets))).modify proc
              (fun q => { q with tickets := 0, stride := 0, pass_value := 0 })))
        else
          (((km.modify proc (fun q => { q with state := procstate.ZOMBIE })).setTotal
            (wrap32 (km.total_tickets - (km.get proc).tickets))).modify proc
              (fun q => { q with tickets := 0, stride := 0, pass_value := 0 }))
      else km.modify proc (fun q => { q with state := procstate.ZOMBIE }) := by
  have ht : ((km.modify proc (fun q => { q with state := procstate.ZOMBIE })).get proc).tickets
      = (km.get proc).tickets := by
    rw [get_modify]; split <;> rfl
  unfold exit_release
  simp only [ht, total_modify, total_setTotal]

/-- C3 (code defect): with `total_tickets = 80` (unit 2 of `demo` was granted
80), unit 3 asks for 2147483647. As mathematical integers the sum exceeds 80,
but the 32-bit sum is negative: `set_cpu_share` returns 2147483647 instead of
-1, sets `total_tickets` to -2147483569 and gives unit 3 the tickets. -/
theorem share_over_ceiling_granted :
    (set_cpu_share 2 80 demo).1 = 80
      ∧ (set_cpu_share 2 80 demo).2.total_tickets = 80
      ∧ (INT_MIN ≤ 2147483647 ∧ (2147483647 : Int) ≤ INT_MAX)
      ∧ ((set_cpu_share 2 80 demo).2.total_tickets + 2147483647 : Int) > 80
      ∧ (set_cpu_share 3 2147483647 (set_cpu_share 2 80 demo).2).1 = 2147483647
      ∧ (set_cpu_share 3 2147483647 (set_cpu_share 2 80 demo).2).1 ≠ -1
      ∧ (set_cpu_share 3 2147483647 (set_cpu_share 2 80 demo).2).2.total_tickets = -2147483569
      ∧ ((set_cpu_share 3 2147483647 (set_cpu_share 2 80 demo).2).2.get 3).tickets = 2147483647
      ∧ ((set_cpu_share 2 80 demo).2.get 3).tickets = 0 := by
  decide

/-- C4: for a calling unit `proc` of the table and `share > 0` with
`total_tickets + share <= 80`, `set_cpu_share` returns `share`, sets the
caller's tickets to `share` and its pass value to 0, raises `total_tickets`
by exactly `share`, and leaves tickets and pass value of every other unit
unchanged. -/
theorem set_cpu_share_grants (k : Kernel) (proc : Nat) (share : Int)
    (hproc : proc < k.ptable.length) (hmin : INT_MIN ≤ k.total_tickets)
    (hpos : 0 < share) (hfit : k.total_tickets + share ≤ 80) :
    (set_cpu_share proc share k).1 = share
      ∧ ((set_cpu_share proc share k).2.get proc).tickets = share
      ∧ ((set_cpu_share proc share k).2.get proc).pass_value = 0
      ∧ (set_cpu_share proc share k).2.total_tickets = k.total_tickets + share
      ∧ ∀ j, j ≠ proc →
          ((set_cpu_share proc share k).2.get j).tickets = (k.get j).tickets
            ∧ ((set_cpu_share proc share k).2.get j).pass_value = (k.get j).pass_value := by
  have hw : wrap32 (k.total_tickets + share) = k.total_tickets + share := by
    apply wrap32_of_range
    · unfold INT_MIN at hmin ⊢; omega
    · unfold INT_MAX; omega
  have hfit2 : wrap32 (k.total_tickets + share) ≤ 80 := by rw [hw]; exact hfit
  rw [set_cpu_share_success proc share k hpos hfit2]
  refine ⟨rfl, ?_, ?_, ?_, ?_⟩
  · simp only [get_stride_realloc, get_modify, get_setTotal, ptable_setTotal, length_modify,
      hproc, and_self, if_true]
    split <;> rfl
  · simp only [get_stride_realloc, get_modify, get_setTotal, ptable_setTotal, length_modify,
      hproc, and_self, if_true]
    split <;> rfl
  · show wrap32 (k.total_tickets + share) = _
    exact hw
  · intro j hj
    have hj2 : ¬ (proc = j) := fun h => hj h.symm
    simp only [get_stride_realloc, get_modify, get_setTotal, hj2, false_and, if_false]
    split <;> exact ⟨rfl, rfl⟩

/-- Witness for C4: unit 2 of `demo` asks for 30. -/
theorem set_cpu_share_grants_witness :
    (set_cpu_share 2 30 demo).1 = 30
      ∧ ((set_cpu_share 2 30 demo).2.get 2).tickets = 30
      ∧ ((set_cpu_share 2 30 demo).2.get 2).pass_value = 0
      ∧ (set_cpu_share 2 30 demo).2.total_tickets = demo.total_tickets + 30
      ∧ ∀ j, j ≠ 2 →
          ((set_cpu_share 2 30 demo).2.get j).tickets = (demo.get j).tickets
            ∧ ((set_cpu_share 2 30 demo).2.get j).pass_value = (demo.get j).pass_value :=
  set_cpu_share_grants demo 2 30 (by decide) (by decide) (by decide) (by decide)

/-- The release of tickets where `exit` reaches it: when a unit holding
`t > 0` tickets whose parent is not `initproc` calls `exit`, `exit` reaches
its end with `total_tickets` lowered by exactly `t` and the unit a ZOMBIE with
tickets, stride and pass value 0; every later positive request that fits
under the ceiling is granted. -/
theorem exit_releases_tickets (k : Kernel) (proc : Nat) (t : Int)
    (ht : (k.get proc).tickets = t) (hpos : 0 < t)
    (hpar : (k.get proc).parent ≠ k.initproc)
    (hthr : 0 < (k.get proc).tid → (k.get proc).parent ≠ none)
    (hmax : k.total_tickets ≤ INT_MAX) (hmin : INT_MIN ≤ k.total_tickets - t) :
    ∃ k', exit proc k = some k'
      ∧ k'.total_tickets = k.total_tickets - t
      ∧ (k'.get proc).tickets = 0 ∧ (k'.get proc).stride = 0 ∧ (k'.get proc).pass_value = 0
      ∧ (k'.get proc).state = procstate.ZOMBIE
      ∧ ∀ j share, 0 < share → k'.total_tickets + share ≤ 80 →
          (set_cpu_share j share k').1 = share := by
  obtain ⟨km, hex, hsv⟩ := exit_some proc k hpar hthr
  have htk2 : (km.get proc).tickets = t := ((shareView_get hsv proc).1).trans ht
  have hpos2 : 0 < (km.get proc).tickets := by rw [htk2]; exact hpos
  have hspec := exit_release_spec proc km hpos2
  have htot : (exit_release proc km).total_tickets = k.total_tickets - t := by
    rw [hspec.1, htk2, shareView_total hsv]
    apply wrap32_of_range _ hmin
    unfold INT_MAX at hmax ⊢; omega
  refine ⟨_, hex, htot, hspec.2.1, hspec.2.2.1, hspec.2.2.2.1, ?_, ?_⟩
  · have hlt := tickets_pos_lt_length km proc hpos2
    rw [exit_release_eq]
    simp only [hpos2, if_true]
    split
    · simp [get_stride_realloc, get_modify, get_setTotal, ptable_setTotal, length_modify, hlt]
    · simp [get_modify, get_setTotal, ptable_setTotal, length_modify, hlt]
  · intro j share hs hfit
    have hw : wrap32 ((exit_release proc km).total_tickets + share)
        = (exit_release proc km).total_tickets + share := by
      apply wrap32_of_range
      · rw [htot]; unfold INT_MIN at hmin ⊢; omega
      · unfold INT_MAX; omega
    rw [set_cpu_share_success j share _ hs (by rw [hw]; exact hfit)]

/-- The scenario of grants and release among children of the shell: grants
of 30 and 50 succeed (total 80), a third unit's request for 10 returns -1 and
changes nothing, the 30-ticket unit exits and the total is 50, and the third
unit's request for 30 returns 30. -/
theorem exit_releases_tickets_witness :
    (set_cpu_share 2 30 demo).1 = 30
      ∧ (set_cpu_share 3 50 (set_cpu_share 2 30 demo).2).1 = 50
      ∧ demo80.total_tickets = 80
      ∧ (set_cpu_share 4 10 demo80).1 = -1
      ∧ (set_cpu_share 4 10 demo80).2 = demo80
      ∧ ∃ k', exit 2 demo80 = some k'
          ∧ k'.total_tickets = 50
          ∧ (k'.get 2).tickets = 0 ∧ (k'.get 2).stride = 0 ∧ (k'.get 2).pass_value = 0
          ∧ (set_cpu_share 4 30 k').1 = 30 := by
  obtain ⟨k', hex, htot, h1, h2, h3, _, hgrant⟩ :=
    exit_releases_tickets demo80 2 30 (by decide) (by decide) (by decide) (by decide)
      (by decide) (by decide)
  have htot2 : k'.total_tickets = 50 := by rw [htot]; decide
  refine ⟨by decide, by decide, by decide, by decide, by decide, k', hex, htot2, h1, h2, h3, ?_⟩
  exact hgrant 4 30 (by decide) (by rw [htot2]; decide)

/-- C5 (code defect): `exit` begins with
`if(proc->parent == initproc) panic("init exiting")`, so a unit whose parent
is init never reaches the release of its tickets. In `shellShareDemo` the
shell (record 1, a direct child of init and not init itself) holds 30 tickets
and `total_tickets` is 30: its `exit` call halts the kernel and releases
nothing. The same happens in `orphanShareDemo` to the orphan (record 3) that
`exit` of its parent handed to init before it was granted 30 tickets. -/
theorem exit_halts_ticket_holder :
    (set_cpu_share 1 30 familyDemo).1 = 30
      ∧ (shellShareDemo.get 1).tickets = 30
      ∧ shellShareDemo.total_tickets = 30
      ∧ (shellShareDemo.get 1).parent = shellShareDemo.initproc
      ∧ some 1 ≠ shellShareDemo.initproc
      ∧ exit 1 shellShareDemo = none
      ∧ (forkDemo.get 3).parent = some 2
      ∧ (exit 2 forkDemo).isSome = true
      ∧ (orphanShareDemo.get 3).tickets = 30
      ∧ orphanShareDemo.total_tickets = 30
      ∧ (orphanShareDemo.get 3).parent = orphanShareDemo.initproc
      ∧ some 3 ≠ orphanShareDemo.initproc
      ∧ exit 3 orphanShareDemo = none := by
  decide

theorem length_yield (proc : Nat) (ti : Int) (k : Kernel) :
    (yield proc ti k).ptable.length = k.ptable.length := by
  unfold yield
  simp only [length_modify]
  split <;> simp only [length_modify]

theorem get_yield_timer (proc : Nat) (k : Kernel) (hproc : proc < k.ptable.length) :
    ((yield proc 1 k).get proc).priority
        = (priority_manage { k.get proc with ticks := wrap32 ((k.get proc).ticks + 1) }).priority
      ∧ ((yield proc 1 k).get proc).ticks
        = (priority_manage { k.get proc with ticks := wrap32 ((k.get proc).ticks + 1) }).ticks := by
  unfold yield
  have h1 : (1 : Int) ≠ 0 := by decide
  simp only [h1, ne_eq, not_false_eq_true, if_true, get_modify, length_modify, hproc, and_self]

theorem tick_step (p : Proc) (a b : Int) (ha : p.priority = a) (hb : p.ticks = b)
    (hb0 : 0 ≤ b) (hb1 : b ≤ 19) :
    (priority_manage { p with ticks := wrap32 (p.ticks + 1) }).priority
        = (if a = 0 ∧ b + 1 = 5 then 1 else if a = 1 ∧ b + 1 = 10 then 2 else a)
      ∧ (priority_manage { p with ticks := wrap32 (p.ticks + 1) }).ticks
        = (if (a = 0 ∧ b + 1 = 5) ∨ (a = 1 ∧ b + 1 = 10) ∨ (a = 2 ∧ b + 1 = 20) then 0
            else b + 1) := by
  have hw : wrap32 (b + 1) = b + 1 := by unfold wrap32; omega
  have hw1 : wrap32 1 = 1 := by decide
  have hw2 : wrap32 2 = 2 := by decide
  unfold priority_manage
  simp only [ha, hb, hw]
  by_cases h0 : a = 0
  · subst h0
    by_cases h5 : b + 1 = 5
    · simp [h5, hw1]
    · simp [h5]
  · by_cases h1 : a = 1
    · subst h1
      by_cases h10 : b + 1 = 10
      · simp [h10, hw2]
      · simp [h10]
    · by_cases h2 : a = 2
      · subst h2
        by_cases h20 : b + 1 = 20
        · simp [h20]
        · simp [h20]
      · simp [h0, h1, h2]

theorem timer_ticks_state (k : Kernel) (proc : Nat) (n : Nat)
    (hproc : proc < k.ptable.length) (hprio : (k.get proc).priority = 0)
    (hticks : (k.get proc).ticks = 0) :
    (Nat.iterate (yield proc 1) n k).ptable.length = k.ptable.length
      ∧ ((Nat.iterate (yield proc 1) n k).get proc).priority
          = (if n < 5 then 0 else if n < 15 then 1 else 2)
      ∧ ((Nat.iterate (yield proc 1) n k).get proc).ticks
          = (if n < 5 then (n : Int) else if n < 15 then (n : Int) - 5
              else ((n : Int) - 15) % 20) := by
  induction n with
  | zero => exact ⟨rfl, by simpa using hprio, by simpa using hticks⟩
  | succ m ih =>
    obtain ⟨hlen, hp, ht⟩ := ih
    rw [Function.iterate_succ_apply']
    have hproc2 : proc < (Nat.iterate (yield proc 1) m k).ptable.length := by rw [hlen]; exact hproc
    have hy := get_yield_timer proc _ hproc2
    have hst := tick_step ((Nat.iterate (yield proc 1) m k).get proc) _ _ hp ht
      (by split_ifs <;> omega) (by split_ifs <;> omega)
    rw [hy.1, hy.2, hst.1, hst.2, length_yield]
    refine ⟨hlen, ?_, ?_⟩
    · split_ifs <;> omega
    · split_ifs <;> omega

/-- C6: for a unit at priority 0 with ticks 0, after `n` timer-driven yields
its priority is 0 for `n < 5`, 1 for `5 <= n < 15` and 2 from 15 on, and its
tick count is `n`, `n - 5`, `(n - 15) mod 20` on these ranges. Hence the level
never decreases, never exceeds 2, and changes at a tick exactly when the
incremented count reaches 5 at level 0 or 10 at level 1. -/
theorem timer_ticks_promote (k : Kernel) (proc : Nat) (n : Nat)
    (hproc : proc < k.ptable.length) (hprio : (k.get proc).priority = 0)
    (hticks : (k.get proc).ticks = 0) :
    ((Nat.iterate (yield proc 1) n k).get proc).priority
        = (if n < 5 then 0 else if n < 15 then 1 else 2)
      ∧ ((Nat.iterate (yield proc 1) n k).get proc).ticks
        = (if n < 5 then (n : Int) else if n < 15 then (n : Int) - 5 else ((n : Int) - 15) % 20)
      ∧ ((Nat.iterate (yield proc 1) n k).get proc).priority
          ≤ ((Nat.iterate (yield proc 1) (n + 1) k).get proc).priority
      ∧ ((Nat.iterate (yield proc 1) n k).get proc).priority ≤ 2
      ∧ (((Nat.iterate (yield proc 1) (n + 1) k).get proc).priority
            ≠ ((Nat.iterate (yield proc 1) n k).get proc).priority
          ↔ (((Nat.iterate (yield proc 1) n k).get proc).priority = 0
              ∧ ((Nat.iterate (yield proc 1) n k).get proc).ticks + 1 = 5)
            ∨ (((Nat.iterate (yield proc 1) n k).get proc).priority = 1
              ∧ ((Nat.iterate (yield proc 1) n k).get proc).ticks + 1 = 10)) := by
  obtain ⟨_, hp, ht⟩ := timer_ticks_state k proc n hproc hprio hticks
  obtain ⟨_, hp1, _⟩ := timer_ticks_state k proc (n + 1) hproc hprio hticks
  rw [hp, ht, hp1]
  refine ⟨rfl, rfl, ?_, ?_, ?_⟩
  · split_ifs <;> omega
  · split_ifs <;> omega
  · split_ifs <;> omega

/-- Witness for C6: unit 2 of `demo` after 4, 5, 14, 15, 34 and 35 ticks. -/
theorem timer_ticks_promote_witness :
    ((Nat.iterate (yield 2 1) 4 demo).get 2).priority = 0
      ∧ ((Nat.iterate (yield 2 1) 5 demo).get 2).priority = 1
      ∧ ((Nat.iterate (yield 2 1) 14 demo).get 2).priority = 1
      ∧ ((Nat.iterate (yield 2 1) 15 demo).get 2).priority = 2
      ∧ ((Nat.iterate (yield 2 1) 34 demo).get 2).ticks = 19
      ∧ ((Nat.iterate (yield 2 1) 35 demo).get 2).ticks = 0 :=
  ⟨(timer_ticks_promote demo 2 4 (by decide) (by decide) (by decide)).1,
   (timer_ticks_promote demo 2 5 (by decide) (by decide) (by decide)).1,
   (timer_ticks_promote demo 2 14 (by decide) (by decide) (by decide)).1,
   (timer_ticks_promote demo 2 15 (by decide) (by decide) (by decide)).1,
   (timer_ticks_promote demo 2 34 (by decide) (by decide) (by decide)).2.1,
   (timer_ticks_promote demo 2 35 (by decide) (by decide) (by decide)).2.1⟩

theorem add_clock_ptable (k : Kernel) : (add_clock k).ptable = k.ptable := by
  unfold add_clock
  simp only
  split <;> rfl

/-- C7 (code defect): the boost loop of `add_clock` assigns to the local copy
`ref`, never to the table. From `boost_check = 0`, the 100th call resets
`boost_check` to 0, but the records of `boostDemo` keep priority 2, ticks 7
and priority 1, ticks 3: the table is unchanged. -/
theorem add_clock_boost_lost :
    boostDemo.boost_check = 0
      ∧ (Nat.iterate add_clock 99 boostDemo).boost_check = 99
      ∧ (Nat.iterate add_clock 100 boostDemo).boost_check = 0
      ∧ ((Nat.iterate add_clock 100 boostDemo).get 1).priority = 2
      ∧ ((Nat.iterate add_clock 100 boostDemo).get 1).ticks = 7
      ∧ ((Nat.iterate add_clock 100 boostDemo).get 2).priority = 1
      ∧ ((Nat.iterate add_clock 100 boostDemo).get 2).ticks = 3
      ∧ (Nat.iterate add_clock 100 boostDemo).ptable = boostDemo.ptable := by
  set_option maxRecDepth 100000 in decide

/-- C8 (code defect): the dispatch loop of the stride path tests only the
state and the pass value, not the tickets. In `strideDemo` the shell
(record 2) is RUNNABLE with `tickets = 0` and pass value 0, the reference
value `ps_val` is 0, and one pass gives a turn first to the reserved unit
(record 1) and then to the shell, which is set RUNNING. -/
theorem stride_path_runs_ticketless :
    (strideDemo.get 2).state = procstate.RUNNABLE
      ∧ (strideDemo.get 2).tickets = 0
      ∧ (stride_path (fun i s => yield i 0 s) strideDemo).2.1 = 0
      ∧ (stride_path (fun i s => yield i 0 s) strideDemo).2.2
          = [(1, strideDemo.get 1), (2, strideDemo.get 2)]
      ∧ (2, strideDemo.get 2) ∈ (stride_path (fun i s => yield i 0 s) strideDemo).2.2
      ∧ ((stride_path (fun _ s => s) strideDemo).1.get 2).state = procstate.RUNNING := by
  decide

/-- C9: whatever the units do while they run (`swtch`), every unit that one
pass of the feedback-queue path gives a turn had `tickets = 0` (so not
`tickets > 0`), was RUNNABLE and sat at the selected level when it was
chosen. -/
theorem mlfq_path_turns_ticketless (swtch : Nat → Kernel → Kernel) (k : Kernel) :
    ∀ t ∈ (mlfq_path swtch k).2.2,
      t.2.tickets = 0 ∧ ¬ 0 < t.2.tickets ∧ t.2.state = procstate.RUNNABLE
        ∧ t.2.priority = (mlfq_path swtch k).2.1 := by
  unfold mlfq_path
  simp only
  refine forEachProc_inv
    (fun st : Kernel × List (Nat × Proc) => ∀ t ∈ st.2,
      t.2.tickets = 0 ∧ ¬ 0 < t.2.tickets ∧ t.2.state = procstate.RUNNABLE
        ∧ t.2.priority = (refLoop k mlfq_scan_level 2).2) _ ?_ _ _ ?_
  · intro i st hst
    unfold mlfq_run_body
    split
    · exact hst
    · rename_i hc
      simp only [not_or, not_not] at hc
      intro t ht
      simp only [List.mem_append, List.mem_singleton] at ht
      rcases ht with ht | ht
      · exact hst t ht
      · subst ht
        refine ⟨hc.2.1, ?_, hc.1, hc.2.2⟩
        simp only [hc.2.1]
        decide
  · intro t ht
    simp at ht

/-- Witness for C9: in `boostDemo` one pass gives exactly one turn, to the
shell (record 1), which holds no tickets. -/
theorem mlfq_path_turns_ticketless_witness :
    (mlfq_path (fun i s => yield i 0 s) boostDemo).2.2 = [(1, boostDemo.get 1)]
      ∧ (boostDemo.get 1).tickets = 0
      ∧ ¬ 0 < (boostDemo.get 1).tickets
      ∧ (boostDemo.get 1).state = procstate.RUNNABLE
      ∧ (boostDemo.get 1).priority = (mlfq_path (fun i s => yield i 0 s) boostDemo).2.1 :=
  ⟨by decide,
   mlfq_path_turns_ticketless (fun i s => yield i 0 s) boostDemo (1, boostDemo.get 1)
     (by decide)⟩

/-- C10: `wakeup c` keeps the table size and the other globals, turns every
record that is SLEEPING on `c` into the same record with state RUNNABLE, and
leaves every other record as it was. A unit that went to sleep on `X` is
still SLEEPING after a wake on `Y ≠ X` and RUNNABLE after a wake on `X`. -/
theorem wakeup_broadcast (c : Chan) (k : Kernel) :
    (wakeup c k).ptable.length = k.ptable.length
      ∧ (∀ i, (wakeup c k).get i =
          if (k.get i).state = procstate.SLEEPING ∧ (k.get i).chan = c
          then { k.get i with state := procstate.RUNNABLE } else k.get i)
      ∧ { wakeup c k with ptable := k.ptable } = k
      ∧ (∀ me X Y lk, me < k.ptable.length → X ≠ Y →
          ∃ ks, sleep (some me) X (some lk) k = some ks
            ∧ (ks.get me).state = procstate.SLEEPING ∧ (ks.get me).chan = X
            ∧ ((wakeup Y ks).get me).state = procstate.SLEEPING
            ∧ ((wakeup X ks).get me).state = procstate.RUNNABLE) := by
  refine ⟨?_, ?_, rfl, ?_⟩
  · simp [wakeup, wakeup1]
  · intro i
    exact get_wakeup1 c k i
  · intro me X Y lk hme hXY
    refine ⟨_, rfl, ?_, ?_, ?_, ?_⟩
    · simp [get_modify, length_modify, hme]
    · simp [get_modify, length_modify, hme]
    · unfold wakeup
      rw [get_wakeup1]
      simp [get_modify, length_modify, hme, hXY]
    · unfold wakeup
      rw [get_wakeup1]
      simp [get_modify, length_modify, hme]

/-- Witness for C10: unit 2 of `demo` sleeps on one channel; a wake on another
leaves it SLEEPING, a wake on its own makes it RUNNABLE and leaves the shell,
SLEEPING on a third channel, asleep. -/
theorem wakeup_broadcast_witness :
    ∃ ks, sleep (some 2) (Chan.obj 7) (some 0) demo = some ks
      ∧ ((wakeup (Chan.obj 8) ks).get 2).state = procstate.SLEEPING
      ∧ ((wakeup (Chan.obj 7) ks).get 2).state = procstate.RUNNABLE
      ∧ ((wakeup (Chan.obj 7) ks).get 1).state = procstate.SLEEPING := by
  obtain ⟨ks, hs, _, _, hY, hX⟩ :=
    (wakeup_broadcast (Chan.obj 7) demo).2.2.2 2 (Chan.obj 7) (Chan.obj 8) 0
      (by decide) (by decide)
  refine ⟨ks, hs, hY, hX, ?_⟩
  have hk : ks = (sleep (some 2) (Chan.obj 7) (some 0) demo).get (by decide) := by
    simp [hs]
  rw [hk]
  decide

/-! ## Lifecycle, arbitrator and thread claims -/

/-- C14 (code defect): `exit` tests `proc->parent == initproc` where
`thread_exit` tests `proc == initproc`. In `familyDemo` the shell (record 1,
a direct child of init) calls `exit` and the kernel halts, while init itself
(record 0) calls `exit` and becomes a ZOMBIE. `thread_exit` halts for init
and lets the shell become a ZOMBIE. -/
theorem exit_halts_for_child_of_init :
    familyDemo.initproc = some 0
      ∧ (familyDemo.get 1).parent = some 0
      ∧ exit 1 familyDemo = none
      ∧ (exit 0 familyDemo).map (fun k => (k.get 0).state) = some procstate.ZOMBIE
      ∧ thread_exit 0 0 familyDemo = none
      ∧ (thread_exit 1 0 familyDemo).map (fun k => (k.get 1).state) = some procstate.ZOMBIE
      ∧ (exit 2 familyDemo).map (fun k => (k.get 2).state) = some procstate.ZOMBIE := by
  decide

/-- C16 (code defect): the arbitrator compares `stride_pass_value` with
itself. In `arbiterDemo` tickets are reserved (30), the stride pool has pass
value 10 and the feedback pool 0, so the feedback pool has the lower value;
`decide_scheduler` still returns 1 and advances `stride_pass_value` to 13,
leaving `mlfq_pass_value` at 0. -/
theorem decide_scheduler_ignores_mlfq_pass :
    arbiterDemo.total_tickets = 30
      ∧ arbiterDemo.stride_pass_value = 10
      ∧ arbiterDemo.mlfq_pass_value = 0
      ∧ ¬ arbiterDemo.stride_pass_value ≤ arbiterDemo.mlfq_pass_value
      ∧ (decide_scheduler arbiterDemo).map (fun r => r.1) = some 1
      ∧ (decide_scheduler arbiterDemo).map (fun r => r.2.stride_pass_value) = some 13
      ∧ (decide_scheduler arbiterDemo).map (fun r => r.2.mlfq_pass_value) = some 0 := by
  decide

/-- C17: when `total_tickets` is nonzero (and the divisor `100 - total_tickets`
of the second division is not 0), `decide_scheduler` returns 1 whatever the
two pass values are, and advances only `stride_pass_value`, by
`100 / total_tickets`. In every state, a call that returns leaves
`mlfq_pass_value` as it was, and it returns 0 only when `total_tickets = 0`. -/
theorem decide_scheduler_always_stride (k : Kernel) (h0 : k.total_tickets ≠ 0)
    (hdiv : wrap32 (100 - k.total_tickets) ≠ 0) :
    decide_scheduler k
        = some (1, k.setStridePass (wrap32 (k.stride_pass_value + Int.tdiv 100 k.total_tickets)))
      ∧ (∀ s r s', decide_scheduler s = some (r, s') →
          s'.mlfq_pass_value = s.mlfq_pass_value ∧ (r = 0 → s.total_tickets = 0)
            ∧ (r = 0 ∨ r = 1)) := by
  constructor
  · unfold decide_scheduler
    simp only [h0, hdiv, ne_eq, not_false_eq_true, if_true, if_false, le_refl]
  · intro s r s' h
    unfold decide_scheduler at h
    by_cases ht : s.total_tickets = 0
    · simp only [ht, ne_eq, not_true_eq_false, if_false, Option.some.injEq, Prod.mk.injEq] at h
      obtain ⟨hr, hs⟩ := h
      subst hs
      exact ⟨rfl, fun _ => ht, Or.inl hr.symm⟩
    · by_cases hd : wrap32 (100 - s.total_tickets) = 0
      · simp [ht, hd] at h
      · simp only [ht, hd, ne_eq, not_false_eq_true, if_true, if_false, le_refl,
          Option.some.injEq, Prod.mk.injEq] at h
        obtain ⟨hr, hs⟩ := h
        subst hs
        refine ⟨rfl, ?_, Or.inr hr.symm⟩
        intro h0r
        rw [← hr] at h0r
        exact absurd h0r (by decide)

/-- Witness for C17: in `arbiterDemo` (30 tickets reserved) the call returns 1
although the feedback pool has the lower pass value. -/
theorem decide_scheduler_always_stride_witness :
    decide_scheduler arbiterDemo = some (1, arbiterDemo.setStridePass 13) :=
  (decide_scheduler_always_stride arbiterDemo (by decide) (by decide)).1

/-- C20 (code defect): the level scan `for(i = 0, ref = ptable.proc[i];
i < NPROC; ref = ptable.proc[i++])` loads slot `i - 1` in iteration `i`, so it
reads slot 0 twice and never reads the last slot. In `lastSlotDemo` the
RUNNABLE ticketless records are slot 2 (level 1) and the last slot 63
(level 0): the minimum level is 0, the path selects level 1 and gives its only
turn to slot 2, none to slot 63. -/
theorem mlfq_level_skips_last_slot :
    lastSlotDemo.ptable.length = 64
      ∧ (lastSlotDemo.get 63).state = procstate.RUNNABLE
      ∧ (lastSlotDemo.get 63).tickets = 0
      ∧ (lastSlotDemo.get 63).priority = 0
      ∧ (lastSlotDemo.get 2).priority = 1
      ∧ (mlfq_path (fun i s => yield i 0 s) lastSlotDemo).2.1 = 1
      ∧ (mlfq_path (fun i s => yield i 0 s) lastSlotDemo).2.2 = [(2, lastSlotDemo.get 2)] := by
  set_option maxRecDepth 100000 in decide

theorem state_ne_unused_lt_length (k : Kernel) (j : Nat)
    (h : (k.get j).state ≠ procstate.UNUSED) : j < k.ptable.length := by
  by_contra hlt
  rw [get_of_length_le k j (Nat.le_of_not_lt hlt)] at h
  exact h rfl

theorem length_wait_sweep_body (nz : Bool) (i : Nat) (s : Kernel) :
    (wait_sweep_body nz i s).ptable.length = s.ptable.length := by
  unfold wait_sweep_body
  simp only
  split
  · exact length_modify _ _ _
  · rfl

theorem wait_sweep_body_no_child (nz : Bool) (proc i : Nat) (s : Kernel)
    (h : ∀ j, (s.get j).parent ≠ some proc) :
    ∀ j, ((wait_sweep_body nz i s).get j).parent ≠ some proc := by
  intro j
  unfold wait_sweep_body
  simp only
  split
  · rw [get_modify]
    split
    · simp [wait_clear]
    · exact h j
  · exact h j

theorem wait_scan_no_child (proc : Nat) (k : Kernel) (l : List Nat) (hk : Bool)
    (h : ∀ j, (k.get j).parent ≠ some proc) : wait_scan proc k l hk = Sum.inr hk := by
  induction l with
  | nil => rfl
  | cons i rest ih =>
    unfold wait_scan
    simp only [h i, ne_eq, not_false_eq_true, if_true]
    exact ih

theorem wait_no_child (nz : Bool) (proc : Nat) (k : Kernel)
    (h : ∀ j, (k.get j).parent ≠ some proc) :
    wait_pass nz proc k
      = Outcome.ret { value := -1, reaped := none, freevm := [], retval := none,
                      k := forEachProc k.ptable.length (wait_sweep_body nz) k } := by
  have hs : ∀ j, ((forEachProc k.ptable.length (wait_sweep_body nz) k).get j).parent
      ≠ some proc := by
    refine forEachProc_inv (fun s : Kernel => ∀ j, (s.get j).parent ≠ some proc) _ ?_ _ _ h
    intro i s hs
    exact wait_sweep_body_no_child nz proc i s hs
  unfold wait_pass
  simp only [wait_scan_no_child proc _ _ false hs, true_or, if_true]

theorem wait_sweep_body_frame (nz : Bool) (proc i : Nat) (k s : Kernel)
    (hrun : (k.get proc).state ≠ procstate.ZOMBIE) (hs : SweepFrame proc k s) :
    SweepFrame proc k (wait_sweep_body nz i s) := by
  obtain ⟨hlen, hself, hrest⟩ := hs
  unfold wait_sweep_body
  simp only
  split
  · rename_i hc
    have hnp : (k.get i).parent ≠ some proc := by
      intro hp
      have hi := (hrest i).1 hp
      rw [hi, hp] at hc
      simp only [hself, decide_eq_true_eq] at hc
      exact hrun hc.1
    have hne : i ≠ proc := by
      intro h
      rw [h, hself] at hc
      exact hrun hc.2.1
    refine ⟨by rw [length_modify]; exact hlen, ?_, ?_⟩
    · rw [get_modify]
      simp only [hne, false_and, if_false]
      exact hself
    · intro j
      constructor
      · intro hp
        have hji : ¬ (i = j) := by
          intro h
          rw [h] at hnp
          exact hnp hp
        rw [get_modify]
        simp only [hji, false_and, if_false]
        exact (hrest j).1 hp
      · intro hp
        rw [get_modify]
        split
        · simp [wait_clear]
        · exact (hrest j).2 hp
  · exact ⟨hlen, hself, hrest⟩

theorem wait_sweep_frame (nz : Bool) (proc : Nat) (k : Kernel)
    (hrun : (k.get proc).state ≠ procstate.ZOMBIE) :
    SweepFrame proc k (forEachProc k.ptable.length (wait_sweep_body nz) k) := by
  refine forEachProc_inv (fun s : Kernel => SweepFrame proc k s) _ ?_ _ _ ?_
  · intro i s hs
    exact wait_sweep_body_frame nz proc i k s hrun hs
  · exact ⟨rfl, rfl, fun j => ⟨fun _ => rfl, fun h => h⟩⟩

theorem wait_scan_spec (proc : Nat) (k : Kernel) (l : List Nat) (hk : Bool) :
    (∃ j ∈ l, (k.get j).parent = some proc ∧ (k.get j).state = procstate.ZOMBIE
        ∧ wait_scan proc k l hk
          = Sum.inl { value := (k.get j).pid, reaped := some j, freevm := [(k.get j).pgdir],
                      retval := none, k := k.modify j wait_clear })
      ∨ ((∀ j ∈ l, ¬ ((k.get j).parent = some proc ∧ (k.get j).state = procstate.ZOMBIE))
          ∧ ∃ b, wait_scan proc k l hk = Sum.inr b) := by
  induction l generalizing hk with
  | nil => exact Or.inr ⟨by simp, hk, rfl⟩
  | cons i rest ih =>
    unfold wait_scan
    by_cases hp : (k.get i).parent = some proc
    · by_cases hz : (k.get i).state = procstate.ZOMBIE
      · left
        refine ⟨i, by simp, hp, hz, ?_⟩
        simp [hp, hz]
      · simp only [hp, ne_eq, not_true_eq_false, if_false, hz]
        rcases ih true with ⟨j, hj, h1, h2, h3⟩ | ⟨h1, b, h2⟩
        · exact Or.inl ⟨j, by simp [hj], h1, h2, h3⟩
        · right
          refine ⟨?_, b, h2⟩
          intro j hj
          simp only [List.mem_cons] at hj
          rcases hj with hj | hj
          · subst hj
            exact fun h => hz h.2
          · exact h1 j hj
    · simp only [hp, ne_eq, not_false_eq_true, if_true]
      rcases ih hk with ⟨j, hj, h1, h2, h3⟩ | ⟨h1, b, h2⟩
      · exact Or.inl ⟨j, by simp [hj], h1, h2, h3⟩
      · right
        refine ⟨?_, b, h2⟩
        intro j hj
        simp only [List.mem_cons] at hj
        rcases hj with hj | hj
        · subst hj
          exact fun h => hp h.1
        · exact h1 j hj

theorem wait_pass_cases (nz : Bool) (proc : Nat) (k : Kernel)
    (hrun : (k.get proc).state ≠ procstate.ZOMBIE) :
    (∃ j, (k.get j).parent = some proc ∧ (k.get j).state = procstate.ZOMBIE
        ∧ wait_pass nz proc k
          = Outcome.ret { value := (k.get j).pid, reaped := some j,
                          freevm := [(k.get j).pgdir], retval := none,
                          k := (forEachProc k.ptable.length (wait_sweep_body nz) k).modify j
                            wait_clear })
      ∨ ((∀ j, ¬ ((k.get j).parent = some proc ∧ (k.get j).state = procstate.ZOMBIE))
          ∧ (wait_pass nz proc k
                = Outcome.ret { value := -1, reaped := none, freevm := [], retval := none,
                                k := forEachProc k.ptable.length (wait_sweep_body nz) k }
              ∨ ((k.get proc).killed = 0 ∧ ∃ kb, wait_pass nz proc k = Outcome.blocked kb))) := by
  obtain ⟨hlen, hself, hrest⟩ := wait_sweep_frame nz proc k hrun
  have hback : ∀ j, ((forEachProc k.ptable.length (wait_sweep_body nz) k).get j).parent
      = some proc → (forEachProc k.ptable.length (wait_sweep_body nz) k).get j = k.get j := by
    intro j hp
    by_cases hk : (k.get j).parent = some proc
    · exact (hrest j).1 hk
    · exact absurd hp ((hrest j).2 hk)
  rcases wait_scan_spec proc (forEachProc k.ptable.length (wait_sweep_body nz) k)
      (List.range (forEachProc k.ptable.length (wait_sweep_body nz) k).ptable.length) false
    with ⟨j, _, hp, hz, hscan⟩ | ⟨hnone, b, hscan⟩
  · left
    have hj := hback j hp
    rw [hj] at hp hz hscan
    refine ⟨j, hp, hz, ?_⟩
    unfold wait_pass
    simp only [hscan]
  · right
    constructor
    · intro j hj
      have hlt : j < k.ptable.length :=
        state_ne_unused_lt_length k j (by rw [hj.2]; decide)
      have hj2 := (hrest j).1 hj.1
      apply hnone j (by rw [List.mem_range, hlen]; exact hlt)
      rw [hj2]
      exact hj
    · unfold wait_pass
      simp only [hscan, hself]
      by_cases hc : b = false ∨ (k.get proc).killed ≠ 0
      · left
        simp only [hc, if_true]
      · right
        simp only [not_or, not_not] at hc
        refine ⟨hc.2, ?_⟩
        simp only [hc.1, hc.2, ne_eq, not_true_eq_false, or_self, if_false]
        exact ⟨_, rfl⟩

/-- C11 (counterexample): in `zombieDemo` the shell (record 1) is marked
killed and has a ZOMBIE child with pid 3. `wait` does not return -1: it reaps
the child and returns 3. -/
theorem wait_killed_reaps_child :
    (zombieDemo.get 1).killed = 1
      ∧ (zombieDemo.get 2).parent = some 1
      ∧ (zombieDemo.get 2).state = procstate.ZOMBIE
      ∧ (∀ nz, ∃ r, wait_pass nz 1 zombieDemo = Outcome.ret r ∧ r.value = 3 ∧ r.value ≠ -1
          ∧ r.reaped = some 2 ∧ (r.k.get 2).state = procstate.UNUSED) := by
  refine ⟨by decide, by decide, by decide, ?_⟩
  intro nz
  cases nz
  · exact ⟨_, rfl, by decide, by decide, by decide, by decide⟩
  · exact ⟨_, rfl, by decide, by decide, by decide, by decide⟩

/-- C11 (amended): if no record has the caller as parent, `wait` returns -1
without putting the caller to sleep. If the running caller's killed flag is
set, `wait` returns without putting the caller to sleep: -1 when the caller
has no ZOMBIE child, and otherwise the pid of a ZOMBIE child, which it
reaps. -/
theorem wait_returns_without_sleeping (nz : Bool) (k : Kernel) (proc : Nat) :
    ((∀ j, (k.get j).parent ≠ some proc) →
        ∃ k', wait_pass nz proc k
          = Outcome.ret { value := -1, reaped := none, freevm := [], retval := none, k := k' })
      ∧ ((k.get proc).killed ≠ 0 → (k.get proc).state = procstate.RUNNING →
          ∃ r, wait_pass nz proc k = Outcome.ret r
            ∧ ((r.value = -1 ∧ r.reaped = none
                  ∧ ∀ j, ¬ ((k.get j).parent = some proc ∧ (k.get j).state = procstate.ZOMBIE))
                ∨ ∃ j, r.reaped = some j ∧ r.value = (k.get j).pid
                    ∧ (k.get j).parent = some proc
                    ∧ (k.get j).state = procstate.ZOMBIE)) := by
  constructor
  · intro h
    exact ⟨_, wait_no_child nz proc k h⟩
  · intro hkill hrun
    have hnz : (k.get proc).state ≠ procstate.ZOMBIE := by rw [hrun]; decide
    rcases wait_pass_cases nz proc k hnz with ⟨j, hp, hz, hw⟩ | ⟨hnone, hw | ⟨hk0, _⟩⟩
    · exact ⟨_, hw, Or.inr ⟨j, rfl, rfl, hp, hz⟩⟩
    · exact ⟨_, hw, Or.inl ⟨rfl, rfl, hnone⟩⟩
    · exact absurd hk0 hkill

/-- Witness for C11: in `familyDemo` process `p` (record 2) has no children
and `wait` returns -1; in `zombieDemo` the killed shell gets a result at
once. -/
theorem wait_returns_without_sleeping_witness :
    (∃ k', wait_pass false 2 familyDemo
        = Outcome.ret { value := -1, reaped := none, freevm := [], retval := none, k := k' })
      ∧ (∃ r, wait_pass false 1 zombieDemo = Outcome.ret r
          ∧ ((r.value = -1 ∧ r.reaped = none
                ∧ ∀ j, ¬ ((zombieDemo.get j).parent = some 1
                    ∧ (zombieDemo.get j).state = procstate.ZOMBIE))
              ∨ ∃ j, r.reaped = some j ∧ r.value = (zombieDemo.get j).pid
                  ∧ (zombieDemo.get j).parent = some 1
                  ∧ (zombieDemo.get j).state = procstate.ZOMBIE)) :=
  ⟨(wait_returns_without_sleeping false familyDemo 2).1 (by
      intro j
      by_cases hj : j < 7
      · interval_cases j <;> decide
      · rw [get_of_length_le familyDemo j (by simpa using hj)]
        decide),
   (wait_returns_without_sleeping false zombieDemo 1).2 (by decide) (by decide)⟩

theorem get_setNextpid (k : Kernel) (v : Int) (j : Nat) : (k.setNextpid v).get j = k.get j := rfl

theorem ptable_setNextpid (k : Kernel) (v : Int) : (k.setNextpid v).ptable = k.ptable := rfl

theorem get_setNexttid (k : Kernel) (v : Int) (j : Nat) : (k.setNexttid v).get j = k.get j := rfl

theorem ptable_setNexttid (k : Kernel) (v : Int) : (k.setNexttid v).ptable = k.ptable := rfl

theorem findUnused_range' (k : Kernel) (n : Nat) :
    ∀ s j, s ≤ j → j < s + n → (k.get j).state = procstate.UNUSED →
      ∃ a, findUnused k (List.range' s n) = some a ∧ s ≤ a ∧ a ≤ j
        ∧ (k.get a).state = procstate.UNUSED
        ∧ ∀ m, s ≤ m → m < a → (k.get m).state ≠ procstate.UNUSED := by
  induction n with
  | zero => intro s j h1 h2; omega
  | succ n ih =>
    intro s j h1 h2 hU
    rw [List.range'_succ]
    unfold findUnused
    by_cases hs : (k.get s).state = procstate.UNUSED
    · simp only [hs, if_true]
      exact ⟨s, rfl, le_refl _, h1, hs, fun m hm1 hm2 => by omega⟩
    · simp only [hs, if_false]
      have hsj : s ≠ j := by
        intro h
        rw [h] at hs
        exact hs hU
      obtain ⟨a, ha, h3, h4, h5, h6⟩ := ih (s + 1) j (by omega) (by omega) hU
      refine ⟨a, ha, by omega, h4, h5, ?_⟩
      intro m hm1 hm2
      by_cases hms : m = s
      · rw [hms]; exact hs
      · exact h6 m (by omega) hm2

theorem allocproc_selects (k : Kernel) (j : Nat) (hlt : j < k.ptable.length)
    (hU : (k.get j).state = procstate.UNUSED) : AllocSelects k j := by
  intro ks
  obtain ⟨a, ha, _, haj, _, hmin⟩ :=
    findUnused_range' k k.ptable.length 0 j (Nat.zero_le _) (by omega) hU
  rw [← List.range_eq_range'] at ha
  have halt : a < k.ptable.length := by omega
  refine ⟨a, ?_, haj, ?_, ?_, ?_⟩
  · unfold allocproc
    simp only [ha]
  · intro hall
    by_contra hne
    have : a < j := by omega
    obtain ⟨b, hb, _, _, hbU, _⟩ :=
      findUnused_range' k k.ptable.length 0 j (Nat.zero_le _) (by omega) hU
    rw [← List.range_eq_range'] at hb
    rw [ha] at hb
    cases hb
    exact hall a this hbU
  · unfold allocproc
    simp only [ha, get_modify, length_modify, ptable_setNextpid, get_setNextpid, halt, and_self,
      if_true, allocproc_init]
  · unfold allocproc
    simp only [ha, get_modify, length_modify, ptable_setNextpid, get_setNextpid, halt, and_self,
      if_true, allocproc_init]

theorem wait_clear_recycled (s : Kernel) (j : Nat) (hlt : j < s.ptable.length) :
    Recycled (s.modify j wait_clear) j
      ∧ ((s.modify j wait_clear).get j).state = procstate.UNUSED
      ∧ j < (s.modify j wait_clear).ptable.length := by
  unfold Recycled
  rw [get_modify, length_modify]
  simp only [hlt, and_self, if_true, wait_clear, and_true]

theorem join_scan_spec (t : Int) (k : Kernel) (l : List Nat) (hk : Bool) :
    (∃ j ∈ l, (k.get j).tid = t ∧ (k.get j).state = procstate.ZOMBIE
        ∧ join_scan t k l hk = Sum.inl (join_reap j k))
      ∨ ((∀ j ∈ l, ¬ ((k.get j).tid = t ∧ (k.get j).state = procstate.ZOMBIE))
          ∧ ∃ b, join_scan t k l hk = Sum.inr b
              ∧ (b = true ↔ (hk = true ∨ ∃ j ∈ l, (k.get j).tid = t))) := by
  induction l generalizing hk with
  | nil => exact Or.inr ⟨by simp, hk, rfl, by simp⟩
  | cons i rest ih =>
    unfold join_scan
    by_cases hp : (k.get i).tid = t
    · by_cases hz : (k.get i).state = procstate.ZOMBIE
      · left
        refine ⟨i, by simp, hp, hz, ?_⟩
        simp [hp, hz]
      · simp only [hp, ne_eq, not_true_eq_false, if_false, hz]
        rcases ih true with ⟨j, hj, h1, h2, h3⟩ | ⟨h1, b, h2, h3⟩
        · exact Or.inl ⟨j, by simp [hj], h1, h2, h3⟩
        · right
          refine ⟨?_, b, h2, ?_⟩
          · intro j hj
            simp only [List.mem_cons] at hj
            rcases hj with hj | hj
            · subst hj
              exact fun h => hz h.2
            · exact h1 j hj
          · rw [h3]
            simp only [true_or, true_iff]
            exact Or.inr ⟨i, by simp, hp⟩
    · simp only [hp, ne_eq, not_false_eq_true, if_true]
      rcases ih hk with ⟨j, hj, h1, h2, h3⟩ | ⟨h1, b, h2, h3⟩
      · exact Or.inl ⟨j, by simp [hj], h1, h2, h3⟩
      · right
        refine ⟨?_, b, h2, ?_⟩
        · intro j hj
          simp only [List.mem_cons] at hj
          rcases hj with hj | hj
          · subst hj
            exact fun h => hp h.1
          · exact h1 j hj
        · rw [h3]
          constructor
          · rintro (h | ⟨j, hj, hjt⟩)
            · exact Or.inl h
            · exact Or.inr ⟨j, by simp [hj], hjt⟩
          · rintro (h | ⟨j, hj, hjt⟩)
            · exact Or.inl h
            · simp only [List.mem_cons] at hj
              rcases hj with hj | hj
              · subst hj
                exact absurd hjt hp
              · exact Or.inr ⟨j, hj, hjt⟩

theorem join_reap_ret (j : Nat) (k : Kernel) (hlt : j < k.ptable.length)
    (hpar : (k.get j).parent ≠ none) :
    ∃ r, join_reap j k = Outcome.ret r ∧ r.value = 0 ∧ r.reaped = some j ∧ r.freevm = []
      ∧ r.retval = some (k.get j).ret_val ∧ Recycled r.k j ∧ (r.k.get j).tid = 0
      ∧ r.k.ptable.length = k.ptable.length := by
  obtain ⟨par, hp⟩ := Option.ne_none_iff_exists'.mp hpar
  unfold join_reap
  simp only
  cases hf : tspace_find ((k.modify j join_clear_head).get j).tspace 1 with
  | none =>
    simp only
    refine ⟨_, rfl, rfl, rfl, rfl, rfl, ?_, ?_, ?_⟩
    · unfold Recycled
      simp only [get_modify, length_modify, hlt, and_self, if_true, join_clear_tail,
        join_clear_head]
    · simp only [get_modify, length_modify, hlt, and_self, if_true, join_clear_tail,
        join_clear_head]
    · simp only [length_modify]
  | some s =>
    have hp2 : (((k.modify j join_clear_head).modify j
        (fun p => { p with tspace := p.tspace.set s 0 })).get j).parent = some par := by
      simp only [get_modify, length_modify, hlt, and_self, if_true, join_clear_head, hp]
    simp only [hp2]
    refine ⟨_, rfl, rfl, rfl, rfl, rfl, ?_, ?_, ?_⟩
    · unfold Recycled
      by_cases hjp : par = j
      · simp only [get_modify, length_modify, hlt, and_self, if_true, join_clear_tail,
          join_clear_head, hjp]
      · simp only [get_modify, length_modify, hlt, and_self, if_true, join_clear_tail,
          join_clear_head, hjp, false_and, if_false, and_true]
    · by_cases hjp : par = j
      · simp only [get_modify, length_modify, hlt, and_self, if_true, join_clear_tail,
          join_clear_head, hjp]
      · simp only [get_modify, length_modify, hlt, and_self, if_true, join_clear_tail,
          join_clear_head, hjp, false_and, if_false]
    · simp only [length_modify]

/-- C12: when the running caller of `wait` has a ZOMBIE child, `wait` returns
the pid of a ZOMBIE child and has passed that child's page directory to
`freevm`; when a ZOMBIE record with thread ID `t` exists (ZOMBIE records with
that ID having a parent), `thread_join(t, ..)` returns 0 and calls no
`freevm`. In both cases the reaped record is UNUSED with pid 0, no parent,
killed 0, an empty name and no kernel stack (and tid 0 after a join), and the
next `allocproc` can select its slot. -/
theorem reaped_slot_recycled (nz : Bool) (k : Kernel) (proc : Nat) :
    ((k.get proc).state ≠ procstate.ZOMBIE →
        (∃ i, (k.get i).parent = some proc ∧ (k.get i).state = procstate.ZOMBIE) →
        ∃ r j, wait_pass nz proc k = Outcome.ret r ∧ r.reaped = some j
          ∧ (k.get j).parent = some proc ∧ (k.get j).state = procstate.ZOMBIE
          ∧ r.value = (k.get j).pid ∧ r.freevm = [(k.get j).pgdir]
          ∧ Recycled r.k j ∧ AllocSelects r.k j)
      ∧ (∀ t, (∃ i, (k.get i).tid = t ∧ (k.get i).state = procstate.ZOMBIE) →
          (∀ m, (k.get m).tid = t → (k.get m).state = procstate.ZOMBIE →
            (k.get m).parent ≠ none) →
          ∃ r j, thread_join_pass proc t k = Outcome.ret r ∧ r.value = 0 ∧ r.reaped = some j
            ∧ (k.get j).tid = t ∧ (k.get j).state = procstate.ZOMBIE
            ∧ r.freevm = [] ∧ r.retval = some (k.get j).ret_val
            ∧ Recycled r.k j ∧ (r.k.get j).tid = 0 ∧ AllocSelects r.k j) := by
  constructor
  · intro hrun ⟨i, hip, hiz⟩
    rcases wait_pass_cases nz proc k hrun with ⟨j, hp, hz, hw⟩ | ⟨hnone, _⟩
    · have hlt : j < k.ptable.length :=
        state_ne_unused_lt_length k j (by rw [hz]; decide)
      have hlen := (wait_sweep_frame nz proc k hrun).1
      obtain ⟨hrec, hU, hlt2⟩ := wait_clear_recycled
        (forEachProc k.ptable.length (wait_sweep_body nz) k) j (by rw [hlen]; exact hlt)
      exact ⟨_, j, hw, rfl, hp, hz, rfl, rfl, hrec, allocproc_selects _ j hlt2 hU⟩
    · exact absurd ⟨hip, hiz⟩ (hnone i)
  · intro t ⟨i, hit, hiz⟩ hpar
    have hilt : i < k.ptable.length := state_ne_unused_lt_length k i (by rw [hiz]; decide)
    rcases join_scan_spec t k (List.range k.ptable.length) false
      with ⟨j, _, hjt, hjz, hscan⟩ | ⟨hnone, _⟩
    · have hlt : j < k.ptable.length :=
        state_ne_unused_lt_length k j (by rw [hjz]; decide)
      obtain ⟨r, hr, h1, h2, h3, h4, h5, h6, h7⟩ := join_reap_ret j k hlt (hpar j hjt hjz)
      refine ⟨r, j, ?_, h1, h2, hjt, hjz, h3, h4, h5, h6, ?_⟩
      · unfold thread_join_pass
        simp only [hscan, hr]
      · exact allocproc_selects _ j (by rw [h7]; exact hlt) h5.1
    · exact absurd ⟨hit, hiz⟩ (hnone i (List.mem_range.mpr hilt))

/-- Witness for C12: in `zombieDemo` the shell reaps its ZOMBIE child (slot 2,
pid 3); in `joinDemo` process `p` joins its ZOMBIE thread (slot 3, ID 1) and
receives the value 7. -/
theorem reaped_slot_recycled_witness :
    (∃ r j, wait_pass false 1 zombieDemo = Outcome.ret r ∧ r.reaped = some j
        ∧ (zombieDemo.get j).parent = some 1 ∧ (zombieDemo.get j).state = procstate.ZOMBIE
        ∧ r.value = (zombieDemo.get j).pid ∧ r.freevm = [(zombieDemo.get j).pgdir]
        ∧ Recycled r.k j ∧ AllocSelects r.k j)
      ∧ (∃ r j, thread_join_pass 2 1 joinDemo = Outcome.ret r ∧ r.value = 0
          ∧ r.reaped = some j
          ∧ (joinDemo.get j).tid = 1 ∧ (joinDemo.get j).state = procstate.ZOMBIE
          ∧ r.freevm = [] ∧ r.retval = some (joinDemo.get j).ret_val
          ∧ Recycled r.k j ∧ (r.k.get j).tid = 0 ∧ AllocSelects r.k j)
      ∧ (wait_pass false 1 zombieDemo).after zombieDemo
          = zombieDemo.modify 2 wait_clear
      ∧ (((thread_join_pass 2 1 joinDemo).after joinDemo).get 3).state = procstate.UNUSED := by
  refine ⟨(reaped_slot_recycled false zombieDemo 1).1 (by decide) ⟨2, by decide, by decide⟩,
    (reaped_slot_recycled false joinDemo 2).2 1 ⟨3, by decide, by decide⟩ ?_, by decide,
    by decide⟩
  intro m hm hz
  by_cases hlt : m < 7
  · interval_cases m <;> first | decide | exact absurd hm (by decide)
  · rw [get_of_length_le joinDemo m (by
      have : joinDemo.ptable.length = 7 := by decide
      omega)] at hz
    exact absurd hz (by decide)

/-- C18 (counterexample): in `staleTidDemo` no live record has thread ID 1
(only the free slot 3 carries it), the caller is not killed, and
`thread_join(1, ..)` puts the caller to sleep. In `joinKilledDemo` the caller
is marked killed, and `thread_join(1, ..)` returns 0 and recycles the ZOMBIE
thread in slot 3. -/
theorem thread_join_blocks_or_reaps :
    (staleTidDemo.get 3).tid = 1
      ∧ (staleTidDemo.get 3).state = procstate.UNUSED
      ∧ (∀ j, j < staleTidDemo.ptable.length →
          (staleTidDemo.get j).state ≠ procstate.UNUSED → (staleTidDemo.get j).tid ≠ 1)
      ∧ (staleTidDemo.get 2).killed = 0
      ∧ (∃ kb, thread_join_pass 2 1 staleTidDemo = Outcome.blocked kb
          ∧ (kb.get 2).state = procstate.SLEEPING)
      ∧ (joinKilledDemo.get 2).killed = 1
      ∧ (∃ r, thread_join_pass 2 1 joinKilledDemo = Outcome.ret r ∧ r.value = 0
          ∧ (joinKilledDemo.get 3).state = procstate.ZOMBIE
          ∧ (r.k.get 3).state = procstate.UNUSED) := by
  refine ⟨by decide, by decide, ?_, by decide, ⟨_, rfl, by decide⟩, by decide,
    ⟨_, rfl, by decide, by decide, by decide⟩⟩
  intro j hj
  have h7 : staleTidDemo.ptable.length = 7 := by decide
  rw [h7] at hj
  interval_cases j <;> decide

/-- C18 (amended): if no record of the table, free slots included, has thread
ID `t`, or if the caller's killed flag is set and no ZOMBIE record has thread
ID `t`, then `thread_join(t, ..)` returns -1 without putting the caller to
sleep and without changing any global or table record. -/
theorem thread_join_fails_fast (k : Kernel) (proc : Nat) (t : Int) :
    ((∀ j, j < k.ptable.length → (k.get j).tid ≠ t) →
        thread_join_pass proc t k
          = Outcome.ret { value := -1, reaped := none, freevm := [], retval := none, k := k })
      ∧ ((k.get proc).killed ≠ 0 →
          (∀ j, ¬ ((k.get j).tid = t ∧ (k.get j).state = procstate.ZOMBIE)) →
          thread_join_pass proc t k
            = Outcome.ret { value := -1, reaped := none, freevm := [], retval := none,
                            k := k }) := by
  constructor
  · intro hno
    rcases join_scan_spec t k (List.range k.ptable.length) false
      with ⟨j, hj, hjt, _, _⟩ | ⟨_, b, hscan, hb⟩
    · exact absurd hjt (hno j (List.mem_range.mp hj))
    · have hbf : b = false := by
        cases b with
        | false => rfl
        | true =>
          rcases hb.mp rfl with h | ⟨j, hj, hjt⟩
          · exact absurd h (by decide)
          · exact absurd hjt (hno j (List.mem_range.mp hj))
      unfold thread_join_pass
      simp only [hscan, hbf, true_or, if_true]
  · intro hkill hnz
    rcases join_scan_spec t k (List.range k.ptable.length) false
      with ⟨j, _, hjt, hjz, _⟩ | ⟨_, b, hscan, _⟩
    · exact absurd ⟨hjt, hjz⟩ (hnz j)
    · unfold thread_join_pass
      simp only [hscan, hkill, ne_eq, not_false_eq_true, or_true, if_true]

/-- Witness for C18: in `familyDemo` no record has thread ID 5; in
`zombieDemo` the killed shell joins an ID no ZOMBIE carries. -/
theorem thread_join_fails_fast_witness :
    thread_join_pass 2 5 familyDemo
        = Outcome.ret { value := -1, reaped := none, freevm := [], retval := none,
                        k := familyDemo }
      ∧ thread_join_pass 1 0 zombieDemo
        = Outcome.ret { value := -1, reaped := none, freevm := [], retval := none,
                        k := zombieDemo } := by
  refine ⟨(thread_join_fails_fast familyDemo 2 5).1 ?_,
    (thread_join_fails_fast zombieDemo 1 0).2 (by decide) ?_⟩
  · intro j hj
    have h7 : familyDemo.ptable.length = 7 := by decide
    rw [h7] at hj
    interval_cases j <;> decide
  · intro j
    by_cases hlt : j < 7
    · interval_cases j <;> decide
    · rw [get_of_length_le zombieDemo j (by
        have : zombieDemo.ptable.length = 7 := by decide
        omega)]
      decide

theorem findUnused_some (k : Kernel) (l : List Nat) (a : Nat) (h : findUnused k l = some a) :
    a ∈ l ∧ (k.get a).state = procstate.UNUSED := by
  induction l with
  | nil => simp [findUnused] at h
  | cons i rest ih =>
    unfold findUnused at h
    by_cases hs : (k.get i).state = procstate.UNUSED
    · simp only [hs, if_true, Option.some.injEq] at h
      subst h
      exact ⟨by simp, hs⟩
    · simp only [hs, if_false] at h
      obtain ⟨h1, h2⟩ := ih h
      exact ⟨by simp [h1], h2⟩

theorem allocproc_some (kalloc : Option Nat) (k : Kernel) (nt : Nat) (k1 : Kernel)
    (h : allocproc kalloc k = (some nt, k1)) :
    ∃ ks, kalloc = some ks ∧ findUnused k (List.range k.ptable.length) = some nt
      ∧ nt < k.ptable.length ∧ (k.get nt).state = procstate.UNUSED
      ∧ k1.ptable.length = k.ptable.length ∧ k1.nexttid = k.nexttid
      ∧ k1.initproc = k.initproc ∧ k1.total_tickets = k.total_tickets
      ∧ (∀ j, j ≠ nt → k1.get j = k.get j)
      ∧ k1.get nt = allocproc_init ks
          { k.get nt with state := procstate.EMBRYO, pid := k.nextpid, tid := -1 } := by
  unfold allocproc at h
  cases hf : findUnused k (List.range k.ptable.length) with
  | none => simp [hf] at h
  | some i =>
    obtain ⟨hmem, hU⟩ := findUnused_some k _ i hf
    have hlt : i < k.ptable.length := List.mem_range.mp hmem
    cases kalloc with
    | none => simp [hf] at h
    | some ks =>
      simp only [hf, Prod.mk.injEq, Option.some.injEq] at h
      obtain ⟨hi, hk1⟩ := h
      subst hi
      subst hk1
      refine ⟨ks, rfl, rfl, hlt, hU, ?_, rfl, rfl, rfl, ?_, ?_⟩
      · simp only [length_modify, ptable_setNextpid]
      · intro j hj
        have hj2 : ¬ (i = j) := fun h => hj h.symm
        simp only [get_modify, get_setNextpid, hj2, false_and, if_false]
      · simp only [get_modify, get_setNextpid, length_modify, ptable_setNextpid, hlt, and_self,
          if_true]
        rfl

theorem length_thread_create_tickets (nt r : Nat) (k3 : Kernel) :
    (thread_create_tickets nt r k3).ptable.length = k3.ptable.length := by
  unfold thread_create_tickets
  split
  · exact length_modify _ _ _
  · rfl

theorem get_thread_create_tickets_other (nt r : Nat) (k3 : Kernel) (j : Nat) (hj : j ≠ nt) :
    (thread_create_tickets nt r k3).get j = k3.get j := by
  have hj2 : ¬ (nt = j) := fun h => hj h.symm
  unfold thread_create_tickets
  split
  · simp only [get_modify, hj2, false_and, if_false]
  · rfl

theorem get_thread_create_tickets_new (nt r : Nat) (k3 : Kernel) (hlt : nt < k3.ptable.length) :
    ((thread_create_tickets nt r k3).get nt).parent = (k3.get nt).parent
      ∧ ((thread_create_tickets nt r k3).get nt).tid = (k3.get nt).tid
      ∧ ((thread_create_tickets nt r k3).get nt).state = (k3.get nt).state
      ∧ ((thread_create_tickets nt r k3).get nt).tspace = (k3.get nt).tspace
      ∧ (((thread_create_tickets nt r k3).get nt).tickets
          = if (k3.get r).tickets ≠ 0 then (k3.get r).tickets else (k3.get nt).tickets)
      ∧ (((thread_create_tickets nt r k3).get nt).stride
          = if (k3.get r).tickets ≠ 0 then (k3.get r).stride else (k3.get nt).stride)
      ∧ (((thread_create_tickets nt r k3).get nt).pass_value
          = if (k3.get r).tickets ≠ 0 then (k3.get r).pass_value
            else (k3.get nt).pass_value) := by
  unfold thread_create_tickets
  by_cases ht : (k3.get r).tickets ≠ 0
  · simp only [ht, if_true, get_modify, hlt, and_self, ne_eq, not_false_eq_true]
  · simp only [ht, if_false, and_self]

theorem length_thread_create_inherit (nt r : Nat) (k2 : Kernel) :
    (thread_create_inherit nt r k2).ptable.length = k2.ptable.length := by
  unfold thread_create_inherit
  simp only [length_modify, ptable_setNextpid, length_thread_create_tickets]

theorem get_thread_create_inherit_other (nt r : Nat) (k2 : Kernel) (j : Nat) (hj : j ≠ nt) :
    (thread_create_inherit nt r k2).get j = k2.get j := by
  have hj2 : ¬ (nt = j) := fun h => hj h.symm
  unfold thread_create_inherit
  simp only [get_modify, get_setNextpid, hj2, false_and, if_false,
    get_thread_create_tickets_other _ _ _ _ hj]

theorem get_thread_create_inherit_id (nt r : Nat) (k2 : Kernel) (hlt : nt < k2.ptable.length) :
    ((thread_create_inherit nt r k2).get nt).parent = some r
      ∧ ((thread_create_inherit nt r k2).get nt).tid = (k2.get nt).tid
      ∧ ((thread_create_inherit nt r k2).get nt).state = (k2.get nt).state
      ∧ ((thread_create_inherit nt r k2).get nt).tspace = (k2.get nt).tspace := by
  have h3 : nt < (k2.modify nt (fun p => { p with parent := some r })).ptable.length := by
    rw [length_modify]; exact hlt
  obtain ⟨t1, t2, t3, t4, _⟩ := get_thread_create_tickets_new nt r _ h3
  unfold thread_create_inherit
  simp only [get_modify, get_setNextpid, length_modify, ptable_setNextpid,
    length_thread_create_tickets, hlt, and_self, if_true, t1, t2, t3, t4]

theorem get_thread_create_inherit_shares (nt r : Nat) (k2 : Kernel)
    (hlt : nt < k2.ptable.length) (hne : r ≠ nt) :
    (((thread_create_inherit nt r k2).get nt).tickets
        = if (k2.get r).tickets ≠ 0 then (k2.get r).tickets else (k2.get nt).tickets)
      ∧ (((thread_create_inherit nt r k2).get nt).stride
        = if (k2.get r).tickets ≠ 0 then (k2.get r).stride else (k2.get nt).stride)
      ∧ (((thread_create_inherit nt r k2).get nt).pass_value
        = if (k2.get r).tickets ≠ 0 then (k2.get r).pass_value else (k2.get nt).pass_value) := by
  have hne2 : ¬ (nt = r) := fun h => hne h.symm
  have h3 : nt < (k2.modify nt (fun p => { p with parent := some r })).ptable.length := by
    rw [length_modify]; exact hlt
  obtain ⟨_, _, _, _, t5, t6, t7⟩ := get_thread_create_tickets_new nt r _ h3
  unfold thread_create_inherit
  simp only [get_modify, get_setNextpid, length_modify, ptable_setNextpid,
    length_thread_create_tickets, hlt, and_self, if_true, t5, t6, t7, hne2, false_and, if_false]

theorem length_thread_create_mark (nt r e : Nat) (k : Kernel) :
    (thread_create_mark nt r e k).ptable.length = k.ptable.length := by
  unfold thread_create_mark
  simp only [length_modify]

theorem get_thread_create_mark (nt r e : Nat) (k : Kernel) (j : Nat)
    (hnt : nt < k.ptable.length) (hr : r < k.ptable.length) (hne : r ≠ nt) :
    (thread_create_mark nt r e k).get j
      = if j = nt ∨ j = r then { k.get j with tspace := (k.get j).tspace.set e 1 }
        else k.get j := by
  have hne2 : ¬ (nt = r) := fun h => hne h.symm
  unfold thread_create_mark
  simp only [get_modify, length_modify]
  by_cases h1 : j = nt
  · subst h1
    simp [hnt, hne]
  · by_cases h2 : j = r
    · subst h2
      simp [hr, hne2]
    · have h3 : ¬ (nt = j) := fun h => h1 h.symm
      have h4 : ¬ (r = j) := fun h => h2 h.symm
      simp [h1, h2, h3, h4]

theorem length_thread_create_sizes (a : Answers) (nt r : Nat) (k : Kernel) :
    (thread_create_sizes a nt r k).ptable.length = k.ptable.length := by
  unfold thread_create_sizes
  simp only [length_modify]

theorem get_thread_create_sizes (a : Answers) (nt r : Nat) (k : Kernel) (j : Nat) :
    ((thread_create_sizes a nt r k).get j).tspace = (k.get j).tspace
      ∧ ((thread_create_sizes a nt r k).get j).parent = (k.get j).parent
      ∧ ((thread_create_sizes a nt r k).get j).tid = (k.get j).tid
      ∧ ((thread_create_sizes a nt r k).get j).state = (k.get j).state
      ∧ ((thread_create_sizes a nt r k).get j).tickets = (k.get j).tickets
      ∧ ((thread_create_sizes a nt r k).get j).stride = (k.get j).stride
      ∧ ((thread_create_sizes a nt r k).get j).pass_value = (k.get j).pass_value
      ∧ (j ≠ nt → j ≠ r → (thread_create_sizes a nt r k).get j = k.get j) := by
  unfold thread_create_sizes
  simp only [get_modify, length_modify]
  refine ⟨?_, ?_, ?_, ?_, ?_, ?_, ?_, ?_⟩
  all_goals first
    | (intro h1 h2
       have h3 : ¬ (nt = j) := fun h => h1 h.symm
       have h4 : ¬ (r = j) := fun h => h2 h.symm
       simp [h3, h4])
    | (split <;> split <;> rfl)

theorem get_thread_create_mark_fields (nt r e : Nat) (k : Kernel) (j : Nat) :
    ((thread_create_mark nt r e k).get j).parent = (k.get j).parent
      ∧ ((thread_create_mark nt r e k).get j).tid = (k.get j).tid
      ∧ ((thread_create_mark nt r e k).get j).state = (k.get j).state
      ∧ ((thread_create_mark nt r e k).get j).tickets = (k.get j).tickets
      ∧ ((thread_create_mark nt r e k).get j).stride = (k.get j).stride
      ∧ ((thread_create_mark nt r e k).get j).pass_value = (k.get j).pass_value
      ∧ (j ≠ nt → j ≠ r → (thread_create_mark nt r e k).get j = k.get j) := by
  unfold thread_create_mark
  simp only [get_modify, length_modify]
  refine ⟨?_, ?_, ?_, ?_, ?_, ?_, ?_⟩
  all_goals first
    | (intro h1 h2
       have h3 : ¬ (nt = j) := fun h => h1 h.symm
       have h4 : ¬ (r = j) := fun h => h2 h.symm
       simp [h3, h4])
    | (split <;> split <;> rfl)

theorem nexttid_thread_create_tickets (nt r : Nat) (k3 : Kernel) :
    (thread_create_tickets nt r k3).nexttid = k3.nexttid := by
  unfold thread_create_tickets
  split <;> rfl

theorem nexttid_thread_create_stages (a : Answers) (nt r e : Nat) (k2 : Kernel) :
    (thread_create_sizes a nt r
      (thread_create_mark nt r e (thread_create_inherit nt r k2))).nexttid = k2.nexttid := by
  show (thread_create_tickets nt r _).nexttid = _
  rw [nexttid_thread_create_tickets]
  rfl

theorem thread_root_self (k : Kernel) (fuel p : Nat) (h : (k.get p).tid ≤ 0) :
    thread_root k fuel (some p) = some p := by
  have h2 : ¬ (k.get p).tid > 0 := by omega
  cases fuel with
  | zero => simp [thread_root, h2]
  | succ n => simp [thread_root, h2]

theorem thread_create_success (a : Answers) (proc : Nat) (k : Kernel) (out : Option Int)
    (k' : Kernel) (h : thread_create a proc k = some (0, out, k')) :
    ∃ nt r e, findUnused k (List.range k.ptable.length) = some nt
      ∧ nt < k.ptable.length ∧ (k.get nt).state = procstate.UNUSED
      ∧ out = some k.nexttid ∧ k'.nexttid = wrap32 (k.nexttid + 1)
      ∧ k'.ptable.length = k.ptable.length
      ∧ (k'.get nt).parent = some r ∧ (k'.get nt).tid = k.nexttid
      ∧ (k'.get nt).state = procstate.RUNNABLE
      ∧ (proc ≠ nt → (k.get proc).tid ≤ 0 → r = proc)
      ∧ (r ≠ nt →
          (k'.get r).tickets = (k.get r).tickets ∧ (k'.get r).stride = (k.get r).stride
          ∧ (k'.get r).pass_value = (k.get r).pass_value
          ∧ (k'.get r).state = (k.get r).state ∧ (k'.get r).tid = (k.get r).tid
          ∧ (k'.get r).parent = (k.get r).parent
          ∧ ((k'.get nt).tickets = if (k.get r).tickets ≠ 0 then (k.get r).tickets else 0)
          ∧ ((k'.get nt).stride = if (k.get r).tickets ≠ 0 then (k.get r).stride else 0)
          ∧ ((k'.get nt).pass_value
              = if (k.get r).tickets ≠ 0 then (k.get r).pass_value else 0))
      ∧ (r ≠ nt → r < k.ptable.length →
          tspace_find (k.get r).tspace 0 = some e
          ∧ (k'.get r).tspace = (k.get r).tspace.set e 1
          ∧ (k'.get nt).tspace = ([0, 0, 0, 0, 0, 0, 0, 0, 0, 0] : List Int).set e 1)
      ∧ (∀ j, j ≠ nt → j ≠ r → k'.get j = k.get j) := by
  unfold thread_create at h
  cases hall : allocproc a.kalloc k with
  | mk o k1 =>
    cases o with
    | none => simp [hall] at h
    | some nt =>
      obtain ⟨ks, _, hfu, hlt, hU, hlen1, htid1, _, _, hother1, hnt1⟩ :=
        allocproc_some a.kalloc k nt k1 hall
      simp only [hall] at h
      cases hroot : thread_root ((k1.modify nt (fun p => { p with tid := k1.nexttid })).setNexttid
          (wrap32 (k1.nexttid + 1)))
          ((k1.modify nt (fun p => { p with tid := k1.nexttid })).setNexttid
            (wrap32 (k1.nexttid + 1))).ptable.length (some proc) with
      | none => simp [hroot] at h
      | some r =>
        simp only [hroot] at h
        generalize hk2 : (k1.modify nt (fun p => { p with tid := k1.nexttid })).setNexttid
          (wrap32 (k1.nexttid + 1)) = k2 at h hroot
        have hlen2 : k2.ptable.length = k.ptable.length := by
          rw [← hk2, ptable_setNexttid, length_modify, hlen1]
        have hother2 : ∀ j, j ≠ nt → k2.get j = k.get j := by
          intro j hj
          have hj2 : ¬ (nt = j) := fun h => hj h.symm
          rw [← hk2, get_setNexttid, get_modify]
          simp only [hj2, false_and, if_false]
          exact hother1 j hj
        have hnt2 : k2.get nt = { k1.get nt with tid := k.nexttid } := by
          rw [← hk2, get_setNexttid, get_modify, hlen1]
          simp only [hlt, and_self, if_true, htid1]
        have hnext2 : k2.nexttid = wrap32 (k.nexttid + 1) := by
          rw [← hk2, htid1]; rfl
        have hlt2 : nt < k2.ptable.length := by rw [hlen2]; exact hlt
        cases hfind : tspace_find ((thread_create_inherit nt r k2).get r).tspace 0 with
        | none => simp [hfind] at h
        | some e =>
          simp only [hfind] at h
          by_cases hau : a.allocuvm = 0
          · simp [hau] at h
          · by_cases hco : a.copyout < 0
            · simp [hau, hco] at h
            · simp only [hau, hco, if_false, Option.some.injEq, Prod.mk.injEq, true_and] at h
              obtain ⟨hout, hk'⟩ := h
              obtain ⟨i1, i2, i3, i4⟩ := get_thread_create_inherit_id nt r k2 hlt2
              have hlen7 := length_thread_create_inherit nt r k2
              have hlen9 := length_thread_create_mark nt r e (thread_create_inherit nt r k2)
              have hlen11 := length_thread_create_sizes a nt r
                (thread_create_mark nt r e (thread_create_inherit nt r k2))
              have hlt11 : nt < (thread_create_sizes a nt r
                  (thread_create_mark nt r e (thread_create_inherit nt r k2))).ptable.length := by
                rw [hlen11, hlen9, hlen7]; exact hlt2
              obtain ⟨s1, s2, s3, s4, s5, s6, s7, s8⟩ := get_thread_create_sizes a nt r
                (thread_create_mark nt r e (thread_create_inherit nt r k2)) nt
              obtain ⟨m1, m2, m3, m4, m5, m6, m7⟩ := get_thread_create_mark_fields nt r e
                (thread_create_inherit nt r k2) nt
              have hgetnt : k'.get nt = { (thread_create_sizes a nt r
                  (thread_create_mark nt r e (thread_create_inherit nt r k2))).get nt
                    with state := procstate.RUNNABLE } := by
                rw [← hk', get_modify]
                simp only [hlt11, and_self, if_true]
              have hgeto : ∀ j, j ≠ nt → k'.get j = (thread_create_sizes a nt r
                  (thread_create_mark nt r e (thread_create_inherit nt r k2))).get j := by
                intro j hj
                have hj2 : ¬ (nt = j) := fun h => hj h.symm
                rw [← hk', get_modify]
                simp only [hj2, false_and, if_false]
              refine ⟨nt, r, e, hfu, hlt, hU, ?_, ?_, ?_, ?_, ?_, ?_, ?_, ?_, ?_, ?_⟩
              · rw [← hout, s3, m2, i2, hnt2]
              · rw [← hk']
                show (thread_create_sizes a nt r
                  (thread_create_mark nt r e (thread_create_inherit nt r k2))).nexttid = _
                rw [nexttid_thread_create_stages, hnext2]
              · rw [← hk', length_modify, hlen11, hlen9, hlen7, hlen2]
              · rw [hgetnt]
                show ((thread_create_sizes a nt r
                  (thread_create_mark nt r e (thread_create_inherit nt r k2))).get nt).parent = _
                rw [s2, m1, i1]
              · rw [hgetnt]
                show ((thread_create_sizes a nt r
                  (thread_create_mark nt r e (thread_create_inherit nt r k2))).get nt).tid = _
                rw [s3, m2, i2, hnt2]
              · rw [hgetnt]
              · intro hp htid
                have h2 : (k2.get proc).tid ≤ 0 := by rw [hother2 proc hp]; exact htid
                rw [thread_root_self k2 _ proc h2] at hroot
                exact (Option.some.inj hroot).symm
              · intro hne
                obtain ⟨r1, r2, r3, r4, r5, r6, r7, _⟩ := get_thread_create_sizes a nt r
                  (thread_create_mark nt r e (thread_create_inherit nt r k2)) r
                obtain ⟨q1, q2, q3, q4, q5, q6, _⟩ := get_thread_create_mark_fields nt r e
                  (thread_create_inherit nt r k2) r
                have hr7 := get_thread_create_inherit_other nt r k2 r hne
                have hr0 := hother2 r hne
                obtain ⟨t1, t2, t3⟩ := get_thread_create_inherit_shares nt r k2 hlt2 hne
                have hz : (k2.get nt).tickets = 0 ∧ (k2.get nt).stride = 0
                    ∧ (k2.get nt).pass_value = 0 := by
                  rw [hnt2, hnt1]
                  exact ⟨rfl, rfl, rfl⟩
                rw [hgeto r hne, hgetnt]
                refine ⟨?_, ?_, ?_, ?_, ?_, ?_, ?_, ?_, ?_⟩
                · rw [r5, q4, hr7, hr0]
                · rw [r6, q5, hr7, hr0]
                · rw [r7, q6, hr7, hr0]
                · rw [r4, q3, hr7, hr0]
                · rw [r3, q2, hr7, hr0]
                · rw [r2, q1, hr7, hr0]
                · show ((thread_create_sizes a nt r
                    (thread_create_mark nt r e (thread_create_inherit nt r k2))).get nt).tickets = _
                  rw [s5, m4, t1, hr0, hz.1]
                · show ((thread_create_sizes a nt r
                    (thread_create_mark nt r e (thread_create_inherit nt r k2))).get nt).stride = _
                  rw [s6, m5, t2, hr0, hz.2.1]
                · show ((thread_create_sizes a nt r
                    (thread_create_mark nt r e (thread_create_inherit nt r k2))).get nt).pass_value
                      = _
                  rw [s7, m6, t3, hr0, hz.2.2]
              · intro hne hr
                have hr7 := get_thread_create_inherit_other nt r k2 r hne
                have hr0 := hother2 r hne
                have hmr := get_thread_create_mark nt r e (thread_create_inherit nt r k2) r
                  (by rw [hlen7]; exact hlt2) (by rw [hlen7, hlen2]; exact hr) hne
                have hmn := get_thread_create_mark nt r e (thread_create_inherit nt r k2) nt
                  (by rw [hlen7]; exact hlt2) (by rw [hlen7, hlen2]; exact hr) hne
                obtain ⟨r1, _⟩ := get_thread_create_sizes a nt r
                  (thread_create_mark nt r e (thread_create_inherit nt r k2)) r
                refine ⟨?_, ?_, ?_⟩
                · rw [hr7, hr0] at hfind
                  exact hfind
                · rw [hgeto r hne, r1, hmr]
                  simp only [or_true, if_true, hr7, hr0]
                · rw [hgetnt]
                  show ((thread_create_sizes a nt r
                    (thread_create_mark nt r e (thread_create_inherit nt r k2))).get nt).tspace = _
                  rw [s1, hmn]
                  simp only [true_or, if_true, i4, hnt2, hnt1]
                  rfl
              · intro j hj1 hj2
                rw [hgeto j hj1]
                obtain ⟨_, _, _, _, _, _, _, r8⟩ := get_thread_create_sizes a nt r
                  (thread_create_mark nt r e (thread_create_inherit nt r k2)) j
                obtain ⟨_, _, _, _, _, _, q7⟩ := get_thread_create_mark_fields nt r e
                  (thread_create_inherit nt r k2) j
                rw [r8 hj1 hj2, q7 hj1 hj2, get_thread_create_inherit_other nt r k2 j hj1,
                  hother2 j hj1]

theorem set_cpu_share_caller (k : Kernel) (proc : Nat) (share : Int)
    (hproc : proc < k.ptable.length) (hmin : INT_MIN ≤ k.total_tickets)
    (hpos : 0 < share) (hfit : k.total_tickets + share ≤ 80) :
    (set_cpu_share proc share k).1 = share
      ∧ ((set_cpu_share proc share k).2.get proc).tickets = share
      ∧ ((set_cpu_share proc share k).2.get proc).pass_value = 0 := by
  have hw : wrap32 (k.total_tickets + share) = k.total_tickets + share := by
    apply wrap32_of_range
    · unfold INT_MIN at hmin ⊢; omega
    · unfold INT_MAX; omega
  have hfit2 : wrap32 (k.total_tickets + share) ≤ 80 := by rw [hw]; exact hfit
  rw [set_cpu_share_success proc share k hpos hfit2]
  refine ⟨rfl, ?_, ?_⟩
  · simp only [get_stride_realloc, get_modify, get_setTotal, ptable_setTotal, length_modify,
      hproc, and_self, if_true]
    split <;> rfl
  · simp only [get_stride_realloc, get_modify, get_setTotal, ptable_setTotal, length_modify,
      hproc, and_self, if_true]
    split <;> rfl

/-- C19 (counterexample): in `inheritDemo` the thread in slot 3 (thread ID 1)
carries the 30 tickets it inherited from its root. It calls
`set_cpu_share(10)`: the call returns 10 and the thread's own tickets are
now 10. -/
theorem thread_sets_own_share :
    (inheritDemo.get 3).tid = 1
      ∧ (inheritDemo.get 3).parent = some 2
      ∧ (inheritDemo.get 3).tickets = 30
      ∧ (inheritDemo.get 2).tickets = 30
      ∧ (set_cpu_share 3 10 inheritDemo).1 = 10
      ∧ ((set_cpu_share 3 10 inheritDemo).2.get 3).tickets = 10
      ∧ ((set_cpu_share 3 10 inheritDemo).2.get 3).tickets ≠ (inheritDemo.get 3).tickets := by
  decide

theorem tid_pos_lt_length (k : Kernel) (j : Nat) (h : (k.get j).tid > 0) :
    j < k.ptable.length := by
  by_contra hlt
  rw [get_of_length_le k j (Nat.le_of_not_lt hlt)] at h
  exact absurd h (by decide)

theorem threadRootIn_of_threadRoot (k : Kernel) (t r : Nat) (h : ThreadRoot k t r) :
    ∃ n, ThreadRootIn k n t r := by
  induction h with
  | root r hl ht => exact ⟨0, ThreadRootIn.root r hl ht⟩
  | link t p r hl ht hp _ ih =>
    obtain ⟨n, hn⟩ := ih
    exact ⟨n + 1, ThreadRootIn.link n t p r hl ht hp hn⟩

theorem threadRootIn_depth (k : Kernel) (n t r : Nat) (h : ThreadRootIn k n t r) :
    ∀ m r1, ThreadRootIn k m t r1 → n = m := by
  induction h with
  | root r hl ht =>
    intro m r1 h1
    cases h1 with
    | root => rfl
    | link n1 _ p1 _ _ ht1 _ _ => omega
  | link n t p r hl ht hp _ ih =>
    intro m r1 h1
    cases h1 with
    | root _ ht1 => omega
    | link n1 _ p1 _ _ _ hp1 h2 =>
      have hpp : p = p1 := by
        rw [hp] at hp1
        exact Option.some.inj hp1
      subst hpp
      rw [ih n1 r1 h2]

theorem threadRootIn_nodes (k : Kernel) (n t r : Nat) (h : ThreadRootIn k n t r) :
    ∃ l : List Nat, l.length = n ∧ l.Nodup
      ∧ ∀ x ∈ l, x < k.ptable.length ∧ ∃ m, m ≤ n ∧ 0 < m ∧ ThreadRootIn k m x r := by
  induction h with
  | root r hl ht => exact ⟨[], rfl, List.nodup_nil, by simp⟩
  | link n t p r hl ht hp h ih =>
    obtain ⟨l, hlen, hnd, hall⟩ := ih
    have ht1 : ThreadRootIn k (n + 1) t r := ThreadRootIn.link n t p r hl ht hp h
    refine ⟨t :: l, by simp [hlen], ?_, ?_⟩
    · refine List.nodup_cons.mpr ⟨?_, hnd⟩
      intro hmem
      obtain ⟨_, m, hm, _, hx⟩ := hall t hmem
      have := threadRootIn_depth k m t r hx (n + 1) r ht1
      omega
    · intro x hx
      rcases List.mem_cons.mp hx with hx | hx
      · subst hx
        exact ⟨tid_pos_lt_length k _ ht, n + 1, Nat.le_refl _, by omega, ht1⟩
      · obtain ⟨h1, m, hm, hm0, h2⟩ := hall x hx
        exact ⟨h1, m, by omega, hm0, h2⟩

theorem threadRootIn_le_length (k : Kernel) (n t r : Nat) (h : ThreadRootIn k n t r) :
    n ≤ k.ptable.length := by
  obtain ⟨l, hlen, hnd, hall⟩ := threadRootIn_nodes k n t r h
  have hsub : l ⊆ List.range k.ptable.length := by
    intro x hx
    exact List.mem_range.mpr (hall x hx).1
  have := (List.subperm_of_subset hnd hsub).length_le
  rw [List.length_range, hlen] at this
  exact this

theorem thread_root_of_depth (k : Kernel) (n t r : Nat) (h : ThreadRootIn k n t r) :
    ∀ fuel, n ≤ fuel → thread_root k fuel (some t) = some r := by
  induction h with
  | root r hl ht =>
    intro fuel _
    exact thread_root_self k fuel r ht
  | link n t p r hl ht hp _ ih =>
    intro fuel hf
    obtain ⟨f, hf1⟩ : ∃ f, fuel = f + 1 := ⟨fuel - 1, by omega⟩
    subst hf1
    rw [thread_root]
    simp only [ht, if_true, hp]
    exact ih f (by omega)

/-- The root search of `thread_create` finds the thread-group root: whenever
`r` is the thread-group root of `t` in the table `k`, the loop
`while(tparent->tid > 0) tparent = tparent->parent;` started at `t` ends at
`r` within the table's number of records. -/
theorem thread_root_of_threadRoot (k : Kernel) (t r : Nat) (h : ThreadRoot k t r) :
    thread_root k k.ptable.length (some t) = some r := by
  obtain ⟨n, hn⟩ := threadRootIn_of_threadRoot k t r h
  exact thread_root_of_depth k n t r hn _ (threadRootIn_le_length k n t r hn)

theorem threadRoot_frame (k k2 : Kernel) (t r : Nat)
    (hfr : ∀ j, (k.get j).state ≠ procstate.UNUSED →
      (k2.get j).state = (k.get j).state ∧ (k2.get j).tid = (k.get j).tid
        ∧ (k2.get j).parent = (k.get j).parent)
    (h : ThreadRoot k t r) : ThreadRoot k2 t r := by
  induction h with
  | root r hl ht =>
    obtain ⟨h1, h2, _⟩ := hfr r hl
    exact ThreadRoot.root r (by rw [h1]; exact hl) (by rw [h2]; exact ht)
  | link t p r hl ht hp _ ih =>
    obtain ⟨h1, h2, h3⟩ := hfr t hl
    exact ThreadRoot.link t p r (by rw [h1]; exact hl) (by rw [h2]; exact ht)
      (by rw [h3]; exact hp) ih

theorem threadRoot_root (k : Kernel) (t r : Nat) (h : ThreadRoot k t r) :
    (k.get r).state ≠ procstate.UNUSED ∧ (k.get r).tid ≤ 0
      ∧ (k.get t).state ≠ procstate.UNUSED := by
  induction h with
  | root r hl ht => exact ⟨hl, ht, hl⟩
  | link t p r hl ht hp _ ih => exact ⟨ih.1, ih.2.1, hl⟩

/-- A `thread_create` call by any member of a thread group does what the same
call by the group's root does: the caller enters only through the root
search. -/
theorem thread_create_caller (a : Answers) (c r : Nat) (k : Kernel) (h : ThreadRoot k c r) :
    thread_create a c k = thread_create a r k := by
  obtain ⟨hrl, hrt, _⟩ := threadRoot_root k c r h
  unfold thread_create
  cases hall : allocproc a.kalloc k with
  | mk o k1 =>
    cases o with
    | none => rfl
    | some nt =>
      obtain ⟨ks, _, _, hlt, hU, hlen1, htid1, _, _, hother1, _⟩ :=
        allocproc_some a.kalloc k nt k1 hall
      simp only []
      generalize hk2 : (k1.modify nt (fun p => { p with tid := k1.nexttid })).setNexttid
        (wrap32 (k1.nexttid + 1)) = k2
      have hfr : ∀ j, (k.get j).state ≠ procstate.UNUSED →
          (k2.get j).state = (k.get j).state ∧ (k2.get j).tid = (k.get j).tid
            ∧ (k2.get j).parent = (k.get j).parent := by
        intro j hj
        have hjn : ¬ (nt = j) := by
          intro he
          rw [← he] at hj
          exact hj hU
        have : k2.get j = k.get j := by
          rw [← hk2, get_setNexttid, get_modify]
          simp only [hjn, false_and, if_false]
          exact hother1 j (fun he => hjn he.symm)
        rw [this]
        exact ⟨rfl, rfl, rfl⟩
      have h1 := thread_root_of_threadRoot k2 c r (threadRoot_frame k k2 c r hfr h)
      have h2 := thread_root_of_threadRoot k2 r r
        (threadRoot_frame k k2 r r hfr (ThreadRoot.root r hrl hrt))
      rw [h1, h2]

/-- C19 (amended): in a table where a unit without tickets has stride 0 and
pass value 0, let `r` be the thread-group root of the calling unit `proc`
(the root itself or a thread of the group). Immediately after a successful
`thread_create` by `proc` the new thread (the slot that was UNUSED, now
RUNNABLE with the fresh thread ID) has `r` as parent, `r` is still a live
record that is not a thread and holds the tickets, stride and pass value it
had, and the new thread has the tickets, stride and pass value of `r`.
`set_cpu_share` does not look at `tid`: a fitting request by a thread sets
that thread's own tickets to `share` and its pass value to 0. -/
theorem thread_inherits_share (a : Answers) (proc r : Nat) (k : Kernel) (out : Option Int)
    (k' : Kernel)
    (hwf : ∀ j, (k.get j).tickets = 0 → (k.get j).stride = 0 ∧ (k.get j).pass_value = 0)
    (hroot : ThreadRoot k proc r)
    (h : thread_create a proc k = some (0, out, k')) :
    (∃ nt, (k.get nt).state = procstate.UNUSED ∧ (k'.get nt).state = procstate.RUNNABLE
        ∧ (k'.get nt).tid = k.nexttid ∧ out = some k.nexttid
        ∧ (k'.get nt).parent = some r
        ∧ (k'.get r).state ≠ procstate.UNUSED ∧ (k'.get r).tid ≤ 0
        ∧ (0 < k.nexttid → ThreadRoot k' nt r)
        ∧ (k'.get r).tickets = (k.get r).tickets
        ∧ (k'.get r).stride = (k.get r).stride
        ∧ (k'.get r).pass_value = (k.get r).pass_value
        ∧ (k'.get nt).tickets = (k'.get r).tickets
        ∧ (k'.get nt).stride = (k'.get r).stride
        ∧ (k'.get nt).pass_value = (k'.get r).pass_value)
      ∧ (∀ t share, t < k'.ptable.length → 0 < (k'.get t).tid → 0 < share →
          INT_MIN ≤ k'.total_tickets → k'.total_tickets + share ≤ 80 →
          (set_cpu_share t share k').1 = share
            ∧ ((set_cpu_share t share k').2.get t).tickets = share
            ∧ ((set_cpu_share t share k').2.get t).pass_value = 0) := by
  constructor
  · obtain ⟨hrl, hrt, _⟩ := threadRoot_root k proc r hroot
    rw [thread_create_caller a proc r k hroot] at h
    obtain ⟨nt, rr, e, _, _, hU, hout, _, _, hpar, htid, hst, hself, hsh, _, _⟩ :=
      thread_create_success a r k out k' h
    have hne : r ≠ nt := by
      intro he
      rw [he] at hrl
      exact hrl hU
    have hrr : rr = r := hself hne hrt
    rw [hrr] at hpar hsh
    obtain ⟨q1, q2, q3, q4, q5, _, n1, n2, n3⟩ := hsh hne
    have hlive : (k'.get r).state ≠ procstate.UNUSED := by rw [q4]; exact hrl
    have htid1 : (k'.get r).tid ≤ 0 := by rw [q5]; exact hrt
    refine ⟨nt, hU, hst, htid, hout, hpar, hlive, htid1, ?_, q1, q2, q3, ?_⟩
    · intro hpos
      exact ThreadRoot.link nt r r (by rw [hst]; decide) (by rw [htid]; exact hpos) hpar
        (ThreadRoot.root r hlive htid1)
    · rw [q1, q2, q3, n1, n2, n3]
      by_cases ht : (k.get r).tickets = 0
      · obtain ⟨w1, w2⟩ := hwf r ht
        simp only [ht, ne_eq, not_true_eq_false, if_false, w1, w2, and_self]
      · simp only [ht, ne_eq, not_false_eq_true, if_true, and_self]
  · intro t share hlt _ hpos hmin hfit
    exact set_cpu_share_caller k' t share hlt hmin hpos hfit

/-- Witness for C19, a call by a thread: in `ownShareDemo` the root `p`
(record 2) holds 30 tickets with stride 1 and its thread in slot 3 holds 10
with stride 4. The thread calls `thread_create`; the new thread (slot 4) has
`p` as parent and the 30 tickets and stride 1 of `p`, not the 10 and 4 of the
calling thread, and its own later request for 5 is granted. -/
theorem thread_inherits_share_witness :
    (ownShareDemo.get 3).tid = 1 ∧ (ownShareDemo.get 3).parent = some 2
      ∧ (ownShareDemo.get 3).tickets = 10 ∧ (ownShareDemo.get 3).stride = 4
      ∧ (ownShareDemo.get 2).tickets = 30 ∧ (ownShareDemo.get 2).stride = 1
      ∧ thread_create okAnswers 3 ownShareDemo = some (0, some 2, nestedDemo)
      ∧ (∃ nt, (ownShareDemo.get nt).state = procstate.UNUSED
          ∧ (nestedDemo.get nt).parent = some 2
          ∧ (nestedDemo.get nt).tickets = (nestedDemo.get 2).tickets
          ∧ (nestedDemo.get nt).stride = (nestedDemo.get 2).stride
          ∧ (nestedDemo.get nt).pass_value = (nestedDemo.get 2).pass_value)
      ∧ (nestedDemo.get 4).tickets = 30 ∧ (nestedDemo.get 4).stride = 1
      ∧ (set_cpu_share 4 5 nestedDemo).1 = 5 := by
  have hc : thread_create okAnswers 3 ownShareDemo = some (0, some 2, nestedDemo) := by decide
  have hw := thread_inherits_share okAnswers 3 2 ownShareDemo (some 2) nestedDemo
    (by
      intro j
      by_cases hlt : j < 7
      · interval_cases j <;> decide
      · rw [get_of_length_le _ j (by
          have : ownShareDemo.ptable.length = 7 := by decide
          omega)]
        decide)
    (ThreadRoot.link 3 2 2 (by decide) (by decide) (by decide)
      (ThreadRoot.root 2 (by decide) (by decide)))
    hc
  obtain ⟨nt, h1, _, _, _, h5, _, _, _, _, _, _, h12, h13, h14⟩ := hw.1
  exact ⟨by decide, by decide, by decide, by decide, by decide, by decide, hc,
    ⟨nt, h1, h5, h12, h13, h14⟩, by decide, by decide,
    (hw.2 4 5 (by decide) (by decide) (by decide) (by decide) (by decide)).1⟩

theorem parent_some_lt_length (k : Kernel) (i p : Nat) (h : (k.get i).parent = some p) :
    i < k.ptable.length := by
  by_contra hge
  rw [get_of_length_le k i (Nat.le_of_not_lt hge)] at h
  simp [Proc.zero] at h

theorem slotsMarked_find_free (m : Nat) (hm : m < 10) :
    tspace_find (slotsMarked (List.range m)) 0 = some m := by
  interval_cases m <;> decide

theorem slotsMarked_set_next (m : Nat) (hm : m < 10) :
    (slotsMarked (List.range m)).set m 1 = slotsMarked (List.range (m + 1)) := by
  interval_cases m <;> decide

theorem slotsMarked_single (e : Nat) (he : e < 10) :
    ([0, 0, 0, 0, 0, 0, 0, 0, 0, 0] : List Int).set e 1 = slotsMarked [e] := by
  interval_cases e <;> decide

theorem slotsMarked_find_single (e : Nat) (he : e < 10) :
    tspace_find (slotsMarked [e]) 1 = some e := by
  interval_cases e <;> decide

theorem slotsMarked_single_clear (e : Nat) (he : e < 10) :
    (slotsMarked [e]).set e 0 = slotsMarked [] := by
  interval_cases e <;> decide

theorem slotsMarked_congr (es fs : List Nat) (h : ∀ i, i ∈ es ↔ i ∈ fs) :
    slotsMarked es = slotsMarked fs := by
  unfold slotsMarked
  apply List.map_congr_left
  intro i _
  simp only [h i]

theorem slotsMarked_clear_head (e : Nat) (es : List Nat) (he : e ∉ es) :
    (slotsMarked (e :: es)).set e 0 = slotsMarked es := by
  unfold slotsMarked
  apply List.ext_getElem
  · simp
  · intro i h1 h2
    have hi : i < 10 := by simpa using h2
    simp only [List.getElem_set, List.getElem_map, List.getElem_range, List.mem_cons]
    by_cases hie : e = i
    · subst hie
      simp [he]
    · have hie2 : ¬ (i = e) := fun h => hie h.symm
      simp [hie, hie2]

theorem spawn_spec (r : Nat) :
    ∀ (envs : List Answers) (k : Kernel) (m : Nat) (slots : List Nat) (k' : Kernel),
      (k.get r).state ≠ procstate.UNUSED → (k.get r).tid ≤ 0 →
      (k.get r).tspace = slotsMarked (List.range m) → m + envs.length ≤ 10 →
      spawn r envs k = some (slots, k') →
      k'.ptable.length = k.ptable.length
        ∧ (k'.get r).tspace = slotsMarked (List.range (m + envs.length))
        ∧ (k'.get r).state = (k.get r).state ∧ (k'.get r).tid = (k.get r).tid
        ∧ List.Forall₂ (fun a e => (k'.get a).tspace = slotsMarked [e]
            ∧ (k'.get a).parent = some r ∧ (k'.get a).state = procstate.RUNNABLE)
            slots (List.range' m envs.length)
        ∧ (∀ a ∈ slots, (k.get a).state = procstate.UNUSED)
        ∧ slots.Nodup
        ∧ (∀ j, (k.get j).state ≠ procstate.UNUSED → j ≠ r → k'.get j = k.get j) := by
  intro envs
  induction envs with
  | nil =>
    intro k m slots k' _ _ hts _ h
    simp only [spawn, Option.some.injEq, Prod.mk.injEq] at h
    obtain ⟨h1, h2⟩ := h
    subst h1
    subst h2
    refine ⟨rfl, by simpa using hts, rfl, rfl, ?_, by simp, by simp, fun _ _ _ => rfl⟩
    simp
  | cons a rest ih =>
    intro k m slots k' hlive htid hts hm h
    simp only [List.length_cons] at hm
    unfold spawn at h
    cases hfu : findUnused k (List.range k.ptable.length) with
    | none => simp [hfu] at h
    | some nt0 =>
      cases htc : thread_create a r k with
      | none => simp [hfu, htc] at h
      | some res =>
        obtain ⟨v, out, k1⟩ := res
        simp only [hfu, htc] at h
        by_cases hv : v = 0
        · subst hv
          simp only [if_true] at h
          cases hsp : spawn r rest k1 with
          | none => simp [hsp] at h
          | some p =>
            obtain ⟨slots1, k2⟩ := p
            simp only [hsp, Option.map_some', Option.some.injEq, Prod.mk.injEq] at h
            obtain ⟨hs, hk⟩ := h
            subst hs
            subst hk
            obtain ⟨nt, r1, e, hfu2, hlt, hU, _, _, hlen1, hpar, _, hst, hroot, hsh, hbits,
              hframe⟩ := thread_create_success a r k out k1 htc
            have hnt : nt = nt0 := by
              rw [hfu] at hfu2
              exact (Option.some.inj hfu2).symm
            subst hnt
            have hrnt : r ≠ nt := by
              intro h
              rw [h] at hlive
              exact hlive hU
            have hr1 : r1 = r := hroot hrnt htid
            subst hr1
            have hrlt : r1 < k.ptable.length := state_ne_unused_lt_length k r1 hlive
            obtain ⟨s1, s2, s3, s4, s5, s6, _⟩ := hsh hrnt
            obtain ⟨b1, b2, b3⟩ := hbits hrnt hrlt
            have hmlt : m < 10 := by omega
            have he : e = m := by
              rw [hts, slotsMarked_find_free m hmlt] at b1
              exact (Option.some.inj b1).symm
            subst he
            have hts1 : (k1.get r1).tspace = slotsMarked (List.range (e + 1)) := by
              rw [b2, hts, slotsMarked_set_next e hmlt]
            have hlive1 : (k1.get r1).state ≠ procstate.UNUSED := by rw [s4]; exact hlive
            obtain ⟨i1, i2, i3, i4, i5, i6, i7, i8⟩ := ih k1 (e + 1) slots1 _
              hlive1 (by rw [s5]; exact htid) hts1 (by omega) hsp
            have hntlive1 : (k1.get nt).state ≠ procstate.UNUSED := by
              rw [hst]; decide
            have hnt2 := i8 nt hntlive1 (fun h => hrnt h.symm)
            refine ⟨i1.trans hlen1, ?_, i3.trans s4, i4.trans s5, ?_, ?_, ?_, ?_⟩
            · rw [i2]
              congr 2
              simp only [List.length_cons]
              omega
            · simp only [List.length_cons]
              rw [List.range'_succ]
              refine List.Forall₂.cons ⟨?_, ?_, ?_⟩ i5
              · rw [hnt2, b3, slotsMarked_single e hmlt]
              · rw [hnt2, hpar]
              · rw [hnt2, hst]
            · intro x hx
              simp only [List.mem_cons] at hx
              rcases hx with hx | hx
              · rw [hx]; exact hU
              · have hx1 := i6 x hx
                have hxnt : x ≠ nt := by
                  intro h
                  rw [h] at hx1
                  exact hntlive1 hx1
                have hxr : x ≠ r1 := by
                  intro h
                  rw [h] at hx1
                  exact hlive1 hx1
                rw [← hframe x hxnt hxr]
                exact hx1
            · rw [List.nodup_cons]
              refine ⟨?_, i7⟩
              intro hmem
              exact hntlive1 (i6 nt hmem)
            · intro j hj hjr
              have hjnt : j ≠ nt := by
                intro h
                rw [h] at hj
                exact hj hU
              have hj1 : k1.get j = k.get j := hframe j hjnt hjr
              rw [i8 j (by rw [hj1]; exact hj) hjr, hj1]
        · simp [hv] at h

theorem get_modify_bitmap (k : Kernel) (i : Nat) (f : Proc → Proc) (j : Nat)
    (hf : ∀ p, (f p).tspace = p.tspace ∧ (f p).parent = p.parent) :
    ((k.modify i f).get j).tspace = (k.get j).tspace
      ∧ ((k.modify i f).get j).parent = (k.get j).parent := by
  rw [get_modify]
  split
  · exact hf _
  · exact ⟨rfl, rfl⟩

theorem get_wakeup1_bitmap (c : Chan) (k : Kernel) (j : Nat) :
    ((wakeup1 c k).get j).tspace = (k.get j).tspace
      ∧ ((wakeup1 c k).get j).parent = (k.get j).parent := by
  rw [get_wakeup1]
  split <;> exact ⟨rfl, rfl⟩

theorem thread_exit_frame (a v : Nat) (k k1 : Kernel) (h : thread_exit a v k = some k1) :
    k1.ptable.length = k.ptable.length
      ∧ ∀ j, (k1.get j).tspace = (k.get j).tspace ∧ (k1.get j).parent = (k.get j).parent := by
  unfold thread_exit at h
  simp only at h
  split at h
  · exact absurd h (by simp)
  · simp only [Option.some.injEq] at h
    subst h
    constructor
    · simp [length_modify, wakeup1]
    · intro j
      have h1 := get_modify_bitmap k a (fun p => { p with ret_val := v }) j
        (fun _ => ⟨rfl, rfl⟩)
      have h2 := get_wakeup1_bitmap
        (chanOf ((k.modify a (fun p => { p with ret_val := v })).get a).parent)
        (k.modify a (fun p => { p with ret_val := v })) j
      have h3 := get_modify_bitmap
        (wakeup1 (chanOf ((k.modify a (fun p => { p with ret_val := v })).get a).parent)
          (k.modify a (fun p => { p with ret_val := v })))
        a (fun p => { p with state := procstate.ZOMBIE }) j (fun _ => ⟨rfl, rfl⟩)
      exact ⟨h3.1.trans (h2.1.trans h1.1), h3.2.trans (h2.2.trans h1.2)⟩

theorem join_reap_reaped (j : Nat) (k : Kernel) (res : Returned)
    (h : join_reap j k = Outcome.ret res) : res.reaped = some j ∧ res.value = 0 := by
  unfold join_reap at h
  simp only at h
  split at h
  · exact absurd h (by simp)
  · simp only [Outcome.ret.injEq] at h
    subst h
    exact ⟨rfl, rfl⟩

theorem thread_join_reaped (r : Nat) (t : Int) (k : Kernel) (res : Returned) (a : Nat)
    (h : thread_join_pass r t k = Outcome.ret res) (ha : res.reaped = some a) :
    join_reap a k = Outcome.ret res := by
  unfold thread_join_pass at h
  rcases join_scan_spec t k (List.range k.ptable.length) false
    with ⟨j, _, _, _, hscan⟩ | ⟨_, b, hscan, _⟩
  · simp only [hscan] at h
    have hj := (join_reap_reaped j k res h).1
    rw [ha] at hj
    have : a = j := Option.some.inj hj
    rw [this]
    exact h
  · simp only [hscan] at h
    split at h
    · simp only [Outcome.ret.injEq] at h
      rw [← h] at ha
      exact absurd ha (by simp)
    · split at h <;> exact absurd h (by simp)

theorem join_reap_tspace (a r e : Nat) (k : Kernel) (res : Returned)
    (ha : a < k.ptable.length) (hne : r ≠ a)
    (hts : (k.get a).tspace = slotsMarked [e]) (he : e < 10)
    (hp : (k.get a).parent = some r) (h : join_reap a k = Outcome.ret res) :
    res.k.ptable.length = k.ptable.length
      ∧ (r < k.ptable.length → (res.k.get r).tspace = (k.get r).tspace.set e 0)
      ∧ ∀ j, j ≠ a → j ≠ r → res.k.get j = k.get j := by
  have hfind : tspace_find ((k.modify a join_clear_head).get a).tspace 1 = some e := by
    rw [get_modify]
    simp only [ha, and_self, if_true, join_clear_head, hts]
    exact slotsMarked_find_single e he
  have hp2 : (((k.modify a join_clear_head).modify a
      (fun p => { p with tspace := p.tspace.set e 0 })).get a).parent = some r := by
    simp only [get_modify, length_modify, ha, and_self, if_true, join_clear_head, hp]
  unfold join_reap at h
  simp only [hfind, hp2, Outcome.ret.injEq] at h
  subst h
  have hne2 : ¬ (a = r) := fun h => hne h.symm
  refine ⟨by simp only [length_modify], ?_, ?_⟩
  · intro hr
    simp only [get_modify, length_modify, hne2, false_and, if_false, hr, and_self, if_true]
  · intro j hja hjr
    have h1 : ¬ (a = j) := fun h => hja h.symm
    have h2 : ¬ (r = j) := fun h => hjr h.symm
    simp only [get_modify, h1, h2, false_and, if_false]

theorem reap_all_spec (r : Nat) (retval : Nat → Nat) :
    ∀ (rem es : List Nat) (k k2 : Kernel), r < k.ptable.length →
      List.Forall₂ (fun a e => (k.get a).tspace = slotsMarked [e]
        ∧ (k.get a).parent = some r ∧ e < 10) rem es →
      es.Nodup → rem.Nodup → r ∉ rem → (k.get r).tspace = slotsMarked es →
      reap_all r retval rem k = some k2 → (k2.get r).tspace = slotsMarked [] := by
  intro rem
  induction rem with
  | nil =>
    intro es k k2 _ hf _ _ _ hts h
    cases hf
    simp only [reap_all, Option.some.injEq] at h
    subst h
    exact hts
  | cons a rest ih =>
    intro es k k2 hr hf hes hrem hrn hts h
    cases hf with
    | cons hhead htail =>
      rename_i e es1
      obtain ⟨ht, hp, he⟩ := hhead
      rw [List.nodup_cons] at hes hrem
      have hra : r ≠ a := fun h => hrn (by simp [h])
      have hrrest : r ∉ rest := fun h => hrn (by simp [h])
      unfold reap_all at h
      cases hex : thread_exit a (retval a) k with
      | none => simp [hex] at h
      | some k1 =>
        simp only [hex] at h
        obtain ⟨hlen1, hfr1⟩ := thread_exit_frame a (retval a) k k1 hex
        cases hj : thread_join_pass r (k1.get a).tid k1 with
        | blocked kb => simp [hj] at h
        | halt => simp [hj] at h
        | ret res =>
          simp only [hj] at h
          by_cases hc : res.value = 0 ∧ res.reaped = some a
          · simp only [hc, and_self, if_true] at h
            have hreap := thread_join_reaped r (k1.get a).tid k1 res a hj hc.2
            have halt : a < k1.ptable.length :=
              parent_some_lt_length k1 a r ((hfr1 a).2.trans hp)
            obtain ⟨hlen2, hroot, hothers⟩ := join_reap_tspace a r e k1 res halt hra
              ((hfr1 a).1.trans ht) he ((hfr1 a).2.trans hp) hreap
            apply ih es1 res.k k2 (by rw [hlen2, hlen1]; exact hr) ?_ hes.2 hrem.2 hrrest ?_ h
            · rw [List.forall₂_iff_zip] at htail ⊢
              refine ⟨htail.1, ?_⟩
              intro x y hxy
              obtain ⟨h1, h2, h3⟩ := htail.2 hxy
              have hx := (List.of_mem_zip hxy).1
              have hxa : x ≠ a := fun h => hrem.1 (h ▸ hx)
              have hxr : x ≠ r := fun h => hrrest (h ▸ hx)
              rw [hothers x hxa hxr]
              exact ⟨(hfr1 x).1.trans h1, (hfr1 x).2.trans h2, h3⟩
            · rw [hroot (by rw [hlen1]; exact hr), (hfr1 r).1, hts]
              exact slotsMarked_clear_head e es1 hes.1
          · simp only [hc, if_false] at h
            exact absurd h (by simp)

/-- Calls by the root itself: for a live thread-group root `r` (not a thread
itself) whose slot bitmap is all clear and `n <= 10` successive successful
`thread_create` calls by `r`, the new threads sit in pairwise distinct table
slots, the `i`-th of them has exactly stack slot `i` set in its own bitmap,
and the root has exactly the stack slots `0 .. n-1` set. After the threads
have terminated and `thread_join`, called by `r`, has reaped all of them, in
any order, the root's bitmap is all clear again. -/
theorem thread_slots_by_root (r : Nat) (envs : List Answers) (k : Kernel)
    (slots : List Nat) (k1 : Kernel)
    (hlive : (k.get r).state ≠ procstate.UNUSED) (htid : (k.get r).tid ≤ 0)
    (hclear : (k.get r).tspace = slotsMarked []) (hn : envs.length ≤ 10)
    (hspawn : spawn r envs k = some (slots, k1)) :
    slots.length = envs.length ∧ slots.Nodup
      ∧ (k1.get r).tspace = slotsMarked (List.range envs.length)
      ∧ List.Forall₂ (fun a e => (k1.get a).tspace = slotsMarked [e]
          ∧ (k1.get a).parent = some r ∧ (k1.get a).state = procstate.RUNNABLE)
          slots (List.range envs.length)
      ∧ ∀ (order : List Nat) (retval : Nat → Nat) (k2 : Kernel), order.Perm slots →
          reap_all r retval order k1 = some k2 → (k2.get r).tspace = slotsMarked [] := by
  obtain ⟨hlen, hroot, hst, _, hall, hunused, hnd, _⟩ :=
    spawn_spec r envs k 0 slots k1 hlive htid (by rw [hclear]; rfl) (by omega) hspawn
  rw [Nat.zero_add] at hroot
  rw [← List.range_eq_range'] at hall
  refine ⟨?_, hnd, hroot, hall, ?_⟩
  · have := hall.length_eq
    simpa using this
  · intro order retval k2 hperm hreap
    obtain ⟨es, hes, hesperm⟩ := List.perm_comp_forall₂ hperm hall
    have hrlt : r < k1.ptable.length := by
      rw [hlen]; exact state_ne_unused_lt_length k r hlive
    have hrn : r ∉ order := by
      intro h
      exact hlive (hunused r (hperm.subset h))
    have hesnd : es.Nodup := hesperm.nodup_iff.mpr (List.nodup_range _)
    have hts : (k1.get r).tspace = slotsMarked es := by
      rw [hroot]
      exact slotsMarked_congr _ _ (fun i => (hesperm.mem_iff).symm)
    refine reap_all_spec r retval order es k1 k2 hrlt ?_ hesnd (hperm.nodup_iff.mpr hnd) hrn
      hts hreap
    rw [List.forall₂_iff_zip] at hes ⊢
    refine ⟨hes.1, ?_⟩
    intro x y hxy
    obtain ⟨h1, h2, _⟩ := hes.2 hxy
    have hy : y ∈ List.range envs.length := hesperm.subset (List.of_mem_zip hxy).2
    exact ⟨h1, h2, by rw [List.mem_range] at hy; omega⟩

theorem thread_join_pass_joiner (c r : Nat) (t : Int) (k : Kernel) (res : Returned)
    (h : thread_join_pass c t k = Outcome.ret res) (hv : res.value = 0) :
    thread_join_pass r t k = Outcome.ret res := by
  unfold thread_join_pass at h ⊢
  cases hs : join_scan t k (List.range k.ptable.length) false with
  | inl o =>
    simp only [hs] at h ⊢
    exact h
  | inr b =>
    simp only [hs] at h
    split at h
    · simp only [Outcome.ret.injEq] at h
      rw [← h] at hv
      simp at hv
    · split at h <;> exact absurd h (by simp)

theorem reap_by_eq_reap_all (r : Nat) (joiner retval : Nat → Nat) :
    ∀ (l : List Nat) (k k2 : Kernel), reap_by joiner retval l k = some k2 →
      reap_all r retval l k = some k2 := by
  intro l
  induction l with
  | nil =>
    intro k k2 h
    simpa [reap_by, reap_all] using h
  | cons a rest ih =>
    intro k k2 h
    unfold reap_by at h
    unfold reap_all
    cases he : thread_exit a (retval a) k with
    | none => simp [he] at h
    | some k1 =>
      simp only [he] at h ⊢
      cases hj : thread_join_pass (joiner a) (k1.get a).tid k1 with
      | ret res =>
        simp only [hj] at h
        by_cases hc : res.value = 0 ∧ res.reaped = some a
        · simp only [hc, and_self, if_true] at h
          rw [thread_join_pass_joiner (joiner a) r _ k1 res hj hc.1]
          simp only [hc, and_self, if_true]
          exact ih _ _ h
        · simp only [hc, if_false] at h
          exact absurd h (by simp)
      | blocked kb => simp [hj] at h
      | halt => simp [hj] at h

theorem spawn_by_eq_spawn (r : Nat) :
    ∀ (calls : List (Nat × Answers)) (k : Kernel) (slots : List Nat) (k1 : Kernel),
      (k.get r).state ≠ procstate.UNUSED → (k.get r).tid ≤ 0 →
      0 < k.nexttid → k.nexttid + calls.length ≤ INT_MAX →
      spawn_by calls k = some (slots, k1) →
      (∀ i c, (calls.map Prod.fst)[i]? = some c → ThreadRoot k c r ∨ c ∈ slots.take i) →
      spawn r (calls.map Prod.snd) k = some (slots, k1) := by
  intro calls
  induction calls with
  | nil =>
    intro k slots k1 _ _ _ _ h _
    simpa [spawn_by, spawn] using h
  | cons c rest ih =>
    intro k slots k1 hlive htid hpos hmax h hcallers
    unfold spawn_by at h
    simp only [List.map_cons]
    unfold spawn
    have hc0 : ThreadRoot k c.1 r := by
      rcases hcallers 0 c.1 (by simp) with h0 | h0
      · exact h0
      · simp at h0
    rw [thread_create_caller c.2 c.1 r k hc0] at h
    cases hf : findUnused k (List.range k.ptable.length) with
    | none => simp [hf] at h
    | some nt =>
      cases ht : thread_create c.2 r k with
      | none => simp [hf, ht] at h
      | some res =>
        obtain ⟨v, o, k2⟩ := res
        simp only [hf, ht] at h ⊢
        by_cases hv : v = 0
        · subst hv
          simp only [if_true, Option.map_eq_some', Prod.mk.injEq] at h ⊢
          obtain ⟨p, hp, hsl, hk1⟩ := h
          obtain ⟨slots1, kk⟩ := p
          simp only at hsl hk1
          subst hk1
          subst hsl
          obtain ⟨nt1, rr, e, hfu, _, hU, _, hnext, _, hpar, htid1, hst, hself, hsh, _, hoth⟩ :=
            thread_create_success c.2 r k o k2 ht
          have hnt : nt1 = nt := by
            rw [hf] at hfu
            exact (Option.some.inj hfu).symm
          subst hnt
          have hne : r ≠ nt1 := by
            intro he
            rw [he] at hlive
            exact hlive hU
          have hrr : rr = r := hself hne htid
          rw [hrr] at hpar hsh hoth
          obtain ⟨_, _, _, q4, q5, q6, _, _, _⟩ := hsh hne
          have hw : wrap32 (k.nexttid + 1) = k.nexttid + 1 := by
            apply wrap32_of_range
            · unfold INT_MIN; omega
            · simp only [List.length_cons] at hmax
              unfold INT_MAX at hmax ⊢
              omega
          have hlive2 : (k2.get r).state ≠ procstate.UNUSED := by rw [q4]; exact hlive
          have htid2 : (k2.get r).tid ≤ 0 := by rw [q5]; exact htid
          have hfr : ∀ j, (k.get j).state ≠ procstate.UNUSED →
              (k2.get j).state = (k.get j).state ∧ (k2.get j).tid = (k.get j).tid
                ∧ (k2.get j).parent = (k.get j).parent := by
            intro j hj
            by_cases hjr : j = r
            · rw [hjr]
              exact ⟨q4, q5, q6⟩
            · have hjn : j ≠ nt1 := by
                intro he
                rw [he] at hj
                exact hj hU
              rw [hoth j hjn hjr]
              exact ⟨rfl, rfl, rfl⟩
          refine ⟨(slots1, kk), ?_, rfl, rfl⟩
          refine ih k2 slots1 kk hlive2 htid2 (by rw [hnext, hw]; omega) ?_ hp ?_
          · rw [hnext, hw]
            simp only [List.length_cons] at hmax
            push_cast at hmax
            omega
          · intro i c1 hi
            rcases hcallers (i + 1) c1 (by simpa using hi) with h1 | h1
            · exact Or.inl (threadRoot_frame k k2 c1 r hfr h1)
            · simp only [List.take_succ_cons, List.mem_cons] at h1
              rcases h1 with h1 | h1
              · left
                rw [h1]
                exact ThreadRoot.link nt1 r r (by rw [hst]; decide)
                  (by rw [htid1]; exact hpos) hpar (ThreadRoot.root r hlive2 htid2)
              · exact Or.inr h1
        · simp only [hv, if_false] at h
          exact absurd h (by simp)

/-- C13: let `r` be a live thread-group root (not a thread itself) whose slot
bitmap is all clear, and let `n <= 10` successive `thread_create` calls
succeed, each made by a member of the group of `r`: the root, a thread whose
thread-group root in the table before the calls is `r`, or a thread created
by an earlier call of the sequence (thread IDs being positive `int` values).
Then the new threads sit in pairwise distinct table slots, the `i`-th of them
has `r` as parent and exactly stack slot `i` set in its own bitmap, and the
root has exactly the stack slots `0 .. n-1` set. After the threads have
terminated and `thread_join`, called by any units, has reaped all of them, in
any order, the root's bitmap is all clear again. -/
theorem thread_slots_allocated_and_freed (r : Nat) (calls : List (Nat × Answers)) (k : Kernel)
    (slots : List Nat) (k1 : Kernel)
    (hlive : (k.get r).state ≠ procstate.UNUSED) (htid : (k.get r).tid ≤ 0)
    (hclear : (k.get r).tspace = slotsMarked []) (hn : calls.length ≤ 10)
    (hnext : 0 < k.nexttid) (hmax : k.nexttid + calls.length ≤ INT_MAX)
    (hspawn : spawn_by calls k = some (slots, k1))
    (hcallers : ∀ i c, (calls.map Prod.fst)[i]? = some c →
      ThreadRoot k c r ∨ c ∈ slots.take i) :
    slots.length = calls.length ∧ slots.Nodup
      ∧ (k1.get r).tspace = slotsMarked (List.range calls.length)
      ∧ List.Forall₂ (fun a e => (k1.get a).tspace = slotsMarked [e]
          ∧ (k1.get a).parent = some r ∧ (k1.get a).state = procstate.RUNNABLE)
          slots (List.range calls.length)
      ∧ ∀ (order : List Nat) (joiner retval : Nat → Nat) (k2 : Kernel), order.Perm slots →
          reap_by joiner retval order k1 = some k2 → (k2.get r).tspace = slotsMarked [] := by
  have hsp := spawn_by_eq_spawn r calls k slots k1 hlive htid hnext hmax hspawn hcallers
  have hlen : (calls.map Prod.snd).length = calls.length := List.length_map _ _
  obtain ⟨h1, h2, h3, h4, h5⟩ := thread_slots_by_root r (calls.map Prod.snd) k slots k1
    hlive htid hclear (by rw [hlen]; exact hn) hsp
  rw [hlen] at h1 h3 h4
  refine ⟨h1, h2, h3, h4, ?_⟩
  intro order joiner retval k2 hperm hreap
  exact h5 order retval k2 hperm (reap_by_eq_reap_all r joiner retval order k1 k2 hreap)

/-- Witness for C13 (three threads): in `familyDemo` the process `p` (record
2) creates a thread, that thread (slot 3) creates the second one and `p` the
third. They get the table slots 3, 4, 5 and the stack slots 0, 1, 2, all with
`p` as parent; after all three have been joined (the second one first, by the
first thread, the others by `p`) the bitmap of `p` is all clear. -/
theorem thread_slots_allocated_and_freed_witness :
    spawn_by [(2, okAnswers), (3, okAnswers), (2, okAnswers)] familyDemo
        = some ([3, 4, 5], spawnDemo)
      ∧ (spawnDemo.get 2).tspace = [1, 1, 1, 0, 0, 0, 0, 0, 0, 0]
      ∧ (spawnDemo.get 3).tspace = [1, 0, 0, 0, 0, 0, 0, 0, 0, 0]
      ∧ (spawnDemo.get 4).tspace = [0, 1, 0, 0, 0, 0, 0, 0, 0, 0]
      ∧ (spawnDemo.get 5).tspace = [0, 0, 1, 0, 0, 0, 0, 0, 0, 0]
      ∧ (spawnDemo.get 4).parent = some 2
      ∧ reap_by (fun a => if a = 4 then 3 else 2) (fun a => a) [4, 3, 5] spawnDemo
          = some joinedDemo
      ∧ (joinedDemo.get 2).tspace = [0, 0, 0, 0, 0, 0, 0, 0, 0, 0] := by
  have hsp : spawn_by [(2, okAnswers), (3, okAnswers), (2, okAnswers)] familyDemo
      = some ([3, 4, 5], spawnDemo) := by decide
  have hre : reap_by (fun a => if a = 4 then 3 else 2) (fun a => a) [4, 3, 5] spawnDemo
      = some joinedDemo := by decide
  obtain ⟨_, _, hroot, _, hjoin⟩ := thread_slots_allocated_and_freed 2
    [(2, okAnswers), (3, okAnswers), (2, okAnswers)] familyDemo [3, 4, 5] spawnDemo
    (by decide) (by decide) (by decide) (by decide) (by decide) (by decide) hsp
    (by
      intro i c hc
      rcases i with _ | _ | _ | i
      · simp at hc
        subst hc
        exact Or.inl (ThreadRoot.root 2 (by decide) (by decide))
      · simp at hc
        subst hc
        exact Or.inr (by decide)
      · simp at hc
        subst hc
        exact Or.inl (ThreadRoot.root 2 (by decide) (by decide))
      · simp at hc)
  refine ⟨hsp, hroot.trans (by decide), by decide, by decide, by decide, by decide, hre, ?_⟩
  exact (hjoin [4, 3, 5] (fun a => if a = 4 then 3 else 2) (fun a => a) joinedDemo
    (by decide) hre).trans (by decide)

/-! ## Stride scan, address spaces, ticket total and failed thread creation -/

/-- The locals a `ref` loop ends with depend on the copy it starts from and on
the slots `i .. i + fuel - 1` only, where `fuel + 1` iterations remain: the
slot loaded by the last step is never tested. -/
theorem refLoopFrom_agree {σ : Type} (k k1 : Kernel) (body : Proc → σ → Proc × σ × Bool) :
    ∀ (fuel i : Nat) (ref : Proc) (s : σ),
      (∀ j, i ≤ j → j < i + fuel → k.get j = k1.get j) →
      (refLoopFrom k body (fuel + 1) i ref s).2 = (refLoopFrom k1 body (fuel + 1) i ref s).2 := by
  intro fuel
  induction fuel with
  | zero =>
    intro i ref s _
    simp only [refLoopFrom]
    rcases body ref s with ⟨r1, s1, b⟩
    cases b <;> rfl
  | succ n ih =>
    intro i ref s h
    rw [refLoopFrom, refLoopFrom.eq_2 k1]
    rcases hb : body ref s with ⟨r1, s1, b⟩
    cases b
    · simp only
      rw [h i (Nat.le_refl i) (by omega)]
      exact ih (i + 1) (k1.get i) s1 (fun j h1 h2 => h j (by omega) (by omega))
    · rfl

/-- The reference value of the stride path does not depend on the last table
slot: two tables of the same length (at least 2) that agree on every slot but
the last get the same `ps_val`, whatever the last slot holds. -/
theorem stride_ps_val_ignores_last_slot (swtch swtch1 : Nat → Kernel → Kernel) (k k1 : Kernel)
    (hlen : k1.ptable.length = k.ptable.length) (h2 : 2 ≤ k.ptable.length)
    (hagree : ∀ j, j + 1 < k.ptable.length → k.get j = k1.get j) :
    (stride_path swtch k).2.1 = (stride_path swtch1 k1).2.1 := by
  obtain ⟨m, hm⟩ : ∃ m, k.ptable.length = m + 1 := ⟨k.ptable.length - 1, by omega⟩
  have h0 : k.get 0 = k1.get 0 := hagree 0 (by omega)
  have hscan : ∀ (body : Proc → Int → Proc × Int × Bool) (s : Int),
      (refLoop k body s).2 = (refLoop k1 body s).2 := by
    intro body s
    unfold refLoop
    rw [hlen, hm, h0]
    exact refLoopFrom_agree k k1 body m 0 (k1.get 0) s (fun j _ hj => hagree j (by omega))
  show (refLoop k stride_scan_min (refLoop k stride_scan_first 0).2).2
    = (refLoop k1 stride_scan_min (refLoop k1 stride_scan_first 0).2).2
  rw [hscan stride_scan_first 0, hscan stride_scan_min]

/-- C21 (code defect): the two scans of the stride path use the step
`for(i = 0, ref = ptable.proc[i]; i < NPROC; ref = ptable.proc[i++])`, which
tests slot `i - 1` in iteration `i` and never tests the last slot. In
`strideLastDemo` the RUNNABLE ticket holders are slot 2 (pass value 8) and
the last slot 63 (pass value 3): the minimum is 3, the path computes
`ps_val = 8` and gives its only turn to slot 2, whose pass value grows by its
stride 2 to 10; slot 63 is left as it was. -/
theorem stride_scan_skips_last_slot :
    strideLastDemo.ptable.length = 64
      ∧ (strideLastDemo.get 63).state = procstate.RUNNABLE
      ∧ (strideLastDemo.get 63).tickets = 50
      ∧ (strideLastDemo.get 63).pass_value = 3
      ∧ (strideLastDemo.get 2).state = procstate.RUNNABLE
      ∧ (strideLastDemo.get 2).tickets = 30
      ∧ (strideLastDemo.get 2).pass_value = 8
      ∧ (stride_path (fun i s => yield i 0 s) strideLastDemo).2.1 = 8
      ∧ (stride_path (fun i s => yield i 0 s) strideLastDemo).2.2 = [(2, strideLastDemo.get 2)]
      ∧ ((stride_path (fun i s => yield i 0 s) strideLastDemo).1.get 2).pass_value = 10
      ∧ (stride_path (fun i s => yield i 0 s) strideLastDemo).1.get 63
          = strideLastDemo.get 63 := by
  set_option maxRecDepth 100000 in decide

/-- Whenever a running caller's ZOMBIE children are all threads of its own
group (thread ID above 0, sharing the caller's page directory) and there is
at least one, `wait` returns after calling `freevm` on the caller's page
directory, and the caller's record is afterwards as it was: live, with that
page directory. -/
theorem wait_frees_callers_pgdir (nz : Bool) (proc i : Nat) (k : Kernel)
    (hrun : (k.get proc).state = procstate.RUNNING)
    (hchild : (k.get i).parent = some proc) (hz : (k.get i).state = procstate.ZOMBIE)
    (hthreads : ∀ j, (k.get j).parent = some proc → (k.get j).state = procstate.ZOMBIE →
      (k.get j).tid > 0 ∧ (k.get j).pgdir = (k.get proc).pgdir) :
    ∃ r, wait_pass nz proc k = Outcome.ret r ∧ r.freevm = [(k.get proc).pgdir]
      ∧ r.k.get proc = k.get proc
      ∧ ∃ j, r.reaped = some j ∧ (k.get j).tid > 0 ∧ (k.get j).parent = some proc := by
  have hnz : (k.get proc).state ≠ procstate.ZOMBIE := by rw [hrun]; decide
  obtain ⟨_, hself, _⟩ := wait_sweep_frame nz proc k hnz
  rcases wait_pass_cases nz proc k hnz with ⟨j, hp, hzj, hw⟩ | ⟨hnone, _⟩
  · obtain ⟨htid, hpg⟩ := hthreads j hp hzj
    refine ⟨_, hw, ?_, ?_, j, rfl, htid, hp⟩
    · show [(k.get j).pgdir] = _
      rw [hpg]
    · have hne : ¬ (j = proc) := by
        intro h
        rw [h] at hzj
        exact hnz hzj
      show ((forEachProc k.ptable.length (wait_sweep_body nz) k).modify j wait_clear).get proc = _
      rw [get_modify]
      simp only [hne, false_and, if_false]
      exact hself
  · exact absurd ⟨hchild, hz⟩ (hnone i)

/-- C22 (code defect): the second loop of `wait` reaps any ZOMBIE record whose
parent is the caller and passes its page directory to `freevm`, without
looking at `tid`. In `joinDemo` the running process `p` (record 2, page
directory 30) has a ZOMBIE thread (record 3, thread ID 1) that shares that
page directory: `wait` called by `p` returns the thread's pid 3 and has called
`freevm` on page directory 30, which is still the address space of the
running caller. -/
theorem wait_frees_shared_pgdir :
    (joinDemo.get 2).state = procstate.RUNNING
      ∧ (joinDemo.get 2).pgdir = some 30
      ∧ (joinDemo.get 3).state = procstate.ZOMBIE
      ∧ (joinDemo.get 3).tid = 1
      ∧ (joinDemo.get 3).parent = some 2
      ∧ (joinDemo.get 3).pgdir = some 30
      ∧ (∀ nz, ∃ r, wait_pass nz 2 joinDemo = Outcome.ret r ∧ r.value = 3
          ∧ r.reaped = some 3 ∧ r.freevm = [some 30]
          ∧ (r.k.get 2).state = procstate.RUNNING ∧ (r.k.get 2).pgdir = some 30) := by
  refine ⟨by decide, by decide, by decide, by decide, by decide, by decide, ?_⟩
  intro nz
  cases nz
  · exact ⟨_, rfl, by decide, by decide, by decide, by decide, by decide⟩
  · exact ⟨_, rfl, by decide, by decide, by decide, by decide, by decide⟩

/-- A fitting request (no 32-bit overflow) raises `total_tickets` by the whole
share and the sum of the tickets fields by the share less what the caller
held before: each successful call by a unit that already holds tickets widens
the gap between the two by the tickets it held. -/
theorem set_cpu_share_total_and_sum (k : Kernel) (proc : Nat) (share : Int)
    (hproc : proc < k.ptable.length) (hmin : INT_MIN ≤ k.total_tickets)
    (hpos : 0 < share) (hfit : k.total_tickets + share ≤ 80) :
    (set_cpu_share proc share k).2.total_tickets = k.total_tickets + share
      ∧ ((set_cpu_share proc share k).2.ptable.map (fun p => p.tickets)).sum
          = (k.ptable.map (fun p => p.tickets)).sum + share - (k.get proc).tickets := by
  have hw : wrap32 (k.total_tickets + share) = k.total_tickets + share := by
    apply wrap32_of_range
    · unfold INT_MIN at hmin ⊢; omega
    · unfold INT_MAX; omega
  have hfit2 : wrap32 (k.total_tickets + share) ≤ 80 := by rw [hw]; exact hfit
  rw [set_cpu_share_success proc share k hpos hfit2]
  refine ⟨?_, ?_⟩
  · rw [stride_realloc_total, total_modify, total_setTotal, hw]
  · have hlist : (stride_realloc (((k.modify proc (fun p => { p with tickets := share })).setTotal
        (wrap32 (k.total_tickets + share))).modify proc
          (fun p => { p with pass_value := 0 }))).ptable.map (fun p => p.tickets)
        = (k.ptable.map (fun p => p.tickets)).set proc share := by
      apply List.ext_getElem?
      intro j
      simp only [stride_realloc, Kernel.modify, Kernel.setTotal, Kernel.get, List.map_map,
        List.getElem?_map, List.getElem?_set, List.length_set, List.length_map,
        List.getD_eq_getElem?_getD]
      by_cases hj : proc = j
      · subst hj
        simp only [hproc, if_true, List.getElem?_eq_getElem, Option.map_some', Option.getD_some,
          Function.comp_apply]
        split <;> rfl
      · simp only [hj, if_false]
        cases k.ptable[j]? with
        | none => rfl
        | some q =>
          simp only [Option.map_some', Function.comp_apply]
          split <;> rfl
    have hlen : proc < (k.ptable.map (fun p => p.tickets)).length := by
      rw [List.length_map]; exact hproc
    have hget : (k.ptable.map (fun p => p.tickets))[proc] = (k.get proc).tickets := by
      simp only [List.getElem_map, Kernel.get, List.getD_eq_getElem?_getD,
        List.getElem?_eq_getElem hproc, Option.getD_some]
    rw [hlist, List.sum_set', dif_pos hlen, hget]
    omega

/-- C23 (code defect): `set_cpu_share` overwrites the caller's tickets but
adds the whole new share to `total_tickets`. From `demo` (no tickets, total
0) unit 2 calls `set_cpu_share(10)` twice; both calls return 10. Afterwards
the tickets fields sum to 10 and `total_tickets` is 20. When unit 2 then
exits, no record holds tickets and `total_tickets` is 10. -/
theorem set_cpu_share_twice_overcounts :
    demo.total_tickets = 0
      ∧ demo.ptable.map (fun p => p.tickets) = [0, 0, 0, 0, 0]
      ∧ (set_cpu_share 2 10 demo).1 = 10
      ∧ (set_cpu_share 2 10 demo).2.total_tickets = 10
      ∧ (set_cpu_share 2 10 (set_cpu_share 2 10 demo).2).1 = 10
      ∧ twiceDemo.ptable.map (fun p => p.tickets) = [0, 0, 10, 0, 0]
      ∧ (twiceDemo.ptable.map (fun p => p.tickets)).sum = 10
      ∧ twiceDemo.total_tickets = 20
      ∧ (exit 2 twiceDemo).map (fun k => k.ptable.map (fun p => p.tickets))
          = some [0, 0, 0, 0, 0]
      ∧ (exit 2 twiceDemo).map (fun k => k.total_tickets) = some 10 := by
  set_option maxRecDepth 100000 in decide

theorem kstack_modify (k : Kernel) (i : Nat) (f : Proc → Proc) (j : Nat)
    (hf : ∀ p, (f p).kstack = p.kstack) : ((k.modify i f).get j).kstack = (k.get j).kstack := by
  rw [get_modify]
  split
  · exact hf _
  · rfl

theorem get_thread_create_inherit_kstack (nt r : Nat) (k2 : Kernel) (j : Nat) :
    ((thread_create_inherit nt r k2).get j).kstack = (k2.get j).kstack := by
  have ht : ∀ k3 : Kernel, ((thread_create_tickets nt r k3).get j).kstack = (k3.get j).kstack := by
    intro k3
    unfold thread_create_tickets
    split
    · refine kstack_modify _ _ _ _ ?_
      intro p; rfl
    · rfl
  unfold thread_create_inherit
  refine Eq.trans (kstack_modify _ _ _ _ ?_) ?_
  · intro p; rfl
  refine Eq.trans (kstack_modify _ _ _ _ ?_) ?_
  · intro p; rfl
  rw [get_setNextpid]
  refine Eq.trans (kstack_modify _ _ _ _ ?_) ?_
  · intro p; rfl
  refine Eq.trans (ht _) ?_
  refine kstack_modify _ _ _ _ ?_
  intro p; rfl

/-- Whenever a live caller that is not a thread has no free stack slot and the
table has a free record, `thread_create` returns -1 and leaves that record,
which was UNUSED, in EMBRYO with the kernel stack it was given; the thread ID
counter has advanced, the caller's bitmap and every other record are as
before. -/
theorem thread_create_full_bitmap (a : Answers) (proc : Nat) (k : Kernel) (nt ks : Nat)
    (hks : a.kalloc = some ks)
    (hfree : findUnused k (List.range k.ptable.length) = some nt)
    (hlive : (k.get proc).state ≠ procstate.UNUSED) (htid : (k.get proc).tid ≤ 0)
    (hfull : tspace_find (k.get proc).tspace 0 = none) :
    ∃ k1, thread_create a proc k = some (-1, none, k1)
      ∧ (k.get nt).state = procstate.UNUSED
      ∧ (k1.get nt).state = procstate.EMBRYO ∧ (k1.get nt).kstack = some ks
      ∧ (k1.get proc).tspace = (k.get proc).tspace
      ∧ k1.nexttid = wrap32 (k.nexttid + 1)
      ∧ ∀ j, j ≠ nt → k1.get j = k.get j := by
  obtain ⟨hmem, hU⟩ := findUnused_some k _ nt hfree
  have hlt : nt < k.ptable.length := List.mem_range.mp hmem
  have hne : proc ≠ nt := by
    intro h
    rw [h] at hlive
    exact hlive hU
  have h1 : (allocproc a.kalloc k).1 = some nt := by
    unfold allocproc
    simp only [hfree, hks]
  have hall : allocproc a.kalloc k = (some nt, (allocproc a.kalloc k).2) := Prod.ext h1 rfl
  generalize (allocproc a.kalloc k).2 = ka at hall
  obtain ⟨ks1, hks1, _, _, _, hlen1, htid1, _, _, hother1, hnt1⟩ :=
    allocproc_some a.kalloc k nt ka hall
  have hkk : ks1 = ks := by
    rw [hks] at hks1
    exact (Option.some.inj hks1).symm
  subst hkk
  unfold thread_create
  simp only [hall]
  generalize hk2 : (ka.modify nt (fun p => { p with tid := ka.nexttid })).setNexttid
    (wrap32 (ka.nexttid + 1)) = k2
  have hlen2 : k2.ptable.length = k.ptable.length := by
    rw [← hk2, ptable_setNexttid, length_modify, hlen1]
  have hother2 : ∀ j, j ≠ nt → k2.get j = k.get j := by
    intro j hj
    have hj2 : ¬ (nt = j) := fun h => hj h.symm
    rw [← hk2, get_setNexttid, get_modify]
    simp only [hj2, false_and, if_false]
    exact hother1 j hj
  have hnt2 : k2.get nt = { ka.get nt with tid := k.nexttid } := by
    rw [← hk2, get_setNexttid, get_modify, hlen1]
    simp only [hlt, and_self, if_true, htid1]
  have hnext2 : k2.nexttid = wrap32 (k.nexttid + 1) := by
    rw [← hk2, htid1]; rfl
  have hlt2 : nt < k2.ptable.length := by rw [hlen2]; exact hlt
  have hroot : thread_root k2 k2.ptable.length (some proc) = some proc :=
    thread_root_self k2 _ proc (by rw [hother2 proc hne]; exact htid)
  have hfind : tspace_find ((thread_create_inherit nt proc k2).get proc).tspace 0 = none := by
    rw [get_thread_create_inherit_other nt proc k2 proc hne, hother2 proc hne]
    exact hfull
  simp only [hroot, hfind]
  obtain ⟨_, _, i3, _⟩ := get_thread_create_inherit_id nt proc k2 hlt2
  refine ⟨_, rfl, hU, ?_, ?_, ?_, ?_, ?_⟩
  · rw [i3, hnt2, hnt1]
    rfl
  · rw [get_thread_create_inherit_kstack, hnt2, hnt1]
    rfl
  · rw [get_thread_create_inherit_other nt proc k2 proc hne, hother2 proc hne]
  · show (thread_create_tickets nt proc _).nexttid = _
    rw [nexttid_thread_create_tickets]
    exact hnext2
  · intro j hj
    rw [get_thread_create_inherit_other nt proc k2 j hj, hother2 j hj]

/-- C24 (code defect): `thread_create` takes a slot from `allocproc` before it
looks for a free stack slot, and its `return -1` for a full bitmap gives
nothing back. In `fullDemo` the process `p` (record 2) has all ten stack
slots occupied and slot 13 is UNUSED without a kernel stack. The call returns
-1, the bitmap of `p` is unchanged, and slot 13 is left in EMBRYO holding the
kernel stack 100, with the pid of `p` and the thread ID 11; `nexttid` has
advanced to 12. A failing `fork` in the same state gives the slot back. -/
theorem thread_create_full_bitmap_leaks_slot :
    (fullDemo.get 2).tspace = [1, 1, 1, 1, 1, 1, 1, 1, 1, 1]
      ∧ (fullDemo.get 13).state = procstate.UNUSED
      ∧ (fullDemo.get 13).kstack = none
      ∧ fullDemo.nexttid = 11
      ∧ thread_create okAnswers 2 fullDemo = some (-1, none, leakDemo)
      ∧ (leakDemo.get 2).tspace = (fullDemo.get 2).tspace
      ∧ (leakDemo.get 13).state = procstate.EMBRYO
      ∧ (leakDemo.get 13).kstack = some 100
      ∧ (leakDemo.get 13).pid = 3
      ∧ (leakDemo.get 13).tid = 11
      ∧ leakDemo.nexttid = 12
      ∧ leakDemo.ptable ≠ fullDemo.ptable
      ∧ (fork { okAnswers with copyuvm := none } 2 fullDemo).map
          (fun r => (r.1, (r.2.get 13).state, (r.2.get 13).kstack))
          = some (-1, procstate.UNUSED, none) := by
  set_option maxRecDepth 100000 in decide

end Xv6
